import Mathlib

/-!
# WxTaskable: the weekly tree model and the task item store

A shallow embedding of `src/dataview/weeklymodel.cpp`, of the queries of
`src/data/taskitemdata.cpp` and of `CalculateTotalTime` and `RefreshItems` of
`src/frame/mainframe.cpp`.

* The stored tables are lists of rows.  No statement has an `ORDER BY`: the order in
  which a statement yields its rows is the engine's, and is part of the database
  (`Database.rank`).  An `INTEGER` column that a row callback takes as `int` is read
  with its low 32 bits.  A statement that cannot execute throws `sqlite_exception`,
  which is the `Except.error` case of the storage.
* Node objects live in a heap (a list of cells); a pointer is a natural number,
  `0` is `nullptr`, and the pointer `p + 1` addresses cell `p`.  `new` appends a
  cell, so a fresh pointer never aliases an existing one.
* Dereferencing a pointer that addresses no cell has no result (`none`).
* `wxString` is `String`; integers are `Int`, and a conversion to `int`, the result
  of `atol` and `atoll` and the arithmetic of `wxLongLong` are bounded explicitly;
  `unsigned int` column indices and child counts are `Nat` (a child array holds
  fewer than `2 ^ 32` pointers).
-/

namespace app

/-! ## Collaborators that the tree model reads -/

/-- The weekday selector `DateTraverser::Days`. -/
inductive Days where
  | Monday
  | Tuesday
  | Wednesday
  | Thursday
  | Friday
  | Saturday
  | Sunday
deriving DecidableEq, Repr

/-- The seven weekdays in declaration order. -/
def Days.all : List Days :=
  [Days.Monday, Days.Tuesday, Days.Wednesday, Days.Thursday, Days.Friday, Days.Saturday,
    Days.Sunday]

/-- Modelled from the spec: the week anchor `DateTraverser` (its header is not part of the
sources).  All the tree model asks of it is the ISO date of a weekday of the anchored week. -/
structure DateTraverser where
  GetDayISODate : Days → String

namespace model

/-- Modelled from the spec: the owning task of a task item; the tree model reads its date. -/
structure TaskModel where
  mTaskDate : String
deriving DecidableEq, Repr

/-- Modelled from the spec: the project of a task item; the tree model reads its display name. -/
structure ProjectModel where
  mDisplayName : String
deriving DecidableEq, Repr

/-- Modelled from the spec: the category of a task item; the tree model reads its name. -/
structure CategoryModel where
  mName : String
deriving DecidableEq, Repr

/-- Modelled from the spec: the time entry record `model::TaskItemModel` (its header is not
part of the sources).  The fields are the ones that `TaskItemData::GetByDate` fills in. -/
structure TaskItemModel where
  mTaskItemId : Int
  mStartTime : Option String
  mEndTime : Option String
  mDurationTime : Option String
  mDuration : String
  mDescription : String
  bBillable : Bool
  mDateCreated : Int
  mDateModified : Int
  bIsActive : Bool
  mTaskItemTypeId : Int
  mProjectId : Int
  mCategoryId : Int
  mTaskId : Int
  pProject : ProjectModel
  pCategory : CategoryModel
  pTask : TaskModel
deriving DecidableEq, Repr

end model

open model

namespace data

/-! ## The task item store (`src/data/taskitemdata.cpp`) -/

/-- A row of the table `task_items`, with the columns that the statements of `TaskItemData`
name.  The `REAL` column `calculated_rate` is left out. -/
structure TaskItemRow where
  task_item_id : Int
  start_time : Option String
  end_time : Option String
  duration : String
  description : String
  billable : Int
  date_created : Int
  date_modified : Int
  is_active : Int
  task_item_type_id : Int
  project_id : Int
  category_id : Int
  task_id : Int
deriving DecidableEq, Repr

/-- A row of the table `tasks`, with the columns that the statements of `TaskItemData` name. -/
structure TaskRow where
  task_id : Int
  task_date : String
deriving DecidableEq, Repr

/-- A row of the table `categories`; the statements name its key only. -/
structure CategoryRow where
  category_id : Int
deriving DecidableEq, Repr

/-- A row of the table `projects`; the statements name its key only. -/
structure ProjectRow where
  project_id : Int
deriving DecidableEq, Repr

/-- A row of the table `task_item_types`; the statements name its key only. -/
structure TaskItemTypeRow where
  task_item_type_id : Int
deriving DecidableEq, Repr

/-- The stored tables that the statements of `TaskItemData` read and write, each as the list
of its rows. -/
structure Tables where
  task_items : List TaskItemRow
  tasks : List TaskRow
  categories : List CategoryRow
  projects : List ProjectRow
  task_item_types : List TaskItemTypeRow
deriving DecidableEq, Repr

/-- The statements of `TaskItemData` that yield rows, each with its bound value. -/
inductive Statement where
  | getTaskItemById (taskItemId : Int)
  | getTaskItemsByDate (date : String)
  | getTaskHoursByTaskId (date : String)
  | getTaskItemTypeIdByTaskItemId (taskItemId : Int)
deriving DecidableEq, Repr

/-- The database: the stored tables and the order in which the engine yields the rows of a
statement.  No statement of `TaskItemData` has an `ORDER BY`, so the sources do not fix that
order: `rank tables s i` is the place that the engine gives, for the stored `tables`, to the
row at position `i` of the nested scan of statement `s`.  With the default rank the rows are
yielded in the order of the scan. -/
structure Database extends Tables where
  rank : Tables → Statement → Nat → Nat := fun _ _ _ => 0

/-- The rows of statement `s` in the order in which the engine yields them: the rows of the
nested scan, sorted by their rank, rows of equal rank in the order of the scan. -/
def Database.yielded {α : Type} (db : Database) (s : Statement) (rows : List α) : List α :=
  (rows.enum.insertionSort fun a b =>
    db.rank db.toTables s a.1 ≤ db.rank db.toTables s b.1).map Prod.snd

/-- The value with which an `INTEGER` column is read into an `int` parameter of a row
callback: the stored value when it is in the range of a 32 bit `int`, else its low 32 bits
as a signed number. -/
def columnInt (v : Int) : Int :=
  (v + 2147483648) % 4294967296 - 2147483648

/-- The exception `sqlite::sqlite_exception`, with what `get_code()` and `what()` return. -/
structure sqlite_exception where
  code : Int
  what : String
deriving DecidableEq, Repr

/-- The storage behind the connection handle `pConnection`: either the stored tables, or the
error with which a statement fails to execute. -/
abbrev Storage := Except sqlite_exception Database

/-- Modelled from the spec: the lookups by identifier of the other data classes
(`TaskItemTypeData`, `ProjectData`, `CategoryModel`, `TaskData`; none is part of the
sources), which resolve the project, the category and the parent task of a record. -/
structure Lookups where
  projectById : Int → ProjectModel
  categoryById : Int → CategoryModel
  taskById : Int → TaskModel

/-- The row callback shared by `GetById` and `GetByDate`: the record is constructed from the
identifier, duration, description, billable flag, the two timestamps and the active flag;
the duration time is set when both times are null, the two times are set when both are
present; then the type, project, category and task are attached. -/
def shapeTaskItem (lk : Lookups) (taskItemId : Int) (startTime endTime : Option String)
    (duration description : String) (billable : Bool) (dateCreated dateModified : Int)
    (isActive : Bool) (taskItemTypeId projectId categoryId taskId : Int) : TaskItemModel :=
  { mTaskItemId := taskItemId
    mStartTime := if startTime.isSome && endTime.isSome then startTime else none
    mEndTime := if startTime.isSome && endTime.isSome then endTime else none
    mDurationTime := if startTime.isNone && endTime.isNone then some duration else none
    mDuration := duration
    mDescription := description
    bBillable := billable
    mDateCreated := dateCreated
    mDateModified := dateModified
    bIsActive := isActive
    mTaskItemTypeId := taskItemTypeId
    mProjectId := projectId
    mCategoryId := categoryId
    mTaskId := taskId
    pProject := lk.projectById projectId
    pCategory := lk.categoryById categoryId
    pTask := lk.taskById taskId }

/-- The row callback applied to the columns of a `task_items` row: an `INTEGER` column that
the callback takes as `int` is read by `columnInt`, one that it takes as `bool` is true when
it is not zero. -/
def shapeRow (lk : Lookups) (r : TaskItemRow) : TaskItemModel :=
  shapeTaskItem lk (columnInt r.task_item_id) r.start_time r.end_time r.duration r.description
    (decide (r.billable ≠ 0)) (columnInt r.date_created) (columnInt r.date_modified)
    (decide (r.is_active ≠ 0)) (columnInt r.task_item_type_id) (columnInt r.project_id)
    (columnInt r.category_id) (columnInt r.task_id)

/-- The rows of the statement `getTaskItemsByDate`, listed by the nested scan of the tables:
`task_items` inner-joined with `tasks`, `categories`, `projects` and `task_item_types` on
their keys, restricted to the task date and to `is_active = 1`; each row is given by its
`task_items` row and its task date. -/
def scanTaskItemsByDate (db : Database) (date : String) : List (TaskItemRow × String) :=
  db.task_items.flatMap fun ti =>
    (db.tasks.filter fun t => decide (ti.task_id = t.task_id)).flatMap fun t =>
      (db.categories.filter fun c => decide (ti.category_id = c.category_id)).flatMap fun _ =>
        (db.projects.filter fun p => decide (ti.project_id = p.project_id)).flatMap fun _ =>
          (db.task_item_types.filter fun y =>
            decide (ti.task_item_type_id = y.task_item_type_id)).flatMap fun _ =>
              if t.task_date = date ∧ ti.is_active = 1 then [(ti, t.task_date)] else []

/-- The statement `getTaskItemsByDate`: its rows as the engine yields them. -/
def getTaskItemsByDate (db : Database) (date : String) : List (TaskItemRow × String) :=
  db.yielded (Statement.getTaskItemsByDate date) (scanTaskItemsByDate db date)

/-- The rows of the statement `getTaskHoursByTaskId`, listed by the nested scan: the
`task_items` rows inner-joined with `tasks`, restricted to the task date. -/
def scanTaskHoursByTaskId (db : Database) (date : String) : List TaskItemRow :=
  db.task_items.flatMap fun ti =>
    (db.tasks.filter fun t => decide (ti.task_id = t.task_id)).flatMap fun t =>
      if t.task_date = date then [ti] else []

/-- The statement `getTaskHoursByTaskId`: the durations of its rows, as the engine yields
them. -/
def getTaskHoursByTaskId (db : Database) (date : String) : List String :=
  (db.yielded (Statement.getTaskHoursByTaskId date) (scanTaskHoursByTaskId db date)).map
    fun ti => ti.duration

/-- The statement `getTaskItemTypeIdByTaskItemId`: the stored type ids of the rows with the
given task item id, as the engine yields them. -/
def getTaskItemTypeIdByTaskItemId (db : Database) (taskItemId : Int) : List Int :=
  (db.yielded (Statement.getTaskItemTypeIdByTaskItemId taskItemId)
    (db.task_items.filter fun ti => decide (ti.task_item_id = taskItemId))).map
    fun ti => ti.task_item_type_id

/-- `TaskItemData::GetByDate`: one record is pushed back per row that the statement yields. -/
def GetByDate (lk : Lookups) (storage : Storage) (date : String) :
    Except sqlite_exception (List TaskItemModel) :=
  match storage with
  | Except.error e => Except.error e
  | Except.ok db => Except.ok ((getTaskItemsByDate db date).map fun row => shapeRow lk row.1)

/-- `TaskItemData::GetHours`: one duration string is pushed back per yielded row. -/
def GetHours (storage : Storage) (date : String) : Except sqlite_exception (List String) :=
  match storage with
  | Except.error e => Except.error e
  | Except.ok db => Except.ok (getTaskHoursByTaskId db date)

/-- `TaskItemData::GetTaskItemTypeIdByTaskItemId`: the local starts as 0 and is overwritten
by every row that the statement yields, whose column the callback takes as `int`. -/
def GetTaskItemTypeIdByTaskItemId (storage : Storage) (taskItemId : Int) :
    Except sqlite_exception Int :=
  match storage with
  | Except.error e => Except.error e
  | Except.ok db =>
    Except.ok (((getTaskItemTypeIdByTaskItemId db taskItemId).map columnInt).foldl
      (fun _ taskItemType => taskItemType) 0)

/-- The rows of `task_items` that are active, whose task has the given date, and that have a
category, a project and a task item type row. -/
def joinedActiveRows (db : Database) (date : String) : List TaskItemRow :=
  db.task_items.filter fun ti =>
    decide (ti.is_active = 1) &&
    db.tasks.any (fun t => decide (ti.task_id = t.task_id) && decide (t.task_date = date)) &&
    db.categories.any (fun c => decide (ti.category_id = c.category_id)) &&
    db.projects.any (fun p => decide (ti.project_id = p.project_id)) &&
    db.task_item_types.any (fun y => decide (ti.task_item_type_id = y.task_item_type_id))

/-- The rows of `task_items` that are active and whose task has the given date. -/
def activeRowsOfDate (db : Database) (date : String) : List TaskItemRow :=
  db.task_items.filter fun ti =>
    decide (ti.is_active = 1) &&
    db.tasks.any (fun t => decide (ti.task_id = t.task_id) && decide (t.task_date = date))

/-- The keys of the tables that `getTaskItemsByDate` joins to `task_items` are unique. -/
def KeysUnique (db : Database) : Prop :=
  (db.tasks.map fun t => t.task_id).Nodup ∧
  (db.categories.map fun c => c.category_id).Nodup ∧
  (db.projects.map fun p => p.project_id).Nodup ∧
  (db.task_item_types.map fun y => y.task_item_type_id).Nodup

/-- The statement `getTaskItemById`: the rows of `task_items` with the given task item id, as
the engine yields them. -/
def getTaskItemById (db : Database) (taskItemId : Int) : List TaskItemRow :=
  db.yielded (Statement.getTaskItemById taskItemId)
    (db.task_items.filter fun ti => decide (ti.task_item_id = taskItemId))

/-- `TaskItemData::GetById`: the result starts as the null pointer and is replaced by the
record of every row that the statement yields. -/
def GetById (lk : Lookups) (storage : Storage) (taskItemId : Int) :
    Except sqlite_exception (Option TaskItemModel) :=
  match storage with
  | Except.error e => Except.error e
  | Except.ok db =>
    Except.ok ((getTaskItemById db taskItemId).foldl (fun _ row => some (shapeRow lk row)) none)

/-- The effect of the statement `deleteTaskItem` on a row: the row with the given id gets
`is_active = 0` and the given `date_modified`, any other row is left as it is. -/
def deleteRow (dateModified taskItemId : Int) (ti : TaskItemRow) : TaskItemRow :=
  if ti.task_item_id = taskItemId then { ti with is_active := 0, date_modified := dateModified }
  else ti

/-- The statement `deleteTaskItem`, an `UPDATE` of `task_items`. -/
def deleteTaskItem (db : Database) (dateModified taskItemId : Int) : Database :=
  { db with task_items := db.task_items.map (deleteRow dateModified taskItemId) }

/-- `TaskItemData::Delete(int)`: the result is the storage after the call.  `timestamp` is
what `util::UnixTimestamp()` returns; the helper is not part of the sources. -/
def Delete (storage : Storage) (timestamp taskItemId : Int) : Except sqlite_exception Database :=
  match storage with
  | Except.error e => Except.error e
  | Except.ok db => Except.ok (deleteTaskItem db timestamp taskItemId)

/-- `TaskItemData::Delete(std::unique_ptr<model::TaskItemModel>)`. -/
def DeleteModel (storage : Storage) (timestamp : Int) (taskItem : TaskItemModel) :
    Except sqlite_exception Database :=
  Delete storage timestamp taskItem.mTaskItemId

/-! ### Sample tables -/

/-- Lookups that resolve every identifier to the same project, category and task. -/
def sampleLookups : Lookups where
  projectById := fun _ => { mDisplayName := "Timesheets" }
  categoryById := fun _ => { mName := "Programming" }
  taskById := fun _ => { mTaskDate := "2024-01-01" }

/-- An active one-hour duration entry of task 1, project 1, type 1, with the given
identifier and category. -/
def sampleRow (taskItemId categoryId : Int) : TaskItemRow :=
  { task_item_id := taskItemId
    start_time := none
    end_time := none
    duration := "01:00:00"
    description := "work"
    billable := 0
    date_created := 1704067200
    date_modified := 1704067200
    is_active := 1
    task_item_type_id := 1
    project_id := 1
    category_id := categoryId
    task_id := 1 }

/-- Tables with task 1 on 2024-01-01, category 1, project 1, type 1 and two task items:
item 1 of category 1, and item 2 of category 9, for which there is no category row. -/
def sampleDb : Database :=
  { task_items := [sampleRow 1 1, sampleRow 2 9]
    tasks := [{ task_id := 1, task_date := "2024-01-01" }]
    categories := [{ category_id := 1 }]
    projects := [{ project_id := 1 }]
    task_item_types := [{ task_item_type_id := 1 }] }

/-- Tables with task 1 on 2024-01-01, category 1, project 1, type 1 and three active task
items: item 1, item 4294967297, whose id is beyond the range of `int`, and item 3, whose
type id 4294967297 is beyond that range and has no type row. -/
def wideDb : Database :=
  { task_items :=
      [sampleRow 1 1, { sampleRow 4294967297 1 with date_created := 1704067201 },
        { sampleRow 3 1 with task_item_type_id := 4294967297 }]
    tasks := [{ task_id := 1, task_date := "2024-01-01" }]
    categories := [{ category_id := 1 }]
    projects := [{ project_id := 1 }]
    task_item_types := [{ task_item_type_id := 1 }] }

end data

namespace frm

open data

/-! ## The main frame (`src/frame/mainframe.cpp`) -/

/-- The C library test `isspace` in the "C" locale. -/
def isspace (c : Char) : Bool :=
  c = ' ' || c = '\t' || c = '\n' || c = '\x0b' || c = '\x0c' || c = '\r'

/-- The value of the leading decimal digits of a character sequence, on top of `acc`. -/
def digitsValue : List Char → Int → Int
  | [], acc => acc
  | c :: cs, acc =>
    if c.isDigit then digitsValue cs (acc * 10 + ((c.toNat : Int) - 48)) else acc

/-- The number that `atol` and `atoll` read from a string: white space is skipped, an
optional sign is read, then the decimal digits that follow; the number is 0 when there are
none. -/
def decimalValue (s : String) : Int :=
  match s.toList.dropWhile isspace with
  | '-' :: cs => -digitsValue cs 0
  | '+' :: cs => digitsValue cs 0
  | cs => digitsValue cs 0

/-- The result of a conversion whose result type holds the numbers from `lo` to `hi`: a
number beyond the range is returned as the nearest bound. -/
def saturate (lo hi v : Int) : Int :=
  if v < lo then lo else if hi < v then hi else v

/-- The constant `LONG_MAX`.  The program is built for Windows (the frame calls
`MSWGetTaskBarButton`), where `long` has 32 bits. -/
def LONG_MAX : Int := 2147483647

/-- The constant `LLONG_MAX`: `long long` has 64 bits. -/
def LLONG_MAX : Int := 9223372036854775807

/-- The C library function `atol`: the number read, within the range of `long`. -/
def atol (s : String) : Int :=
  saturate (-LONG_MAX - 1) LONG_MAX (decimalValue s)

/-- The C library function `atoll`: the number read, within the range of `long long`. -/
def atoll (s : String) : Int :=
  saturate (-LLONG_MAX - 1) LLONG_MAX (decimalValue s)

/-- The value of an arithmetic result in `wxLongLong`, a 64 bit signed integer: a result
beyond its range wraps around. -/
def wxLongLong (v : Int) : Int :=
  (v + 9223372036854775808) % 18446744073709551616 - 9223372036854775808

/-- The constructor `wxTimeSpan(hours, minutes, seconds)`: the span in milliseconds, computed
in `wxLongLong`. -/
def wxTimeSpan (hours minutes seconds : Int) : Int :=
  wxLongLong (((hours * 60 + minutes) * 60 + seconds) * 1000)

/-- A row of the list control: the texts of its columns and its item data. -/
structure ListItem where
  columns : List String
  data : Int
deriving DecidableEq, Repr

/-- `wxListCtrl::InsertItem(index, label)`: a new row with the label in column 0 is put at
the index (at the end when the index is beyond it); the index of the new row is returned. -/
def InsertItem : List ListItem → Nat → String → List ListItem × Nat
  | [], _, label => ([{ columns := [label], data := 0 }], 0)
  | items, 0, label => ({ columns := [label], data := 0 } :: items, 0)
  | item :: items, index + 1, label =>
    (item :: (InsertItem items index label).1, (InsertItem items index label).2 + 1)

/-- The text of column `col` in a row's texts is replaced, missing columns being empty. -/
def setColumn : List String → Nat → String → List String
  | [], 0, text => [text]
  | [], col + 1, text => "" :: setColumn [] col text
  | _ :: cols, 0, text => text :: cols
  | c :: cols, col + 1, text => c :: setColumn cols col text

/-- `wxListCtrl::SetItem(index, col, text)`. -/
def SetItem : List ListItem → Nat → Nat → String → List ListItem
  | [], _, _, _ => []
  | item :: items, 0, col, text => { item with columns := setColumn item.columns col text } :: items
  | item :: items, index + 1, col, text => item :: SetItem items index col text

/-- `wxListCtrl::SetItemPtrData(index, data)`. -/
def SetItemPtrData : List ListItem → Nat → Int → List ListItem
  | [], _, _ => []
  | item :: items, 0, data => { item with data := data } :: items
  | item :: items, index + 1, data => item :: SetItemPtrData items index data

/-- The members of `MainFrame` that `CalculateTotalTime` and `RefreshItems` touch: the rows of
the list control, the label of the total hours text, and the calls of `pLogger->error`, each
with its format string, error code and error text. -/
structure MainFrame where
  pListCtrl : List ListItem
  pTotalHoursText : String
  pLogger : List (String × Int × String)
deriving DecidableEq, Repr

/-- The span of one duration string in `CalculateTotalTime`: the string is split at the
colons and the first three fields are read as hours, minutes and seconds; there is no result
when a field is missing.  `split` is `util::lib::split`, which is not part of the sources. -/
def durationSpan (split : String → Char → List String) (duration : String) : Option Int :=
  let durationSplit := split duration ':'
  match durationSplit[0]?, durationSplit[1]?, durationSplit[2]? with
  | some h, some m, some s => some (wxTimeSpan (atol h) (atol m) (atoll s))
  | _, _, _ => none

/-- The loop of `CalculateTotalTime`: the spans of the durations are added to the total, in
`wxLongLong`. -/
def totalDurationLoop (split : String → Char → List String) : List String → Int → Option Int
  | [], totalDuration => some totalDuration
  | duration :: rest, totalDuration =>
    match durationSpan split duration with
    | none => none
    | some currentDuration =>
      totalDurationLoop split rest (wxLongLong (totalDuration + currentDuration))

/-- `MainFrame::CalculateTotalTime`, for the ISO string of the date.  A failing `GetHours` is
logged and leaves the durations empty.  `format` is `wxTimeSpan::Format` with the constant
`constants::TotalHours`, which is not part of the sources. -/
def CalculateTotalTime (frame : MainFrame) (split : String → Char → List String)
    (format : Int → String) (storage : Storage) (dateString : String) : Option MainFrame :=
  let r : List String × List (String × Int × String) :=
    match GetHours storage dateString with
    | Except.ok taskDurations => (taskDurations, frame.pLogger)
    | Except.error e =>
      let entry := ("Error occured on TaskItemData::GetHours() - \x7b0:d\x7d : \x7b1\x7d",
        e.code, e.what)
      ([], frame.pLogger ++ [entry])
  (totalDurationLoop split r.1 0).map fun totalDuration =>
    { frame with pLogger := r.2, pTotalHoursText := format totalDuration }

/-- The body of the loop of `RefreshItems` for one task item; `columnIndex` is 0 when the
body is entered.  The background colour of the row is not modelled. -/
def refreshRow (ctrl : List ListItem) (taskItem : TaskItemModel) : List ListItem :=
  let columnIndex := 0
  let r := InsertItem ctrl columnIndex taskItem.pProject.mDisplayName
  let listIndex := r.2
  let ctrl := SetItem r.1 listIndex (columnIndex + 1) taskItem.pTask.mTaskDate
  let ctrl := SetItem ctrl listIndex (columnIndex + 2) (taskItem.mStartTime.getD "")
  let ctrl := SetItem ctrl listIndex (columnIndex + 3) (taskItem.mEndTime.getD "")
  let ctrl := SetItem ctrl listIndex (columnIndex + 4) taskItem.mDuration
  let ctrl := SetItem ctrl listIndex (columnIndex + 5) taskItem.pCategory.mName
  let ctrl := SetItem ctrl listIndex (columnIndex + 6) taskItem.mDescription
  SetItemPtrData ctrl listIndex taskItem.mTaskItemId

/-- `MainFrame::RefreshItems`, for the ISO string of the date.  A failing `GetByDate` is
logged and ends the method. -/
def RefreshItems (frame : MainFrame) (lk : Lookups) (storage : Storage) (dateString : String) :
    MainFrame :=
  match GetByDate lk storage dateString with
  | Except.error e =>
    let entry := ("Error occured on TaskItemData::GetByDate() - \x7b0:d\x7d : \x7b1\x7d",
      e.code, e.what)
    { frame with pLogger := frame.pLogger ++ [entry] }
  | Except.ok taskItems => { frame with pListCtrl := taskItems.foldl refreshRow frame.pListCtrl }

/-- The edit form `dlg::TaskItemDialog` as a handler constructs it: the entry type (the value
of `constants::TaskItemTypes`), the edit flag, the task item id and the date context. -/
structure TaskItemDialog where
  type : Int
  edit : Bool
  taskItemId : Int
  dateContext : String
deriving DecidableEq, Repr

/-- The message that `ShowInfoBarMessageForEdit` shows in the info bar. -/
inductive InfoBarMessage where
  | OnSuccessfulEdit (item : String)
  | OnErrorEdit (item : String)
deriving DecidableEq, Repr

/-- What the edit handlers take from outside the sources: the return code of showing the
edit form modally, and the values of `wxID_OK` and `ids::ID_ERROR_OCCURED`. -/
structure DialogEnv where
  ShowModal : TaskItemDialog → Int
  wxID_OK : Int
  ID_ERROR_OCCURED : Int

/-- `MainFrame::ShowInfoBarMessageForEdit`: the message shown, if any. -/
def ShowInfoBarMessageForEdit (env : DialogEnv) (modalRetCode : Int) (item : String) :
    Option InfoBarMessage :=
  if modalRetCode = env.wxID_OK then some (InfoBarMessage.OnSuccessfulEdit item)
  else if modalRetCode = env.ID_ERROR_OCCURED then some (InfoBarMessage.OnErrorEdit item)
  else none

/-- What an edit handler has done when it returns: the frame, the edit form it has shown, if
any, and the info bar message it has shown, if any. -/
structure EditOutcome where
  frame : MainFrame
  dialog : Option TaskItemDialog
  infoBar : Option InfoBarMessage
deriving DecidableEq, Repr

/-- The body shared by `OnItemDoubleClick` and `OnPopupMenuEdit`: the type id of the task
item is looked up; a thrown exception is logged and ends the handler; else the type id is
cast to the entry type and the edit form is shown for it. -/
def editTaskItem (frame : MainFrame) (env : DialogEnv) (storage : Storage) (taskItemId : Int)
    (dateContext : String) : EditOutcome :=
  match GetTaskItemTypeIdByTaskItemId storage taskItemId with
  | Except.error e =>
    let entry :=
      ("Error occured on TaskItemData::GetTaskItemTypeIdByTaskItemId() - \x7b0:d\x7d : \x7b1\x7d",
        e.code, e.what)
    { frame := { frame with pLogger := frame.pLogger ++ [entry] }, dialog := none, infoBar := none }
  | Except.ok taskItemTypeId =>
    let editTask : TaskItemDialog :=
      { type := taskItemTypeId, edit := true, taskItemId := taskItemId, dateContext := dateContext }
    let retCode := env.ShowModal editTask
    { frame := frame, dialog := some editTask, infoBar := ShowInfoBarMessageForEdit env retCode "task" }

/-- `MainFrame::OnItemDoubleClick`, for the item data of the event and the date of the date
picker. -/
def OnItemDoubleClick (frame : MainFrame) (env : DialogEnv) (storage : Storage)
    (taskItemId : Int) (dateContext : String) : EditOutcome :=
  editTaskItem frame env storage taskItemId dateContext

/-- `MainFrame::OnPopupMenuEdit`, for the member `mSelectedTaskItemId` and the date of the
date picker. -/
def OnPopupMenuEdit (frame : MainFrame) (env : DialogEnv) (storage : Storage)
    (mSelectedTaskItemId : Int) (dateContext : String) : EditOutcome :=
  editTaskItem frame env storage mSelectedTaskItemId dateContext

/-- The character of a decimal digit. -/
def digitChar (d : Fin 10) : Char := Char.ofNat (48 + d.val)

/-- The numeric field that is written with the given decimal digits, the most significant
digit first. -/
def numeral (ds : List (Fin 10)) : String := String.mk (ds.map digitChar)

/-- The number that the decimal digits stand for, the most significant digit first. -/
def numeralValue (ds : List (Fin 10)) : Nat := Nat.ofDigits 10 (ds.reverse.map Fin.val)

/-- A duration string together with the digits of its hours, minutes and seconds fields. -/
structure DurationFields where
  duration : String
  hours : List (Fin 10)
  minutes : List (Fin 10)
  seconds : List (Fin 10)

/-- The span that a duration of H hours, M minutes and S seconds stands for, in
milliseconds. -/
def DurationFields.span (e : DurationFields) : Int :=
  ((numeralValue e.hours : Int) * 3600 + (numeralValue e.minutes : Int) * 60 +
    (numeralValue e.seconds : Int)) * 1000

/-- A split of a string into the fields between the delimiters. -/
def sampleSplit (s : String) (delimiter : Char) : List String :=
  (s.toList.splitOn delimiter).map String.mk

/-- A dialog environment in which the edit form is closed with `wxID_OK`. -/
def sampleEnv : DialogEnv where
  ShowModal := fun _ => 5100
  wxID_OK := 5100
  ID_ERROR_OCCURED := -1

/-- Tables with task 1 on 2024-01-01 and two task items of that task, with the durations
"01:30:00" and "00:45:15". -/
def hoursDb : Database :=
  { task_items :=
      [{ sampleRow 1 1 with duration := "01:30:00" }, { sampleRow 2 1 with duration := "00:45:15" }]
    tasks := [{ task_id := 1, task_date := "2024-01-01" }]
    categories := [{ category_id := 1 }]
    projects := [{ project_id := 1 }]
    task_item_types := [{ task_item_type_id := 1 }] }

/-- The tables of `hoursDb` with a single task item, whose duration has an hours field of
twenty digits. -/
def longHoursDb : Database :=
  { task_items := [{ sampleRow 1 1 with duration := "99999999999999999999:00:00" }]
    tasks := [{ task_id := 1, task_date := "2024-01-01" }]
    categories := [{ category_id := 1 }]
    projects := [{ project_id := 1 }]
    task_item_types := [{ task_item_type_id := 1 }] }

/-- A frame with one row in the list, a label and an empty log. -/
def sampleFrame : MainFrame :=
  { pListCtrl :=
      [⟨["Timesheets", "2024-01-01", "", "", "01:00:00", "Programming", "work"], 1⟩]
    pTotalHoursText := "Total Hours: 01:00:00"
    pLogger := [] }

end frm

namespace dv

/-! ## Nodes and the heap -/

/-- The members of `WeeklyTreeModelNode`.  A node pointer (`pParent`, an entry of
`mChildren`) is a natural number, `0` being `nullptr`. -/
structure WeeklyTreeModelNode where
  pParent : Nat
  mProjectName : String
  mDuration : String
  mCategoryName : String
  mDescription : String
  mTaskItemId : Int
  bContainer : Bool
  mChildren : List Nat
deriving DecidableEq, Repr

namespace WeeklyTreeModelNode

/-- The six-argument constructor: a leaf. -/
def leaf (parent : Nat) (projectName duration categoryName description : String)
    (taskItemId : Int) : WeeklyTreeModelNode :=
  { pParent := parent
    mProjectName := projectName
    mDuration := duration
    mCategoryName := categoryName
    mDescription := description
    mTaskItemId := taskItemId
    bContainer := false
    mChildren := [] }

/-- The two-argument constructor: a container labelled `branch`.  It does not write
`mTaskItemId`; `raw` is whatever the allocated memory held. -/
def container (parent : Nat) (branch : String) (raw : Int) : WeeklyTreeModelNode :=
  { pParent := parent
    mProjectName := branch
    mDuration := ""
    mCategoryName := ""
    mDescription := ""
    mTaskItemId := raw
    bContainer := true
    mChildren := [] }

def IsContainer (n : WeeklyTreeModelNode) : Bool := n.bContainer

def GetParent (n : WeeklyTreeModelNode) : Nat := n.pParent

def GetChildren (n : WeeklyTreeModelNode) : List Nat := n.mChildren

/-- The array accessor `mChildren.Item(n)`: no result outside the array. -/
def GetNthChild (n : WeeklyTreeModelNode) (i : Nat) : Option Nat := n.mChildren[i]?

def Append (n : WeeklyTreeModelNode) (child : Nat) : WeeklyTreeModelNode :=
  { n with mChildren := n.mChildren ++ [child] }

def GetChildCount (n : WeeklyTreeModelNode) : Nat := n.mChildren.length

def GetProjectName (n : WeeklyTreeModelNode) : String := n.mProjectName

def GetDuration (n : WeeklyTreeModelNode) : String := n.mDuration

def GetCategoryName (n : WeeklyTreeModelNode) : String := n.mCategoryName

def GetDescription (n : WeeklyTreeModelNode) : String := n.mDescription

def GetTaskItemId (n : WeeklyTreeModelNode) : Int := n.mTaskItemId

def SetProjectName (n : WeeklyTreeModelNode) (value : String) : WeeklyTreeModelNode :=
  { n with mProjectName := value }

def SetDuration (n : WeeklyTreeModelNode) (value : String) : WeeklyTreeModelNode :=
  { n with mDuration := value }

def SetCategoryName (n : WeeklyTreeModelNode) (value : String) : WeeklyTreeModelNode :=
  { n with mCategoryName := value }

def SetDescription (n : WeeklyTreeModelNode) (value : String) : WeeklyTreeModelNode :=
  { n with mDescription := value }

def SetTaskItemId (n : WeeklyTreeModelNode) (taskItemId : Int) : WeeklyTreeModelNode :=
  { n with mTaskItemId := taskItemId }

end WeeklyTreeModelNode

/-- The node heap: cell `i` is addressed by the pointer `i + 1`. -/
abbrev Heap := List WeeklyTreeModelNode

/-- Read through a pointer. -/
def deref (h : Heap) (p : Nat) : Option WeeklyTreeModelNode :=
  if p = 0 then none else h[p - 1]?

/-- Allocation by `new`: the node goes to a fresh cell, whose pointer is returned. -/
def alloc (h : Heap) (n : WeeklyTreeModelNode) : Heap × Nat :=
  (h ++ [n], h.length + 1)

/-- Write through a pointer that addresses a cell. -/
def store (h : Heap) (p : Nat) (n : WeeklyTreeModelNode) : Heap :=
  h.set (p - 1) n

/-! ## The per-date buckets `mWeeklyTasksMap` -/

/-- The map from a date string to the task items of that date, as its list of entries. -/
abbrev TasksMap := List (String × List TaskItemModel)

/-- The vector stored under `key`; a key without an entry has the empty vector. -/
def mapFind : TasksMap → String → List TaskItemModel
  | [], _ => []
  | (k, v) :: rest, key => if k = key then v else mapFind rest key

/-- The subscript `map[key]` used as a value: a missing key gets an entry with an empty
vector, and the vector under the key is returned. -/
def mapSubscript : TasksMap → String → TasksMap × List TaskItemModel
  | [], key => ([(key, [])], [])
  | (k, v) :: rest, key =>
    if k = key then ((k, v) :: rest, v)
    else ((k, v) :: (mapSubscript rest key).1, (mapSubscript rest key).2)

/-- The statement `map[key].push_back(item)`. -/
def mapPushBack : TasksMap → String → TaskItemModel → TasksMap
  | [], key, item => [(key, [item])]
  | (k, v) :: rest, key, item =>
    if k = key then (k, v ++ [item]) :: rest else (k, v) :: mapPushBack rest key item

/-! ## The tree model -/

/-- Modelled from the spec: the column enumeration of `weeklymodel.h` (not part of the
sources) has five display columns in the order project, duration, category, description,
identifier, followed by the count `Col_Max`.  This is the project column. -/
def Col_Project : Nat := 0

/-- Modelled from the spec: the duration column of the enumeration of `weeklymodel.h`. -/
def Col_Duration : Nat := 1

/-- Modelled from the spec: the category column of the enumeration of `weeklymodel.h`. -/
def Col_Category : Nat := 2

/-- Modelled from the spec: the description column of the enumeration of `weeklymodel.h`. -/
def Col_Description : Nat := 3

/-- Modelled from the spec: the identifier column of the enumeration of `weeklymodel.h`. -/
def Col_Id : Nat := 4

/-- Modelled from the spec: the number of display columns, the last enumerator of
`weeklymodel.h`. -/
def Col_Max : Nat := 5

/-- The value cell `wxVariant`, as far as the model uses it. -/
inductive wxVariant where
  | null
  | string (s : String)
  | long (n : Int)
deriving DecidableEq, Repr

/-- What the wxWidgets library makes of a variant that is read as a type other than the one
it holds; the model leaves these conversions open. -/
structure wxVariantConversions where
  convertToString : wxVariant → String
  convertToLong : wxVariant → Int

/-- `wxVariant::GetString`: the string a string variant holds, else the library's conversion. -/
def wxVariant.GetString (cv : wxVariantConversions) : wxVariant → String
  | wxVariant.string s => s
  | v => cv.convertToString v

/-- `wxVariant::GetInteger`: the `long` a long variant holds, else the library's conversion. -/
def wxVariant.GetInteger (cv : wxVariantConversions) : wxVariant → Int
  | wxVariant.long n => n
  | v => cv.convertToLong v

/-- The conversion of a `long` value to `int` in a call `SetTaskItemId(long)`: the value
itself when it is in the range of a 32 bit `int`, else wrapped into that range. -/
def longToInt (v : Int) : Int :=
  (v + 2147483648) % 4294967296 - 2147483648

/-- The members of `WeeklyTreeModel`, together with the heap that holds its nodes. -/
structure WeeklyTreeModel where
  heap : Heap
  mWeeklyTasksMap : TasksMap
  mDateTraverser : DateTraverser
  pRoot : Nat
  pMonday : Nat
  pTuesday : Nat
  pWednesday : Nat
  pThursday : Nat
  pFriday : Nat
  pSaturday : Nat
  pSunday : Nat

namespace WeeklyTreeModel

/-- The day container member that belongs to a weekday. -/
def dayNode (m : WeeklyTreeModel) : Days → Nat
  | Days.Monday => m.pMonday
  | Days.Tuesday => m.pTuesday
  | Days.Wednesday => m.pWednesday
  | Days.Thursday => m.pThursday
  | Days.Friday => m.pFriday
  | Days.Saturday => m.pSaturday
  | Days.Sunday => m.pSunday

/-- `SetupNodes`: allocate the root container, labelled with the week's first and last date. -/
def SetupNodes (m : WeeklyTreeModel) (raw : Nat → Int) : WeeklyTreeModel :=
  let weekLabel := "Week " ++ m.mDateTraverser.GetDayISODate Days.Monday ++ " - " ++
    m.mDateTraverser.GetDayISODate Days.Sunday
  let r := alloc m.heap (WeeklyTreeModelNode.container 0 weekLabel (raw (m.heap.length + 1)))
  { m with heap := r.1, pRoot := r.2 }

/-- The two statements shared by the seven `Setup<Day>Node` methods: allocate a container
under the root and append it to the root's children.  Returns the new heap and pointer. -/
def newDayNode (m : WeeklyTreeModel) (raw : Nat → Int) (label : String) : Option (Heap × Nat) :=
  let r := alloc m.heap (WeeklyTreeModelNode.container m.pRoot label (raw (m.heap.length + 1)))
  match deref r.1 m.pRoot with
  | none => none
  | some root => some (store r.1 m.pRoot (root.Append r.2), r.2)

def SetupMondayNode (m : WeeklyTreeModel) (raw : Nat → Int) : Option WeeklyTreeModel :=
  (newDayNode m raw ("Monday " ++ m.mDateTraverser.GetDayISODate Days.Monday)).map
    fun r => { m with heap := r.1, pMonday := r.2 }

def SetupTuesdayNode (m : WeeklyTreeModel) (raw : Nat → Int) : Option WeeklyTreeModel :=
  (newDayNode m raw ("Tuesday " ++ m.mDateTraverser.GetDayISODate Days.Tuesday)).map
    fun r => { m with heap := r.1, pTuesday := r.2 }

def SetupWednesdayNode (m : WeeklyTreeModel) (raw : Nat → Int) : Option WeeklyTreeModel :=
  (newDayNode m raw ("Wednesday " ++ m.mDateTraverser.GetDayISODate Days.Wednesday)).map
    fun r => { m with heap := r.1, pWednesday := r.2 }

def SetupThursdayNode (m : WeeklyTreeModel) (raw : Nat → Int) : Option WeeklyTreeModel :=
  (newDayNode m raw ("Thursday " ++ m.mDateTraverser.GetDayISODate Days.Thursday)).map
    fun r => { m with heap := r.1, pThursday := r.2 }

def SetupFridayNode (m : WeeklyTreeModel) (raw : Nat → Int) : Option WeeklyTreeModel :=
  (newDayNode m raw ("Friday " ++ m.mDateTraverser.GetDayISODate Days.Friday)).map
    fun r => { m with heap := r.1, pFriday := r.2 }

def SetupSaturdayNode (m : WeeklyTreeModel) (raw : Nat → Int) : Option WeeklyTreeModel :=
  (newDayNode m raw ("Saturday " ++ m.mDateTraverser.GetDayISODate Days.Saturday)).map
    fun r => { m with heap := r.1, pSaturday := r.2 }

def SetupSundayNode (m : WeeklyTreeModel) (raw : Nat → Int) : Option WeeklyTreeModel :=
  (newDayNode m raw ("Sunday " ++ m.mDateTraverser.GetDayISODate Days.Sunday)).map
    fun r => { m with heap := r.1, pSunday := r.2 }

/-- The constructor.  The members start out with an empty map and the given anchor; the node
members are set by the setup methods before they are read.  `raw p` is the content of the
memory at `p` before a node is constructed there. -/
def construct (dateTraverser : DateTraverser) (raw : Nat → Int) : Option WeeklyTreeModel :=
  let m : WeeklyTreeModel :=
    { heap := []
      mWeeklyTasksMap := []
      mDateTraverser := dateTraverser
      pRoot := 0, pMonday := 0, pTuesday := 0, pWednesday := 0, pThursday := 0, pFriday := 0
      pSaturday := 0, pSunday := 0 }
  (some (SetupNodes m raw)).bind fun m =>
  (SetupMondayNode m raw).bind fun m =>
  (SetupTuesdayNode m raw).bind fun m =>
  (SetupWednesdayNode m raw).bind fun m =>
  (SetupThursdayNode m raw).bind fun m =>
  (SetupFridayNode m raw).bind fun m =>
  (SetupSaturdayNode m raw).bind fun m =>
  SetupSundayNode m raw

/-- The leaf that `AddMany` constructs for a task item under `dayNodeToAdd`. -/
def leafFor (dayNodeToAdd : Nat) (taskToAdd : TaskItemModel) : WeeklyTreeModelNode :=
  WeeklyTreeModelNode.leaf dayNodeToAdd taskToAdd.pProject.mDisplayName taskToAdd.mDuration
    taskToAdd.pCategory.mName taskToAdd.mDescription taskToAdd.mTaskItemId

/-- One pass of the loop of `AddMany`: construct the leaf, append it to the day node. -/
def addOne (h : Heap) (dayNodeToAdd : Nat) (taskToAdd : TaskItemModel) : Option Heap :=
  let r := alloc h (leafFor dayNodeToAdd taskToAdd)
  match deref r.1 dayNodeToAdd with
  | none => none
  | some day => some (store r.1 dayNodeToAdd (day.Append r.2))

/-- The loop of `AddMany` over the heap. -/
def addManyLoop : Heap → Nat → List TaskItemModel → Option Heap
  | h, _, [] => some h
  | h, dayNodeToAdd, taskToAdd :: rest =>
    match addOne h dayNodeToAdd taskToAdd with
    | none => none
    | some h1 => addManyLoop h1 dayNodeToAdd rest

def AddMany (m : WeeklyTreeModel) (dayNodeToAdd : Nat) (dayTasksToAdd : List TaskItemModel) :
    Option WeeklyTreeModel :=
  (addManyLoop m.heap dayNodeToAdd dayTasksToAdd).map fun h => { m with heap := h }

/-- The first loop of `InitBatch`: every task item is pushed to the vector of its task date. -/
def fillMap (mp : TasksMap) (taskItems : List TaskItemModel) : TasksMap :=
  taskItems.foldl (fun acc taskItem => mapPushBack acc taskItem.pTask.mTaskDate taskItem) mp

/-- One of the seven blocks of `InitBatch`: look up the day's vector in the map by the day's
ISO date and add its items under the day's node. -/
def initDay (m : WeeklyTreeModel) (d : Days) : Option WeeklyTreeModel :=
  let r := mapSubscript m.mWeeklyTasksMap (m.mDateTraverser.GetDayISODate d)
  AddMany { m with mWeeklyTasksMap := r.1 } (m.dayNode d) r.2

def InitBatch (m : WeeklyTreeModel) (taskItems : List TaskItemModel) : Option WeeklyTreeModel :=
  (some { m with mWeeklyTasksMap := fillMap m.mWeeklyTasksMap taskItems }).bind fun m =>
  (initDay m Days.Monday).bind fun m =>
  (initDay m Days.Tuesday).bind fun m =>
  (initDay m Days.Wednesday).bind fun m =>
  (initDay m Days.Thursday).bind fun m =>
  (initDay m Days.Friday).bind fun m =>
  (initDay m Days.Saturday).bind fun m =>
  initDay m Days.Sunday

/-- The seven blocks of `InitBatch` as a loop over a list of weekdays. -/
def initDays : WeeklyTreeModel → List Days → Option WeeklyTreeModel
  | m, [] => some m
  | m, d :: ds => (initDay m d).bind fun m1 => initDays m1 ds

/-- The vector that the map holds under a weekday's ISO date. -/
def dayBucket (m : WeeklyTreeModel) (d : Days) : List TaskItemModel :=
  mapFind m.mWeeklyTasksMap (m.mDateTraverser.GetDayISODate d)

/-- The number of leaves that `initDays m ds` allocates before it reaches the weekday `d`. -/
def leafOffset (m : WeeklyTreeModel) : List Days → Days → Nat
  | [], _ => 0
  | d0 :: ds, d => if d0 = d then 0 else (m.dayBucket d0).length + leafOffset m ds d

def GetColumnCount (_m : WeeklyTreeModel) : Nat := Col_Max

def GetColumnType (_m : WeeklyTreeModel) (col : Nat) : String :=
  if col = Col_Id then "long" else "string"

/-- `GetValue`: the result is the variant after the call and the errors logged by the call,
each as the format string and the argument handed to `wxLogError`.  The item must not be the
null item (`wxASSERT(item.IsOk())`); the node is read only in the branches of the five
columns. -/
def GetValue (m : WeeklyTreeModel) (variant : wxVariant) (item : Nat) (col : Nat) :
    Option (wxVariant × List (String × Nat)) :=
  if item = 0 then none
  else if col = Col_Project then
    (deref m.heap item).map fun node => (wxVariant.string node.GetProjectName, [])
  else if col = Col_Duration then
    (deref m.heap item).map fun node => (wxVariant.string node.GetDuration, [])
  else if col = Col_Category then
    (deref m.heap item).map fun node => (wxVariant.string node.GetCategoryName, [])
  else if col = Col_Description then
    (deref m.heap item).map fun node => (wxVariant.string node.GetDescription, [])
  else if col = Col_Id then
    (deref m.heap item).map fun node => (wxVariant.long node.GetTaskItemId, [])
  else some (variant, [("WeeklyTreeModel::GetValue: wrong column %d", col)])

/-- `SetValue`: the result is the model after the call, the returned flag and the errors
logged by the call.  The item must not be the null item; the node is written only in the
branches of the five columns. -/
def SetValue (m : WeeklyTreeModel) (cv : wxVariantConversions) (variant : wxVariant)
    (item : Nat) (col : Nat) : Option (WeeklyTreeModel × Bool × List (String × Nat)) :=
  if item = 0 then none
  else if col = Col_Project then
    (deref m.heap item).map fun node =>
      ({ m with heap := store m.heap item (node.SetProjectName (variant.GetString cv)) },
        false, [])
  else if col = Col_Duration then
    (deref m.heap item).map fun node =>
      ({ m with heap := store m.heap item (node.SetDuration (variant.GetString cv)) },
        false, [])
  else if col = Col_Category then
    (deref m.heap item).map fun node =>
      ({ m with heap := store m.heap item (node.SetCategoryName (variant.GetString cv)) },
        false, [])
  else if col = Col_Description then
    (deref m.heap item).map fun node =>
      ({ m with heap := store m.heap item (node.SetDescription (variant.GetString cv)) },
        false, [])
  else if col = Col_Id then
    (deref m.heap item).map fun node =>
      ({ m with heap := store m.heap item (node.SetTaskItemId (longToInt (variant.GetInteger cv))) },
        false, [])
  else some (m, false, [("WeeklyTreeModel::SetValue: wrong column %d", col)])

/-- `IsEnabled`. -/
def IsEnabled (_m : WeeklyTreeModel) (_item : Nat) (_col : Nat) : Bool := true

/-- `GetParent`: the null item for a null item and for the root, else the node's parent. -/
def GetParent (m : WeeklyTreeModel) (item : Nat) : Option Nat :=
  if item = 0 then some 0
  else if item = m.pRoot then some 0
  else (deref m.heap item).map WeeklyTreeModelNode.GetParent

def IsContainer (m : WeeklyTreeModel) (item : Nat) : Option Bool :=
  if item = 0 then some true
  else (deref m.heap item).map WeeklyTreeModelNode.IsContainer

/-- The copying loop of `GetChildren`, from position `pos` with `fuel` positions to go. -/
def getChildrenLoop (node : WeeklyTreeModelNode) : Nat → Nat → List Nat → Option (List Nat)
  | 0, _, array => some array
  | fuel + 1, pos, array =>
    match node.GetNthChild pos with
    | none => none
    | some child => getChildrenLoop node fuel (pos + 1) (array ++ [child])

/-- `GetChildren`: the result is the output array after the call and the returned count. -/
def GetChildren (m : WeeklyTreeModel) (parent : Nat) (array : List Nat) :
    Option (List Nat × Nat) :=
  if parent = 0 then some (array ++ [m.pRoot], 1)
  else
    match deref m.heap parent with
    | none => none
    | some node =>
      if node.GetChildCount = 0 then some (array, 0)
      else
        let count := node.GetChildren.length
        (getChildrenLoop node count 0 array).map fun arr => (arr, count)

def ExpandRootNode (m : WeeklyTreeModel) : Nat := m.pRoot

/-- The depth of an item's node: the number of `GetParent` steps that lead from the item to
the root, whose parent is the null item.  `fuel` bounds the number of steps taken. -/
def depth (m : WeeklyTreeModel) : Nat → Nat → Option Nat
  | 0, _ => none
  | fuel + 1, item =>
    match m.GetParent item with
    | none => none
    | some parent => if parent = 0 then some 0 else (depth m fuel parent).map (· + 1)

/-- The life cycle of a model in `WeeklyTaskViewDialog`: construction for a week anchor,
followed by one `InitBatch` with the fetched task items. -/
def build (dateTraverser : DateTraverser) (raw : Nat → Int) (taskItems : List TaskItemModel) :
    Option WeeklyTreeModel :=
  (construct dateTraverser raw).bind fun m => m.InitBatch taskItems

/-- The input records whose task date is the ISO date of the weekday `d`, in input order. -/
def dayItems (dateTraverser : DateTraverser) (taskItems : List TaskItemModel) (d : Days) :
    List TaskItemModel :=
  taskItems.filter fun t => decide (t.pTask.mTaskDate = dateTraverser.GetDayISODate d)

/-- The English name of a weekday. -/
def dayName : Days → String
  | Days.Monday => "Monday"
  | Days.Tuesday => "Tuesday"
  | Days.Wednesday => "Wednesday"
  | Days.Thursday => "Thursday"
  | Days.Friday => "Friday"
  | Days.Saturday => "Saturday"
  | Days.Sunday => "Sunday"

/-- The label that `Setup<Day>Node` gives to the container of a weekday. -/
def dayLabel (dateTraverser : DateTraverser) : Days → String
  | Days.Monday => "Monday " ++ dateTraverser.GetDayISODate Days.Monday
  | Days.Tuesday => "Tuesday " ++ dateTraverser.GetDayISODate Days.Tuesday
  | Days.Wednesday => "Wednesday " ++ dateTraverser.GetDayISODate Days.Wednesday
  | Days.Thursday => "Thursday " ++ dateTraverser.GetDayISODate Days.Thursday
  | Days.Friday => "Friday " ++ dateTraverser.GetDayISODate Days.Friday
  | Days.Saturday => "Saturday " ++ dateTraverser.GetDayISODate Days.Saturday
  | Days.Sunday => "Sunday " ++ dateTraverser.GetDayISODate Days.Sunday

/-- The cell that the constructor allocates for the container of a weekday. -/
def dayAddr : Days → Nat
  | Days.Monday => 2
  | Days.Tuesday => 3
  | Days.Wednesday => 4
  | Days.Thursday => 5
  | Days.Friday => 6
  | Days.Saturday => 7
  | Days.Sunday => 8

/-- The label that `SetupNodes` gives to the root. -/
def weekLabel (dateTraverser : DateTraverser) : String :=
  "Week " ++ dateTraverser.GetDayISODate Days.Monday ++ " - " ++
    dateTraverser.GetDayISODate Days.Sunday

/-- The layout of a model that was constructed for `dateTraverser` and populated by one
`InitBatch` with `taskItems`: where its nodes are and what they hold. -/
structure Populated (dateTraverser : DateTraverser) (raw : Nat → Int)
    (taskItems : List TaskItemModel) (m : WeeklyTreeModel) : Prop where
  root_ptr : m.pRoot = 1
  day_ptr : ∀ d, m.dayNode d = dayAddr d
  anchor : m.mDateTraverser = dateTraverser
  bucket : ∀ d, m.dayBucket d = dayItems dateTraverser taskItems d
  heap_length : m.heap.length =
    8 + (Days.all.map fun d => (dayItems dateTraverser taskItems d).length).sum
  root_node : deref m.heap 1 = some
    { WeeklyTreeModelNode.container 0 (weekLabel dateTraverser) (raw 1) with
      mChildren := [2, 3, 4, 5, 6, 7, 8] }
  day_node : ∀ d, deref m.heap (dayAddr d) = some
    { WeeklyTreeModelNode.container 1 (dayLabel dateTraverser d) (raw (dayAddr d)) with
      mChildren := List.range' (9 + m.leafOffset Days.all d)
        (dayItems dateTraverser taskItems d).length }
  leaf_node : ∀ d i, ∀ hi : i < (dayItems dateTraverser taskItems d).length,
    deref m.heap (9 + m.leafOffset Days.all d + i) =
      some (leafFor (dayAddr d) ((dayItems dateTraverser taskItems d)[i]))

/-- The shape of the upper two levels: the root is a container without a parent and the
only node without a parent, it is what `GetChildren` reports for the null item, its children
are the seven day members in the order Monday to Sunday, these are seven different nodes, and
each is a container under the root that carries the label of its weekday. -/
def WeekShape (m : WeeklyTreeModel) : Prop :=
  m.GetChildren 0 [] = some ([m.pRoot], 1) ∧
  (∃ r, deref m.heap m.pRoot = some r ∧ r.bContainer = true ∧ r.pParent = 0) ∧
  (∀ p n, deref m.heap p = some n → n.pParent = 0 → p = m.pRoot) ∧
  m.GetChildren m.pRoot [] =
    some ([m.pMonday, m.pTuesday, m.pWednesday, m.pThursday, m.pFriday, m.pSaturday,
      m.pSunday], 7) ∧
  [m.pMonday, m.pTuesday, m.pWednesday, m.pThursday, m.pFriday, m.pSaturday,
    m.pSunday].Nodup ∧
  ∀ d, ∃ n, deref m.heap (m.dayNode d) = some n ∧ n.bContainer = true ∧
    n.pParent = m.pRoot ∧ n.mProjectName = dayLabel m.mDateTraverser d

end WeeklyTreeModel

/-! ## Sample data -/

/-- The anchor of the week that starts on Monday 2024-01-01. -/
def week2024 : DateTraverser where
  GetDayISODate
    | Days.Monday => "2024-01-01"
    | Days.Tuesday => "2024-01-02"
    | Days.Wednesday => "2024-01-03"
    | Days.Thursday => "2024-01-04"
    | Days.Friday => "2024-01-05"
    | Days.Saturday => "2024-01-06"
    | Days.Sunday => "2024-01-07"

/-- A one-hour duration entry with the given identifier, task date and description. -/
def entry (taskItemId : Int) (taskDate description : String) : TaskItemModel :=
  { mTaskItemId := taskItemId
    mStartTime := none
    mEndTime := none
    mDurationTime := some "01:00:00"
    mDuration := "01:00:00"
    mDescription := description
    bBillable := false
    mDateCreated := 1704067200
    mDateModified := 1704067200
    bIsActive := true
    mTaskItemTypeId := 1
    mProjectId := 1
    mCategoryId := 1
    mTaskId := 1
    pProject := { mDisplayName := "Timesheets" }
    pCategory := { mName := "Programming" }
    pTask := { mTaskDate := taskDate } }

/-- Memory that holds zero wherever a node is constructed. -/
def zeroed : Nat → Int := fun _ => 0

/-- Two entries on Monday 2024-01-01 and one on Wednesday 2024-01-03. -/
def scenario : List TaskItemModel :=
  [entry 1 "2024-01-01" "A", entry 2 "2024-01-01" "B", entry 3 "2024-01-03" "C"]

/-- The model of the week of 2024-01-01 populated with `scenario`: the root in cell 1, the
day containers in cells 2 to 8, the leaves A, B, C in cells 9, 10, 11. -/
def scenarioModel : WeeklyTreeModel :=
  (WeeklyTreeModel.build week2024 zeroed scenario).get rfl

open WeeklyTreeModel

/-! ## Heap lemmas -/

theorem deref_pos_le {h : Heap} {p : Nat} {n : WeeklyTreeModelNode} (hd : deref h p = some n) :
    0 < p ∧ p ≤ h.length := by
  unfold deref at hd
  split at hd
  · simp at hd
  · obtain ⟨hlt, -⟩ := List.getElem?_eq_some.mp hd
    omega

theorem deref_eq_getElem? {h : Heap} {p : Nat} (hp : 0 < p) : deref h p = h[p - 1]? := by
  unfold deref
  rw [if_neg (by omega)]

theorem deref_none_of_gt {h : Heap} {p : Nat} (hp : h.length < p) : deref h p = none := by
  rw [deref_eq_getElem? (by omega)]
  exact List.getElem?_eq_none (by omega)

theorem store_self {h : Heap} {p : Nat} {n : WeeklyTreeModelNode} (hd : deref h p = some n) :
    store h p n = h := by
  have hp := deref_pos_le hd
  rw [deref_eq_getElem? hp.1] at hd
  unfold store
  apply List.ext_getElem?
  intro i
  rw [List.getElem?_set]
  split
  · next hi => subst hi; rw [hd]; simp; omega
  · rfl

theorem addOne_eq {h : Heap} {p : Nat} {n : WeeklyTreeModelNode} (hd : deref h p = some n)
    (t : TaskItemModel) :
    addOne h p t = some (store (h ++ [leafFor p t]) p (n.Append (h.length + 1))) := by
  have hp := deref_pos_le hd
  have h1 : deref (h ++ [leafFor p t]) p = some n := by
    rw [deref_eq_getElem? hp.1, List.getElem?_append_left (by omega), ← deref_eq_getElem? hp.1]
    exact hd
  simp only [addOne, alloc, h1]

/-- Closed form of the loop of `AddMany` on a day node that exists: the leaves are appended
to the heap in input order and their pointers to the day node's children. -/
theorem addManyLoop_eq (ts : List TaskItemModel) :
    ∀ (h : Heap) (p : Nat) (n : WeeklyTreeModelNode), deref h p = some n →
      addManyLoop h p ts =
        some (store (h ++ ts.map (leafFor p)) p
          { n with mChildren := n.mChildren ++ List.range' (h.length + 1) ts.length }) := by
  induction ts with
  | nil =>
    intro h p n hd
    simp only [addManyLoop, List.map_nil, List.append_nil, List.length_nil, List.range'_zero]
    rw [store_self hd]
  | cons t ts ih =>
    intro h p n hd
    have hp := deref_pos_le hd
    have hlt : p - 1 < h.length := by omega
    have hlt1 : p - 1 < (h ++ [leafFor p t]).length := by simp; omega
    have hd1 : deref (store (h ++ [leafFor p t]) p (n.Append (h.length + 1))) p =
        some (n.Append (h.length + 1)) := by
      rw [deref_eq_getElem? hp.1]
      unfold store
      rw [List.getElem?_set_self hlt1]
    simp only [addManyLoop, addOne_eq hd t]
    rw [ih _ _ _ hd1]
    congr 1
    simp only [store, WeeklyTreeModelNode.Append, List.map_cons, List.length_set,
      List.length_append, List.length_singleton, List.length_cons]
    rw [List.set_append_left _ _ (by simp; omega), List.set_set, List.set_append_left _ _ hlt,
      List.set_append_left _ _ hlt, List.range'_succ]
    simp

/-- The heap after the loop of `AddMany`, see `addManyLoop_eq`. -/
theorem addManyLoop_length {h h1 : Heap} {p : Nat} {n : WeeklyTreeModelNode}
    {ts : List TaskItemModel} (hd : deref h p = some n) (hr : addManyLoop h p ts = some h1) :
    h1.length = h.length + ts.length := by
  rw [addManyLoop_eq ts h p n hd] at hr
  cases hr
  simp [store]

theorem addManyLoop_deref_day {h h1 : Heap} {p : Nat} {n : WeeklyTreeModelNode}
    {ts : List TaskItemModel} (hd : deref h p = some n) (hr : addManyLoop h p ts = some h1) :
    deref h1 p =
      some { n with mChildren := n.mChildren ++ List.range' (h.length + 1) ts.length } := by
  rw [addManyLoop_eq ts h p n hd] at hr
  cases hr
  have hp := deref_pos_le hd
  rw [deref_eq_getElem? hp.1]
  unfold store
  rw [List.getElem?_set_self (by simp; omega)]

theorem addManyLoop_deref_old {h h1 : Heap} {p : Nat} {n : WeeklyTreeModelNode}
    {ts : List TaskItemModel} (hd : deref h p = some n) (hr : addManyLoop h p ts = some h1)
    {q : Nat} (hq : q ≤ h.length) (hne : q ≠ p) : deref h1 q = deref h q := by
  rw [addManyLoop_eq ts h p n hd] at hr
  cases hr
  have hp := deref_pos_le hd
  by_cases hq0 : q = 0
  · subst hq0; rfl
  · rw [deref_eq_getElem? (by omega), deref_eq_getElem? (by omega)]
    unfold store
    rw [List.getElem?_set_ne (by omega), List.getElem?_append_left (by omega)]

theorem addManyLoop_deref_new {h h1 : Heap} {p : Nat} {n : WeeklyTreeModelNode}
    {ts : List TaskItemModel} (hd : deref h p = some n) (hr : addManyLoop h p ts = some h1)
    (i : Nat) : deref h1 (h.length + 1 + i) = (ts.map (leafFor p))[i]? := by
  rw [addManyLoop_eq ts h p n hd] at hr
  cases hr
  have hp := deref_pos_le hd
  rw [deref_eq_getElem? (by omega)]
  unfold store
  rw [List.getElem?_set_ne (by omega), List.getElem?_append_right (by omega)]
  congr 1
  omega

/-! ## Map lemmas -/

theorem mapFind_mapPushBack (mp : TasksMap) (key : String) (item : TaskItemModel) (k : String) :
    mapFind (mapPushBack mp key item) k =
      if key = k then mapFind mp k ++ [item] else mapFind mp k := by
  induction mp with
  | nil =>
    by_cases hk : key = k <;> simp [mapPushBack, mapFind, hk]
  | cons e rest ih =>
    obtain ⟨k0, v⟩ := e
    by_cases h0 : k0 = key
    · subst h0
      by_cases hk : k0 = k <;> simp [mapPushBack, mapFind, hk]
    · by_cases hk : k0 = k
      · subst hk
        simp [mapPushBack, mapFind, h0, Ne.symm h0]
      · simp [mapPushBack, mapFind, h0, hk, ih]

/-- The first loop of `InitBatch` appends to each date's vector the items of that date, in
input order. -/
theorem mapFind_fillMap (taskItems : List TaskItemModel) :
    ∀ (mp : TasksMap) (k : String),
      mapFind (fillMap mp taskItems) k =
        mapFind mp k ++ taskItems.filter (fun t => decide (t.pTask.mTaskDate = k)) := by
  induction taskItems with
  | nil => intro mp k; simp [fillMap]
  | cons t ts ih =>
    intro mp k
    have e : fillMap mp (t :: ts) = fillMap (mapPushBack mp t.pTask.mTaskDate t) ts := rfl
    rw [e, ih, mapFind_mapPushBack]
    by_cases hk : t.pTask.mTaskDate = k <;> simp [hk, List.filter_cons]

theorem mapSubscript_snd (mp : TasksMap) (key : String) :
    (mapSubscript mp key).2 = mapFind mp key := by
  induction mp with
  | nil => rfl
  | cons e rest ih =>
    obtain ⟨k0, v⟩ := e
    by_cases h0 : k0 = key <;> simp [mapSubscript, mapFind, h0, ih]

theorem mapFind_mapSubscript (mp : TasksMap) (key k : String) :
    mapFind (mapSubscript mp key).1 k = mapFind mp k := by
  induction mp with
  | nil =>
    by_cases hk : key = k <;> simp [mapSubscript, mapFind, hk]
  | cons e rest ih =>
    obtain ⟨k0, v⟩ := e
    by_cases h0 : k0 = key
    · simp [mapSubscript, mapFind, h0]
    · by_cases hk : k0 = k
      · subst hk
        simp [mapSubscript, mapFind, h0]
      · simp [mapSubscript, mapFind, h0, hk, ih]

/-! ## The blocks of `InitBatch` -/

theorem InitBatch_eq_initDays (m : WeeklyTreeModel) (taskItems : List TaskItemModel) :
    InitBatch m taskItems =
      initDays { m with mWeeklyTasksMap := fillMap m.mWeeklyTasksMap taskItems } Days.all := by
  simp [InitBatch, initDays, Days.all]

/-- One block of `InitBatch` on a day node that exists. -/
theorem initDay_eq {m : WeeklyTreeModel} {d : Days} {n : WeeklyTreeModelNode}
    (hd : deref m.heap (m.dayNode d) = some n) :
    initDay m d = some
      { m with
        mWeeklyTasksMap := (mapSubscript m.mWeeklyTasksMap (m.mDateTraverser.GetDayISODate d)).1,
        heap := store (m.heap ++ (m.dayBucket d).map (leafFor (m.dayNode d))) (m.dayNode d)
          { n with mChildren := (n.mChildren ++
              List.range' (m.heap.length + 1) (m.dayBucket d).length) } } := by
  simp only [initDay, AddMany, mapSubscript_snd]
  rw [addManyLoop_eq _ _ _ _ hd]
  rfl

theorem leafOffset_congr {m m1 : WeeklyTreeModel} (hb : ∀ d, m1.dayBucket d = m.dayBucket d)
    (ds : List Days) (d : Days) : m1.leafOffset ds d = m.leafOffset ds d := by
  induction ds with
  | nil => rfl
  | cons d1 ds ih => simp only [leafOffset, hb, ih]

/-- What `initDays` does to a model whose day nodes for `ds` exist and are distinct objects:
it succeeds, leaves the members other than the heap and the map entries as they are, appends
to each day node of `ds` the pointers of a fresh block of leaves, one per item of the day's
vector in order, and leaves every other existing node as it is. -/
theorem initDays_spec (ds : List Days) :
    ∀ m : WeeklyTreeModel, ds.Nodup →
      (∀ d ∈ ds, ∃ n, deref m.heap (m.dayNode d) = some n) →
      (∀ d ∈ ds, ∀ d' ∈ ds, m.dayNode d = m.dayNode d' → d = d') →
      ∃ m1, initDays m ds = some m1 ∧
        m1.pRoot = m.pRoot ∧ (∀ d, m1.dayNode d = m.dayNode d) ∧
        m1.mDateTraverser = m.mDateTraverser ∧
        (∀ k, mapFind m1.mWeeklyTasksMap k = mapFind m.mWeeklyTasksMap k) ∧
        m1.heap.length = m.heap.length + (ds.map fun d => (m.dayBucket d).length).sum ∧
        (∀ q, q ≤ m.heap.length → (∀ d ∈ ds, q ≠ m.dayNode d) →
          deref m1.heap q = deref m.heap q) ∧
        (∀ d ∈ ds, ∀ n, deref m.heap (m.dayNode d) = some n →
          deref m1.heap (m.dayNode d) =
            some { n with mChildren := (n.mChildren ++
              List.range' (m.heap.length + 1 + m.leafOffset ds d) (m.dayBucket d).length) }) ∧
        (∀ d ∈ ds, ∀ i, i < (m.dayBucket d).length →
          deref m1.heap (m.heap.length + 1 + m.leafOffset ds d + i) =
            ((m.dayBucket d).map (leafFor (m.dayNode d)))[i]?) := by
  induction ds with
  | nil =>
    intro m _ _ _
    exact ⟨m, rfl, rfl, fun _ => rfl, rfl, fun _ => rfl, by simp, fun _ _ _ => rfl,
      fun d hd => absurd hd (List.not_mem_nil d), fun d hd => absurd hd (List.not_mem_nil d)⟩
  | cons d0 ds ih =>
    intro m hnd hval hinj
    obtain ⟨n0, hn0⟩ := hval d0 (List.mem_cons_self _ _)
    have hp0 := deref_pos_le hn0
    obtain ⟨hd0, hnd'⟩ := List.nodup_cons.mp hnd
    -- the state after the first block
    obtain ⟨ma, hma⟩ : ∃ ma, initDay m d0 = some ma := ⟨_, initDay_eq hn0⟩
    have hma' := hma
    rw [initDay_eq hn0] at hma'
    have hroot : ma.pRoot = m.pRoot := by cases hma'; rfl
    have hday : ∀ d, ma.dayNode d = m.dayNode d := by cases hma'; intro d; cases d <;> rfl
    have hdt : ma.mDateTraverser = m.mDateTraverser := by cases hma'; rfl
    have hmap : ∀ k, mapFind ma.mWeeklyTasksMap k = mapFind m.mWeeklyTasksMap k := by
      cases hma'; intro k; exact mapFind_mapSubscript _ _ _
    have hbucket : ∀ d, ma.dayBucket d = m.dayBucket d := by
      intro d; simp only [dayBucket, hmap, hdt]
    have hloop : addManyLoop m.heap (m.dayNode d0) (m.dayBucket d0) = some ma.heap := by
      cases hma'
      exact addManyLoop_eq _ _ _ _ hn0
    have hlen := addManyLoop_length hn0 hloop
    have hoff : ∀ d, ma.leafOffset ds d = m.leafOffset ds d :=
      fun d => leafOffset_congr hbucket ds d
    have hne0 : ∀ d ∈ ds, m.dayNode d ≠ m.dayNode d0 := by
      intro d hd heq
      have := hinj d (List.mem_cons_of_mem _ hd) d0 (List.mem_cons_self _ _) heq
      exact hd0 (this ▸ hd)
    have hle : ∀ d ∈ ds, m.dayNode d ≤ m.heap.length := by
      intro d hd
      obtain ⟨n, hn⟩ := hval d (List.mem_cons_of_mem _ hd)
      exact (deref_pos_le hn).2
    have hkeep : ∀ d ∈ ds, deref ma.heap (m.dayNode d) = deref m.heap (m.dayNode d) :=
      fun d hd => addManyLoop_deref_old hn0 hloop (hle d hd) (hne0 d hd)
    obtain ⟨m1, hm1, r1, r2, r3, r4, r5, r6, r7, r8⟩ := ih ma hnd'
      (by
        intro d hd
        obtain ⟨n, hn⟩ := hval d (List.mem_cons_of_mem _ hd)
        exact ⟨n, by rw [hday, hkeep d hd, hn]⟩)
      (by
        intro d hd d' hd' heq
        rw [hday, hday] at heq
        exact hinj d (List.mem_cons_of_mem _ hd) d' (List.mem_cons_of_mem _ hd') heq)
    refine ⟨m1, by simp [initDays, hma, hm1], r1.trans hroot, fun d => (r2 d).trans (hday d),
      r3.trans hdt, fun k => (r4 k).trans (hmap k), ?_, ?_, ?_, ?_⟩
    · simp only [r5, hlen, hbucket, List.map_cons, List.sum_cons]
      omega
    · intro q hq hne
      rw [r6 q (by omega) (fun d hd => by rw [hday]; exact hne d (List.mem_cons_of_mem _ hd))]
      exact addManyLoop_deref_old hn0 hloop hq (hne d0 (List.mem_cons_self _ _))
    · intro d hd n hn
      by_cases hdd : d = d0
      · subst hdd
        rw [hn0] at hn
        cases hn
        rw [r6 _ (by omega) (fun d' hd' => by rw [hday]; exact (hne0 d' hd').symm),
          addManyLoop_deref_day hn0 hloop]
        simp [leafOffset]
      · have hd' : d ∈ ds := (List.mem_cons.mp hd).resolve_left hdd
        have h7 := r7 d hd' n (by rw [hday, hkeep d hd', hn])
        rw [hday, hlen, hoff, hbucket] at h7
        rw [h7]
        have e : m.leafOffset (d0 :: ds) d = (m.dayBucket d0).length + m.leafOffset ds d := by
          simp [leafOffset, Ne.symm hdd]
        rw [e]
        have e2 : m.heap.length + (m.dayBucket d0).length + 1 + m.leafOffset ds d =
            m.heap.length + 1 + ((m.dayBucket d0).length + m.leafOffset ds d) := by omega
        rw [e2]
    · intro d hd i hi
      by_cases hdd : d = d0
      · subst hdd
        have e : m.leafOffset (d :: ds) d = 0 := by simp [leafOffset]
        rw [e, r6 _ (by omega) (fun d' hd' => by rw [hday]; have := hle d' hd'; omega)]
        exact addManyLoop_deref_new hn0 hloop i
      · have hd' : d ∈ ds := (List.mem_cons.mp hd).resolve_left hdd
        have h8 := r8 d hd' i (by rw [hbucket]; exact hi)
        rw [hday, hlen, hoff, hbucket] at h8
        have e : m.leafOffset (d0 :: ds) d = (m.dayBucket d0).length + m.leafOffset ds d := by
          simp [leafOffset, Ne.symm hdd]
        rw [e]
        have e2 : m.heap.length + 1 + ((m.dayBucket d0).length + m.leafOffset ds d) + i =
            m.heap.length + (m.dayBucket d0).length + 1 + m.leafOffset ds d + i := by omega
        rw [e2]
        exact h8

/-! ## The constructed and the populated tree -/

/-- The state that the constructor builds: the root in cell 1, the seven day containers in
cells 2 to 8, all of them children of the root in weekday order. -/
theorem construct_eq (dt : DateTraverser) (raw : Nat → Int) :
    construct dt raw = some
      { heap :=
          { WeeklyTreeModelNode.container 0 (weekLabel dt) (raw 1) with
            mChildren := [2, 3, 4, 5, 6, 7, 8] } ::
          Days.all.map fun d => WeeklyTreeModelNode.container 1 (dayLabel dt d) (raw (dayAddr d))
        mWeeklyTasksMap := []
        mDateTraverser := dt
        pRoot := 1, pMonday := 2, pTuesday := 3, pWednesday := 4, pThursday := 5, pFriday := 6
        pSaturday := 7, pSunday := 8 } := by
  simp [construct, SetupNodes, SetupMondayNode, SetupTuesdayNode, SetupWednesdayNode,
    SetupThursdayNode, SetupFridayNode, SetupSaturdayNode, SetupSundayNode, newDayNode, alloc,
    deref, store, WeeklyTreeModelNode.container, WeeklyTreeModelNode.Append, Days.all, dayLabel,
    dayAddr, weekLabel]

theorem Days.all_nodup : Days.all.Nodup := by decide

theorem Days.mem_all (d : Days) : d ∈ Days.all := by cases d <;> decide

theorem dayAddr_injective {d d' : Days} (h : dayAddr d = dayAddr d') : d = d' := by
  cases d <;> cases d' <;> first | rfl | (exact absurd h (by decide))

theorem dayAddr_bounds (d : Days) : 2 ≤ dayAddr d ∧ dayAddr d ≤ 8 := by
  cases d <;> decide

/-- Construction followed by one `InitBatch` succeeds, and the resulting model has the
layout `Populated`. -/
theorem build_spec (dt : DateTraverser) (raw : Nat → Int) (taskItems : List TaskItemModel) :
    ∃ m, build dt raw taskItems = some m ∧ Populated dt raw taskItems m := by
  obtain ⟨m0, hm0⟩ : ∃ m0 : WeeklyTreeModel, m0 =
      { heap :=
          { WeeklyTreeModelNode.container 0 (weekLabel dt) (raw 1) with
            mChildren := [2, 3, 4, 5, 6, 7, 8] } ::
          Days.all.map fun d => WeeklyTreeModelNode.container 1 (dayLabel dt d) (raw (dayAddr d))
        mWeeklyTasksMap := fillMap [] taskItems
        mDateTraverser := dt
        pRoot := 1, pMonday := 2, pTuesday := 3, pWednesday := 4, pThursday := 5, pFriday := 6
        pSaturday := 7, pSunday := 8 } := ⟨_, rfl⟩
  have hb : build dt raw taskItems = initDays m0 Days.all := by
    rw [hm0, build, construct_eq, Option.some_bind, InitBatch_eq_initDays]
  have hptr : ∀ d, m0.dayNode d = dayAddr d := by
    intro d; rw [hm0]; cases d <;> rfl
  have hlen : m0.heap.length = 8 := by rw [hm0]; rfl
  have hroot : deref m0.heap 1 = some
      { WeeklyTreeModelNode.container 0 (weekLabel dt) (raw 1) with
        mChildren := [2, 3, 4, 5, 6, 7, 8] } := by rw [hm0]; rfl
  have hday : ∀ d, deref m0.heap (dayAddr d) =
      some (WeeklyTreeModelNode.container 1 (dayLabel dt d) (raw (dayAddr d))) := by
    intro d; rw [hm0]; cases d <;> rfl
  have hbk : ∀ d, m0.dayBucket d = dayItems dt taskItems d := by
    intro d
    rw [hm0]
    simp [dayBucket, mapFind_fillMap, mapFind, dayItems]
  obtain ⟨m1, h1, r1, r2, r3, r4, r5, r6, r7, r8⟩ := initDays_spec Days.all m0 Days.all_nodup
    (fun d _ => ⟨_, by rw [hptr]; exact hday d⟩)
    (fun d _ d' _ h => by rw [hptr, hptr] at h; exact dayAddr_injective h)
  have hbk1 : ∀ d, m1.dayBucket d = dayItems dt taskItems d := by
    intro d
    rw [← hbk d]
    simp only [dayBucket, r3, r4]
  have hoff : ∀ d, m1.leafOffset Days.all d = m0.leafOffset Days.all d :=
    fun d => leafOffset_congr (fun d' => by rw [hbk1, hbk]) Days.all d
  refine ⟨m1, hb.trans h1, ?_⟩
  constructor
  · rw [r1, hm0]
  · intro d; rw [r2, hptr]
  · rw [r3, hm0]
  · exact hbk1
  · rw [r5, hlen]
    simp only [hbk]
  · rw [r6 1 (by omega) (fun d _ => by rw [hptr]; have := dayAddr_bounds d; omega)]
    exact hroot
  · intro d
    have h7 := r7 d (Days.mem_all d) _ (by rw [hptr]; exact hday d)
    rw [hptr, hlen, hbk] at h7
    rw [h7, hoff]
    rfl
  · intro d i hi
    have h8 := r8 d (Days.mem_all d) i (by rw [hbk]; exact hi)
    rw [hptr, hlen, hbk] at h8
    rw [hoff, h8, List.getElem?_map, List.getElem?_eq_getElem hi]
    rfl

/-! ## Navigation -/

theorem getChildrenLoop_eq (node : WeeklyTreeModelNode) (fuel : Nat) :
    ∀ (pos : Nat) (array : List Nat), pos + fuel = node.mChildren.length →
      getChildrenLoop node fuel pos array = some (array ++ node.mChildren.drop pos) := by
  induction fuel with
  | zero =>
    intro pos array h
    have : node.mChildren.drop pos = [] := List.drop_eq_nil_of_le (by omega)
    simp [getChildrenLoop, this]
  | succ fuel ih =>
    intro pos array h
    have hlt : pos < node.mChildren.length := by omega
    have hget : node.GetNthChild pos = some (node.mChildren[pos]) := by
      simp [WeeklyTreeModelNode.GetNthChild, List.getElem?_eq_getElem hlt]
    simp only [getChildrenLoop, hget]
    rw [ih (pos + 1) _ (by omega), List.drop_eq_getElem_cons hlt]
    simp

/-- `GetChildren` on an item that addresses a node: the node's child pointers are added to
the array in their stored order and their number is returned. -/
theorem GetChildren_eq {m : WeeklyTreeModel} {parent : Nat} {node : WeeklyTreeModelNode}
    (hd : deref m.heap parent = some node) (array : List Nat) :
    m.GetChildren parent array = some (array ++ node.mChildren, node.mChildren.length) := by
  have hp := deref_pos_le hd
  have h0 : parent ≠ 0 := by omega
  simp only [GetChildren, h0, if_false, hd, WeeklyTreeModelNode.GetChildCount,
    WeeklyTreeModelNode.GetChildren]
  by_cases hc : node.mChildren.length = 0
  · have : node.mChildren = [] := List.length_eq_zero.mp hc
    simp [this]
  · rw [if_neg hc, getChildrenLoop_eq node _ 0 array (by omega)]
    simp

/-! ## The blocks of leaves -/

/-- Every position of the block of leaves belongs to one of the weekdays. -/
theorem leafOffset_cover (m : WeeklyTreeModel) (ds : List Days) (hnd : ds.Nodup) :
    ∀ j, j < (ds.map fun d => (m.dayBucket d).length).sum →
      ∃ d ∈ ds, ∃ i, i < (m.dayBucket d).length ∧ j = m.leafOffset ds d + i := by
  induction ds with
  | nil => intro j hj; simp at hj
  | cons d0 ds ih =>
    intro j hj
    obtain ⟨hd0, hnd'⟩ := List.nodup_cons.mp hnd
    simp only [List.map_cons, List.sum_cons] at hj
    by_cases hlt : j < (m.dayBucket d0).length
    · exact ⟨d0, List.mem_cons_self _ _, j, hlt, by simp [leafOffset]⟩
    · obtain ⟨d, hd, i, hi, hji⟩ := ih hnd' (j - (m.dayBucket d0).length) (by omega)
      have hdd : d0 ≠ d := fun h => hd0 (h ▸ hd)
      exact ⟨d, List.mem_cons_of_mem _ hd, i, hi, by simp [leafOffset, hdd]; omega⟩

/-- The blocks of leaves of different weekdays do not overlap. -/
theorem leafOffset_unique (m : WeeklyTreeModel) (ds : List Days) (hnd : ds.Nodup) :
    ∀ d ∈ ds, ∀ d' ∈ ds, ∀ i i', i < (m.dayBucket d).length → i' < (m.dayBucket d').length →
      m.leafOffset ds d + i = m.leafOffset ds d' + i' → d = d' ∧ i = i' := by
  induction ds with
  | nil => intro d hd; exact absurd hd (List.not_mem_nil d)
  | cons d0 ds ih =>
    obtain ⟨hd0, hnd'⟩ := List.nodup_cons.mp hnd
    intro d hd d' hd' i i' hi hi' heq
    by_cases h1 : d0 = d <;> by_cases h2 : d0 = d'
    · subst h1; subst h2
      simp [leafOffset] at heq
      exact ⟨rfl, heq⟩
    · subst h1
      simp [leafOffset, h2] at heq
      omega
    · subst h2
      simp [leafOffset, h1] at heq
      omega
    · simp [leafOffset, h1, h2] at heq
      exact ih hnd' d ((List.mem_cons.mp hd).resolve_left (Ne.symm h1)) d'
        ((List.mem_cons.mp hd').resolve_left (Ne.symm h2)) i i' hi hi' (by omega)

/-- In a populated model every cell after the eight containers holds a leaf of one of the
weekdays. -/
theorem WeeklyTreeModel.Populated.leaf_cover {dt : DateTraverser} {raw : Nat → Int}
    {taskItems : List TaskItemModel} {m : WeeklyTreeModel} (hm : Populated dt raw taskItems m)
    {p : Nat} (h9 : 9 ≤ p) (hp : p ≤ m.heap.length) :
    ∃ d i, i < (dayItems dt taskItems d).length ∧ p = 9 + m.leafOffset Days.all d + i := by
  have hlen := hm.heap_length
  obtain ⟨d, -, i, hi, hji⟩ := leafOffset_cover m Days.all Days.all_nodup (p - 9) (by
    simp only [hm.bucket]
    omega)
  exact ⟨d, i, by rw [← hm.bucket]; exact hi, by omega⟩

/-- The children of a weekday's container in a populated model, as `GetChildren` reports
them. -/
theorem WeeklyTreeModel.Populated.GetChildren_day {dt : DateTraverser} {raw : Nat → Int}
    {taskItems : List TaskItemModel} {m : WeeklyTreeModel} (hm : Populated dt raw taskItems m)
    (d : Days) (array : List Nat) :
    m.GetChildren (m.dayNode d) array =
      some (array ++ List.range' (9 + m.leafOffset Days.all d) (dayItems dt taskItems d).length,
        (dayItems dt taskItems d).length) := by
  rw [hm.day_ptr, GetChildren_eq (hm.day_node d)]
  simp

/-- The nodes that the children of a weekday's container address are the leaves built from
the weekday's items, in order. -/
theorem WeeklyTreeModel.Populated.leaves_day {dt : DateTraverser} {raw : Nat → Int}
    {taskItems : List TaskItemModel} {m : WeeklyTreeModel} (hm : Populated dt raw taskItems m)
    (d : Days) :
    (List.range' (9 + m.leafOffset Days.all d) (dayItems dt taskItems d).length).map
        (deref m.heap) =
      (dayItems dt taskItems d).map fun t => some (leafFor (m.dayNode d) t) := by
  apply List.ext_getElem
  · simp
  · intro i h1 h2
    simp only [List.length_map, List.length_range'] at h1
    simp only [List.getElem_map, List.getElem_range', Nat.one_mul]
    rw [hm.leaf_node d i h1]
    exact congrArg (fun p => some (leafFor p _)) (hm.day_ptr d).symm

/-! ## Grouping by date -/

/-- Splitting a list by the values of an injective key, over distinct key sources, yields
parts that together take each element at most once. -/
theorem flatMap_filter_subperm (f : Days → String) (hf : Function.Injective f)
    (ks : List Days) (hnd : ks.Nodup) :
    ∀ l : List TaskItemModel,
      (ks.flatMap fun k => l.filter fun t => decide (t.pTask.mTaskDate = f k)).Subperm l := by
  induction ks with
  | nil => intro l; exact List.nil_subperm
  | cons k ks ih =>
    intro l
    obtain ⟨hk, hnd'⟩ := List.nodup_cons.mp hnd
    have hrest : (ks.flatMap fun k' => l.filter fun t => decide (t.pTask.mTaskDate = f k')) =
        ks.flatMap fun k' => (l.filter fun t => !decide (t.pTask.mTaskDate = f k)).filter
          fun t => decide (t.pTask.mTaskDate = f k') := by
      simp only [List.flatMap]
      congr 1
      apply List.map_congr_left
      intro k' hk'
      rw [List.filter_filter]
      apply List.filter_congr
      intro t _
      have hne : f k' ≠ f k := fun h => hk (hf h ▸ hk')
      by_cases ht : t.pTask.mTaskDate = f k'
      · simp [ht, hne]
      · simp [ht]
    rw [List.flatMap_cons, hrest]
    exact ((List.subperm_append_left _).mpr (ih hnd' _)).trans
      (List.filter_append_perm _ l).subperm

/-! ## The claims about the populated tree -/

/-- C1: after the construction of the model for a week anchor and one `InitBatch`, every
input record has a leaf among the children of the day container whose ISO date equals the
record's task date: a child that addresses the leaf built from the record under that
container. -/
theorem C1_record_has_leaf_under_its_day (dt : DateTraverser) (raw : Nat → Int)
    (taskItems : List TaskItemModel) (t : TaskItemModel) (ht : t ∈ taskItems) (d : Days)
    (hd : dt.GetDayISODate d = t.pTask.mTaskDate) :
    ∃ m kids leaf, build dt raw taskItems = some m ∧
      m.GetChildren (m.dayNode d) [] = some (kids, kids.length) ∧ leaf ∈ kids ∧
      deref m.heap leaf = some (leafFor (m.dayNode d) t) := by
  obtain ⟨m, hb, hm⟩ := build_spec dt raw taskItems
  have hmem : t ∈ dayItems dt taskItems d := by
    simp [dayItems, ht, hd]
  obtain ⟨i, hi, hti⟩ := List.getElem_of_mem hmem
  refine ⟨m, List.range' (9 + m.leafOffset Days.all d) (dayItems dt taskItems d).length,
    9 + m.leafOffset Days.all d + i, hb, ?_, ?_, ?_⟩
  · rw [hm.GetChildren_day d []]
    simp
  · simp only [List.mem_range'_1]
    omega
  · rw [hm.leaf_node d i hi, hti, hm.day_ptr]

/-- C1 at a single Monday entry in the week of 2024-01-01. -/
theorem C1_record_has_leaf_under_its_day_witness :
    ∃ m kids leaf, build week2024 zeroed [entry 1 "2024-01-01" "A"] = some m ∧
      m.GetChildren (m.dayNode Days.Monday) [] = some (kids, kids.length) ∧ leaf ∈ kids ∧
      deref m.heap leaf = some (leafFor (m.dayNode Days.Monday) (entry 1 "2024-01-01" "A")) :=
  C1_record_has_leaf_under_its_day week2024 zeroed [entry 1 "2024-01-01" "A"]
    (entry 1 "2024-01-01" "A") (by simp) Days.Monday rfl

/-- C3: after one `InitBatch` the children of each day container address, in order, the
leaves built from the input records whose task date is that day's ISO date, taken in input
order: a stable grouping. -/
theorem C3_leaves_in_input_order (dt : DateTraverser) (raw : Nat → Int)
    (taskItems : List TaskItemModel) (d : Days) :
    ∃ m kids, build dt raw taskItems = some m ∧
      m.GetChildren (m.dayNode d) [] = some (kids, kids.length) ∧
      kids.map (deref m.heap) =
        (taskItems.filter fun t => decide (t.pTask.mTaskDate = dt.GetDayISODate d)).map
          fun t => some (leafFor (m.dayNode d) t) := by
  obtain ⟨m, hb, hm⟩ := build_spec dt raw taskItems
  refine ⟨m, List.range' (9 + m.leafOffset Days.all d) (dayItems dt taskItems d).length,
    hb, ?_, ?_⟩
  · rw [hm.GetChildren_day d []]
    simp
  · exact hm.leaves_day d

theorem dayAddr_surj {p : Nat} (h2 : 2 ≤ p) (h8 : p ≤ 8) : ∃ d, p = dayAddr d := by
  interval_cases p
  · exact ⟨Days.Monday, rfl⟩
  · exact ⟨Days.Tuesday, rfl⟩
  · exact ⟨Days.Wednesday, rfl⟩
  · exact ⟨Days.Thursday, rfl⟩
  · exact ⟨Days.Friday, rfl⟩
  · exact ⟨Days.Saturday, rfl⟩
  · exact ⟨Days.Sunday, rfl⟩

/-- The members of a populated model that name the day containers. -/
theorem WeeklyTreeModel.Populated.members {dt : DateTraverser} {raw : Nat → Int}
    {taskItems : List TaskItemModel} {m : WeeklyTreeModel} (hm : Populated dt raw taskItems m) :
    [m.pMonday, m.pTuesday, m.pWednesday, m.pThursday, m.pFriday, m.pSaturday, m.pSunday] =
      [2, 3, 4, 5, 6, 7, 8] := by
  have h1 := hm.day_ptr Days.Monday
  have h2 := hm.day_ptr Days.Tuesday
  have h3 := hm.day_ptr Days.Wednesday
  have h4 := hm.day_ptr Days.Thursday
  have h5 := hm.day_ptr Days.Friday
  have h6 := hm.day_ptr Days.Saturday
  have h7 := hm.day_ptr Days.Sunday
  simp only [dayNode, dayAddr] at h1 h2 h3 h4 h5 h6 h7
  rw [h1, h2, h3, h4, h5, h6, h7]

/-- Every node of a populated model is the root, a day container or a leaf of a weekday. -/
theorem WeeklyTreeModel.Populated.node_cases {dt : DateTraverser} {raw : Nat → Int}
    {taskItems : List TaskItemModel} {m : WeeklyTreeModel} (hm : Populated dt raw taskItems m)
    {p : Nat} {n : WeeklyTreeModelNode} (hd : deref m.heap p = some n) :
    (p = 1 ∧ n = { WeeklyTreeModelNode.container 0 (weekLabel dt) (raw 1) with
        mChildren := [2, 3, 4, 5, 6, 7, 8] }) ∨
    (∃ d, p = dayAddr d ∧
      n = { WeeklyTreeModelNode.container 1 (dayLabel dt d) (raw (dayAddr d)) with
        mChildren := List.range' (9 + m.leafOffset Days.all d)
          (dayItems dt taskItems d).length }) ∨
    (∃ d i, ∃ hi : i < (dayItems dt taskItems d).length,
      p = 9 + m.leafOffset Days.all d + i ∧
      n = leafFor (dayAddr d) ((dayItems dt taskItems d)[i])) := by
  have hp := deref_pos_le hd
  by_cases h1 : p = 1
  · subst h1
    rw [hm.root_node] at hd
    exact Or.inl ⟨rfl, (Option.some.inj hd).symm⟩
  · by_cases h8 : p ≤ 8
    · obtain ⟨d, rfl⟩ := dayAddr_surj (by omega) h8
      rw [hm.day_node d] at hd
      exact Or.inr (Or.inl ⟨d, rfl, (Option.some.inj hd).symm⟩)
    · obtain ⟨d, i, hi, rfl⟩ := hm.leaf_cover (by omega) hp.2
      rw [hm.leaf_node d i hi] at hd
      exact Or.inr (Or.inr ⟨d, i, hi, rfl, (Option.some.inj hd).symm⟩)

theorem WeeklyTreeModel.Populated.weekShape {dt : DateTraverser} {raw : Nat → Int}
    {taskItems : List TaskItemModel} {m : WeeklyTreeModel} (hm : Populated dt raw taskItems m) :
    WeekShape m := by
  refine ⟨rfl, ⟨_, by rw [hm.root_ptr]; exact hm.root_node, rfl, rfl⟩, ?_, ?_, ?_, ?_⟩
  · intro p n hd hpar
    rw [hm.root_ptr]
    rcases hm.node_cases hd with ⟨h, -⟩ | ⟨d, -, rfl⟩ | ⟨d, i, hi, -, rfl⟩
    · exact h
    · exact absurd hpar (by simp [WeeklyTreeModelNode.container])
    · have := dayAddr_bounds d
      simp only [leafFor, WeeklyTreeModelNode.leaf] at hpar
      omega
  · rw [hm.root_ptr, GetChildren_eq hm.root_node, hm.members]
    rfl
  · rw [hm.members]
    decide
  · intro d
    refine ⟨_, by rw [hm.day_ptr]; exact hm.day_node d, rfl, ?_, ?_⟩
    · rw [hm.root_ptr]
      rfl
    · rw [hm.anchor]
      rfl

/-- The model as the constructor leaves it has the shape `WeekShape`. -/
theorem construct_weekShape (dt : DateTraverser) (raw : Nat → Int) :
    ∃ m, construct dt raw = some m ∧ WeekShape m := by
  refine ⟨_, construct_eq dt raw, rfl, ⟨_, rfl, rfl, rfl⟩, ?_, rfl, by simp, ?_⟩
  · intro p n hd hpar
    have hp := deref_pos_le hd
    have h8 : p ≤ 8 := hp.2
    have h1 : 1 ≤ p := hp.1
    interval_cases p
    · rfl
    all_goals
      simp [deref, Days.all, WeeklyTreeModelNode.container] at hd
      subst hd
      simp at hpar
  · intro d
    cases d <;> exact ⟨_, rfl, rfl, rfl, rfl⟩

/-- C2: for a week anchor with seven distinct day dates, after one `InitBatch` the leaves
under each day container are built, one each, from a list of source records that all carry
that day's date, the source records of the seven days together take each input record at
most once, and no leaf occurs twice among the children of the day containers. -/
theorem C2_day_buckets_disjoint (dt : DateTraverser) (raw : Nat → Int)
    (taskItems : List TaskItemModel) (hdistinct : Function.Injective dt.GetDayISODate) :
    ∃ (m : WeeklyTreeModel) (kids : Days → List Nat) (src : Days → List TaskItemModel),
      build dt raw taskItems = some m ∧
      (∀ d, m.GetChildren (m.dayNode d) [] = some (kids d, (kids d).length)) ∧
      (∀ d, (kids d).map (deref m.heap) =
        (src d).map fun t => some (leafFor (m.dayNode d) t)) ∧
      (∀ d, ∀ t ∈ src d, t.pTask.mTaskDate = dt.GetDayISODate d) ∧
      (Days.all.flatMap src).Subperm taskItems ∧
      (Days.all.flatMap kids).Nodup := by
  obtain ⟨m, hb, hm⟩ := build_spec dt raw taskItems
  refine ⟨m,
    fun d => List.range' (9 + m.leafOffset Days.all d) (dayItems dt taskItems d).length,
    dayItems dt taskItems, hb, ?_, hm.leaves_day, ?_, ?_, ?_⟩
  · intro d
    rw [hm.GetChildren_day d []]
    simp
  · intro d t ht
    simpa [dayItems] using (List.mem_filter.mp ht).2
  · exact flatMap_filter_subperm dt.GetDayISODate hdistinct Days.all Days.all_nodup taskItems
  · rw [List.nodup_flatMap]
    refine ⟨fun d _ => List.nodup_range' _ _, Days.all_nodup.pairwise_of_forall_ne ?_⟩
    intro d hd d' hd' hne x hx hx'
    simp only [List.mem_range'_1] at hx hx'
    have := leafOffset_unique m Days.all Days.all_nodup d hd d' hd'
      (x - (9 + m.leafOffset Days.all d)) (x - (9 + m.leafOffset Days.all d'))
      (by rw [hm.bucket]; omega) (by rw [hm.bucket]; omega) (by omega)
    exact hne this.1

/-- C2 at a Monday entry and a Wednesday entry in the week of 2024-01-01, whose seven
dates are distinct. -/
theorem C2_day_buckets_disjoint_witness :
    ∃ (m : WeeklyTreeModel) (kids : Days → List Nat) (src : Days → List TaskItemModel),
      build week2024 zeroed [entry 1 "2024-01-01" "A", entry 2 "2024-01-03" "C"] = some m ∧
      (∀ d, m.GetChildren (m.dayNode d) [] = some (kids d, (kids d).length)) ∧
      (∀ d, (kids d).map (deref m.heap) =
        (src d).map fun t => some (leafFor (m.dayNode d) t)) ∧
      (∀ d, ∀ t ∈ src d, t.pTask.mTaskDate = week2024.GetDayISODate d) ∧
      (Days.all.flatMap src).Subperm [entry 1 "2024-01-01" "A", entry 2 "2024-01-03" "C"] ∧
      (Days.all.flatMap kids).Nodup :=
  C2_day_buckets_disjoint week2024 zeroed [entry 1 "2024-01-01" "A", entry 2 "2024-01-03" "C"]
    (by intro d d' h; cases d <;> cases d' <;> first | rfl | exact absurd h (by decide))

/-- C4: for every week anchor the constructor yields a tree with exactly one root whose
children are exactly the seven day containers in the order Monday to Sunday (`WeekShape`),
and the tree still has that shape after `InitBatch` with any record collection. -/
theorem C4_one_root_seven_days (dt : DateTraverser) (raw : Nat → Int) :
    ∃ m0, construct dt raw = some m0 ∧ WeekShape m0 ∧
      ∀ taskItems, ∃ m1, m0.InitBatch taskItems = some m1 ∧ WeekShape m1 := by
  obtain ⟨m0, h0, hs0⟩ := construct_weekShape dt raw
  refine ⟨m0, h0, hs0, fun taskItems => ?_⟩
  obtain ⟨m1, hb, hm⟩ := build_spec dt raw taskItems
  rw [build, h0] at hb
  exact ⟨m1, hb, hm.weekShape⟩

/-- C5: building the tree and running `InitBatch` on the empty record collection yields a
root whose children are the seven day containers, each of them present as a container and
each without children. -/
theorem C5_empty_batch (dt : DateTraverser) (raw : Nat → Int) :
    ∃ m, build dt raw [] = some m ∧
      m.IsContainer m.pRoot = some true ∧
      m.GetChildren m.pRoot [] =
        some ([m.pMonday, m.pTuesday, m.pWednesday, m.pThursday, m.pFriday, m.pSaturday,
          m.pSunday], 7) ∧
      [m.pMonday, m.pTuesday, m.pWednesday, m.pThursday, m.pFriday, m.pSaturday,
        m.pSunday].Nodup ∧
      ∀ d, m.IsContainer (m.dayNode d) = some true ∧
        m.GetChildren (m.dayNode d) [] = some ([], 0) := by
  obtain ⟨m, hb, hm⟩ := build_spec dt raw []
  obtain ⟨-, -, -, hkids, hnd, -⟩ := hm.weekShape
  refine ⟨m, hb, ?_, hkids, hnd, fun d => ⟨?_, ?_⟩⟩
  · simp [IsContainer, hm.root_ptr, hm.root_node, WeeklyTreeModelNode.IsContainer,
      WeeklyTreeModelNode.container]
  · have := dayAddr_bounds d
    have h0 : dayAddr d ≠ 0 := by omega
    simp [IsContainer, hm.day_ptr, hm.day_node, WeeklyTreeModelNode.IsContainer,
      WeeklyTreeModelNode.container, h0]
  · rw [hm.GetChildren_day d []]
    simp [dayItems]

/-- C6: `GetChildren` with the null item adds exactly the root to the output array and
returns 1, in every state of the model. -/
theorem C6_children_of_null_item (m : WeeklyTreeModel) (array : List Nat) :
    m.GetChildren 0 array = some (array ++ [m.pRoot], 1) :=
  rfl

/-- In a populated model the parent of every leaf of a weekday, as `GetParent` reports it, is
that weekday's container. -/
theorem WeeklyTreeModel.Populated.GetParent_leaf {dt : DateTraverser} {raw : Nat → Int}
    {taskItems : List TaskItemModel} {m : WeeklyTreeModel} (hm : Populated dt raw taskItems m)
    (d : Days) {i : Nat} (hi : i < (dayItems dt taskItems d).length) :
    m.GetParent (9 + m.leafOffset Days.all d + i) = some (m.dayNode d) := by
  have h0 : 9 + m.leafOffset Days.all d + i ≠ 0 := by omega
  have h1 : 9 + m.leafOffset Days.all d + i ≠ m.pRoot := by rw [hm.root_ptr]; omega
  simp only [GetParent, h0, h1, if_false, hm.leaf_node d i hi, hm.day_ptr]
  rfl

/-- C7: in every tree built by the constructor followed by `InitBatch`, `GetParent` of the
root is the null item, `GetParent` of every child of a day container is that day container,
and every node that is not a container is a child of the day container that `GetParent`
reports for it. -/
theorem C7_parent_of_root_and_leaves (dt : DateTraverser) (raw : Nat → Int)
    (taskItems : List TaskItemModel) :
    ∃ m, build dt raw taskItems = some m ∧
      m.GetParent m.pRoot = some 0 ∧
      (∀ d, ∃ kids, m.GetChildren (m.dayNode d) [] = some (kids, kids.length) ∧
        ∀ k ∈ kids, m.GetParent k = some (m.dayNode d)) ∧
      (∀ p n, deref m.heap p = some n → n.bContainer = false →
        ∃ d kids, m.GetChildren (m.dayNode d) [] = some (kids, kids.length) ∧ p ∈ kids ∧
          m.GetParent p = some (m.dayNode d)) := by
  obtain ⟨m, hb, hm⟩ := build_spec dt raw taskItems
  have hkids : ∀ d, m.GetChildren (m.dayNode d) [] =
      some (List.range' (9 + m.leafOffset Days.all d) (dayItems dt taskItems d).length,
        (List.range' (9 + m.leafOffset Days.all d) (dayItems dt taskItems d).length).length) := by
    intro d
    rw [hm.GetChildren_day d []]
    simp
  refine ⟨m, hb, by simp [GetParent], fun d => ⟨_, hkids d, ?_⟩, ?_⟩
  · intro k hk
    simp only [List.mem_range'_1] at hk
    have := hm.GetParent_leaf d (i := k - (9 + m.leafOffset Days.all d)) (by omega)
    rwa [show 9 + m.leafOffset Days.all d + (k - (9 + m.leafOffset Days.all d)) = k by omega]
      at this
  · intro p n hd hleaf
    rcases hm.node_cases hd with ⟨-, rfl⟩ | ⟨d, -, rfl⟩ | ⟨d, i, hi, rfl, -⟩
    · exact absurd hleaf (by simp [WeeklyTreeModelNode.container])
    · exact absurd hleaf (by simp [WeeklyTreeModelNode.container])
    · refine ⟨d, _, hkids d, ?_, hm.GetParent_leaf d hi⟩
      simp only [List.mem_range'_1]
      omega

/-- C8: in a tree built by the constructor followed by `InitBatch`, `IsContainer` is true
for the root and for each of the seven day nodes, and false for every child of a day node
and, more generally, for every node other than the root and the day nodes. -/
theorem C8_containers_and_leaves (dt : DateTraverser) (raw : Nat → Int)
    (taskItems : List TaskItemModel) :
    ∃ m, build dt raw taskItems = some m ∧
      m.IsContainer m.pRoot = some true ∧
      (∀ d, m.IsContainer (m.dayNode d) = some true) ∧
      (∀ d, ∃ kids, m.GetChildren (m.dayNode d) [] = some (kids, kids.length) ∧
        ∀ k ∈ kids, m.IsContainer k = some false) ∧
      (∀ p n, deref m.heap p = some n → p ≠ m.pRoot → (∀ d, p ≠ m.dayNode d) →
        m.IsContainer p = some false) := by
  obtain ⟨m, hb, hm⟩ := build_spec dt raw taskItems
  have hleaf : ∀ d i, i < (dayItems dt taskItems d).length →
      m.IsContainer (9 + m.leafOffset Days.all d + i) = some false := by
    intro d i hi
    have h0 : 9 + m.leafOffset Days.all d + i ≠ 0 := by omega
    simp only [IsContainer, h0, if_false, hm.leaf_node d i hi]
    rfl
  refine ⟨m, hb, ?_, ?_, ?_, ?_⟩
  · simp [IsContainer, hm.root_ptr, hm.root_node, WeeklyTreeModelNode.IsContainer,
      WeeklyTreeModelNode.container]
  · intro d
    have := dayAddr_bounds d
    have h0 : dayAddr d ≠ 0 := by omega
    simp [IsContainer, hm.day_ptr, hm.day_node, WeeklyTreeModelNode.IsContainer,
      WeeklyTreeModelNode.container, h0]
  · intro d
    refine ⟨List.range' (9 + m.leafOffset Days.all d) (dayItems dt taskItems d).length, ?_, ?_⟩
    · rw [hm.GetChildren_day d []]
      simp
    · intro k hk
      simp only [List.mem_range'_1] at hk
      have := hleaf d (k - (9 + m.leafOffset Days.all d)) (by omega)
      rwa [show 9 + m.leafOffset Days.all d + (k - (9 + m.leafOffset Days.all d)) = k by omega]
        at this
  · intro p n hd hroot hday
    rcases hm.node_cases hd with ⟨h1, -⟩ | ⟨d, h2, -⟩ | ⟨d, i, hi, rfl, -⟩
    · exact absurd (h1.trans hm.root_ptr.symm) hroot
    · exact absurd (h2.trans (hm.day_ptr d).symm) (hday d)
    · exact hleaf d i hi

/-- C9: for an item that addresses a node, in any state of the model, `GetChildren` adds
exactly the node's children in their stored order and returns their count, so that for a
node without children it adds nothing and returns 0; and in a tree built by the constructor
followed by `InitBatch` it adds nothing and returns 0 for every leaf. -/
theorem C9_children_of_node :
    (∀ (m : WeeklyTreeModel) (parent : Nat) (node : WeeklyTreeModelNode) (array : List Nat),
      deref m.heap parent = some node →
        m.GetChildren parent array = some (array ++ node.mChildren, node.mChildren.length) ∧
        (node.mChildren = [] → m.GetChildren parent array = some (array, 0))) ∧
    (∀ (dt : DateTraverser) (raw : Nat → Int) (taskItems : List TaskItemModel),
      ∃ m, build dt raw taskItems = some m ∧
        ∀ p n, deref m.heap p = some n → n.bContainer = false →
          ∀ array, m.GetChildren p array = some (array, 0)) := by
  constructor
  · intro m parent node array hd
    refine ⟨GetChildren_eq hd array, fun h => ?_⟩
    rw [GetChildren_eq hd array, h]
    simp
  · intro dt raw taskItems
    obtain ⟨m, hb, hm⟩ := build_spec dt raw taskItems
    refine ⟨m, hb, ?_⟩
    intro p n hd hleaf array
    rw [GetChildren_eq hd array]
    rcases hm.node_cases hd with ⟨-, rfl⟩ | ⟨d, -, rfl⟩ | ⟨d, i, hi, -, rfl⟩
    · exact absurd hleaf (by simp [WeeklyTreeModelNode.container])
    · exact absurd hleaf (by simp [WeeklyTreeModelNode.container])
    · simp [leafFor, WeeklyTreeModelNode.leaf]

/-- C10: for every item that addresses a node and every column index that is none of the
five defined columns, `GetValue` returns, leaves the variant as it was before the call, and
logs one error, the wrong column message with the column index as its argument. -/
theorem C10_wrong_column_keeps_variant (m : WeeklyTreeModel) (variant : wxVariant)
    (item col : Nat) (node : WeeklyTreeModelNode) (hd : deref m.heap item = some node)
    (hcol : col ∉ [Col_Project, Col_Duration, Col_Category, Col_Description, Col_Id]) :
    m.GetValue variant item col =
      some (variant, [("WeeklyTreeModel::GetValue: wrong column %d", col)]) := by
  simp only [List.mem_cons, List.mem_singleton, List.not_mem_nil, or_false, not_or] at hcol
  obtain ⟨h0, h1, h2, h3, h4⟩ := hcol
  have hitem : item ≠ 0 := by have := deref_pos_le hd; omega
  simp only [GetValue, hitem, h0, h1, h2, h3, h4, if_false]

/-- C10 at column 99 on the leaf A and at `Col_Max` on the root of `scenarioModel`. -/
theorem C10_wrong_column_keeps_variant_witness :
    (scenarioModel.GetValue (wxVariant.string "before") 9 99 =
      some (wxVariant.string "before", [("WeeklyTreeModel::GetValue: wrong column %d", 99)])) ∧
    (scenarioModel.GetValue wxVariant.null 1 Col_Max =
      some (wxVariant.null, [("WeeklyTreeModel::GetValue: wrong column %d", Col_Max)])) :=
  ⟨C10_wrong_column_keeps_variant scenarioModel (wxVariant.string "before") 9 99
      (leafFor 2 (entry 1 "2024-01-01" "A")) (by decide) (by decide),
    C10_wrong_column_keeps_variant scenarioModel wxVariant.null 1 Col_Max
      { WeeklyTreeModelNode.container 0 (weekLabel week2024) 0 with
        mChildren := [2, 3, 4, 5, 6, 7, 8] } (by decide) (by decide)⟩

/-! ## Column values -/

/-- `GetValue` on an item that addresses a node, for the five columns. -/
theorem GetValue_of_deref {m : WeeklyTreeModel} {item : Nat} {node : WeeklyTreeModelNode}
    (hd : deref m.heap item = some node) (variant : wxVariant) :
    m.GetValue variant item Col_Project = some (wxVariant.string node.mProjectName, []) ∧
    m.GetValue variant item Col_Duration = some (wxVariant.string node.mDuration, []) ∧
    m.GetValue variant item Col_Category = some (wxVariant.string node.mCategoryName, []) ∧
    m.GetValue variant item Col_Description = some (wxVariant.string node.mDescription, []) ∧
    m.GetValue variant item Col_Id = some (wxVariant.long node.mTaskItemId, []) := by
  have hitem : item ≠ 0 := by have := deref_pos_le hd; omega
  refine ⟨?_, ?_, ?_, ?_, ?_⟩ <;>
    simp [GetValue, hitem, hd, Col_Project, Col_Duration, Col_Category, Col_Description, Col_Id,
      WeeklyTreeModelNode.GetProjectName, WeeklyTreeModelNode.GetDuration,
      WeeklyTreeModelNode.GetCategoryName, WeeklyTreeModelNode.GetDescription,
      WeeklyTreeModelNode.GetTaskItemId]

/-- C11: after construction and one `InitBatch`, the children of each day container stand,
in order, for the records placed under it (the input records of that day's date): the leaf
of a record carries the record's project display name, duration string, category name,
description and task item id, and `GetValue` on the leaf returns exactly these for the
project, duration, category, description and identifier columns. -/
theorem C11_leaf_carries_record (dt : DateTraverser) (raw : Nat → Int)
    (taskItems : List TaskItemModel) (d : Days) (variant : wxVariant) :
    ∃ m kids, build dt raw taskItems = some m ∧
      m.GetChildren (m.dayNode d) [] = some (kids, kids.length) ∧
      kids.map (fun k => (deref m.heap k).map fun n =>
          (n.mProjectName, n.mDuration, n.mCategoryName, n.mDescription, n.mTaskItemId)) =
        (taskItems.filter fun t => decide (t.pTask.mTaskDate = dt.GetDayISODate d)).map
          (fun t => some (t.pProject.mDisplayName, t.mDuration, t.pCategory.mName,
            t.mDescription, t.mTaskItemId)) ∧
      kids.map (fun k => (m.GetValue variant k Col_Project, m.GetValue variant k Col_Duration,
          m.GetValue variant k Col_Category, m.GetValue variant k Col_Description,
          m.GetValue variant k Col_Id)) =
        (taskItems.filter fun t => decide (t.pTask.mTaskDate = dt.GetDayISODate d)).map
          (fun t => (some (wxVariant.string t.pProject.mDisplayName, []),
            some (wxVariant.string t.mDuration, []), some (wxVariant.string t.pCategory.mName, []),
            some (wxVariant.string t.mDescription, []), some (wxVariant.long t.mTaskItemId, []))) := by
  obtain ⟨m, hb, hm⟩ := build_spec dt raw taskItems
  refine ⟨m, List.range' (9 + m.leafOffset Days.all d) (dayItems dt taskItems d).length,
    hb, ?_, ?_, ?_⟩
  · rw [hm.GetChildren_day d []]
    simp
  · apply List.ext_getElem
    · simp [dayItems]
    · intro i h1 h2
      simp only [List.length_map, List.length_range'] at h1
      simp only [List.getElem_map, List.getElem_range', Nat.one_mul]
      rw [hm.leaf_node d i h1]
      rfl
  · apply List.ext_getElem
    · simp [dayItems]
    · intro i h1 h2
      simp only [List.length_map, List.length_range'] at h1
      simp only [List.getElem_map, List.getElem_range', Nat.one_mul]
      obtain ⟨g1, g2, g3, g4, g5⟩ := GetValue_of_deref (hm.leaf_node d i h1) variant
      rw [g1, g2, g3, g4, g5]
      rfl

/-- C12: for the records A and B on Monday 2024-01-01 and C on Wednesday 2024-01-03 and the
anchor of the week that starts on Monday 2024-01-01, the built tree has under Monday exactly
two leaves, for A and then B, under Wednesday exactly one leaf, for C, and no leaves under
Tuesday, Thursday, Friday, Saturday and Sunday. -/
theorem C12_scenario_tree (raw : Nat → Int) :
    ∃ m a b c, build week2024 raw scenario = some m ∧
      m.GetChildren m.pMonday [] = some ([a, b], 2) ∧
      deref m.heap a = some (leafFor m.pMonday (entry 1 "2024-01-01" "A")) ∧
      deref m.heap b = some (leafFor m.pMonday (entry 2 "2024-01-01" "B")) ∧
      m.GetValue wxVariant.null a Col_Description = some (wxVariant.string "A", []) ∧
      m.GetValue wxVariant.null b Col_Description = some (wxVariant.string "B", []) ∧
      m.GetChildren m.pWednesday [] = some ([c], 1) ∧
      deref m.heap c = some (leafFor m.pWednesday (entry 3 "2024-01-03" "C")) ∧
      m.GetValue wxVariant.null c Col_Description = some (wxVariant.string "C", []) ∧
      m.GetChildren m.pTuesday [] = some ([], 0) ∧
      m.GetChildren m.pThursday [] = some ([], 0) ∧
      m.GetChildren m.pFriday [] = some ([], 0) ∧
      m.GetChildren m.pSaturday [] = some ([], 0) ∧
      m.GetChildren m.pSunday [] = some ([], 0) := by
  obtain ⟨m, hb, hm⟩ := build_spec week2024 raw scenario
  have i1 : dayItems week2024 scenario Days.Monday =
      [entry 1 "2024-01-01" "A", entry 2 "2024-01-01" "B"] := by decide
  have i2 : dayItems week2024 scenario Days.Tuesday = [] := by decide
  have i3 : dayItems week2024 scenario Days.Wednesday = [entry 3 "2024-01-03" "C"] := by decide
  have i4 : dayItems week2024 scenario Days.Thursday = [] := by decide
  have i5 : dayItems week2024 scenario Days.Friday = [] := by decide
  have i6 : dayItems week2024 scenario Days.Saturday = [] := by decide
  have i7 : dayItems week2024 scenario Days.Sunday = [] := by decide
  have o1 : m.leafOffset Days.all Days.Monday = 0 := by simp [leafOffset, Days.all]
  have o3 : m.leafOffset Days.all Days.Wednesday = 2 := by
    simp [leafOffset, Days.all, hm.bucket, i1, i2]
  have c1 := hm.GetChildren_day Days.Monday []
  have c2 := hm.GetChildren_day Days.Tuesday []
  have c3 := hm.GetChildren_day Days.Wednesday []
  have c4 := hm.GetChildren_day Days.Thursday []
  have c5 := hm.GetChildren_day Days.Friday []
  have c6 := hm.GetChildren_day Days.Saturday []
  have c7 := hm.GetChildren_day Days.Sunday []
  rw [i1, o1] at c1
  rw [i2] at c2
  rw [i3, o3] at c3
  rw [i4] at c4
  rw [i5] at c5
  rw [i6] at c6
  rw [i7] at c7
  have la := hm.leaf_node Days.Monday 0 (by rw [i1]; decide)
  have lb := hm.leaf_node Days.Monday 1 (by rw [i1]; decide)
  have lc := hm.leaf_node Days.Wednesday 0 (by rw [i3]; decide)
  simp only [i1, o1] at la lb
  simp only [i3, o3] at lc
  have pM : m.pMonday = dayAddr Days.Monday := hm.day_ptr Days.Monday
  have pW : m.pWednesday = dayAddr Days.Wednesday := hm.day_ptr Days.Wednesday
  refine ⟨m, 9, 10, 11, hb, c1, ?_, ?_, ?_, ?_, c3, ?_, ?_, c2, c4, c5, c6, c7⟩
  · rw [pM]; exact la
  · rw [pM]; exact lb
  · exact (GetValue_of_deref la wxVariant.null).2.2.2.1
  · exact (GetValue_of_deref lb wxVariant.null).2.2.2.1
  · rw [pW]; exact lc
  · exact (GetValue_of_deref lc wxVariant.null).2.2.2.1

/-- C14: `GetColumnCount` returns the number of display columns, five (project, duration,
category, description, identifier), and `GetColumnType` returns "long" for the identifier
column and "string" for every other column. -/
theorem C14_column_metadata (m : WeeklyTreeModel) :
    m.GetColumnCount = 5 ∧
    m.GetColumnCount =
      [Col_Project, Col_Duration, Col_Category, Col_Description, Col_Id].length ∧
    [Col_Project, Col_Duration, Col_Category, Col_Description, Col_Id].Nodup ∧
    m.GetColumnType Col_Id = "long" ∧
    ∀ col, col ≠ Col_Id → m.GetColumnType col = "string" := by
  refine ⟨rfl, rfl, by decide, rfl, ?_⟩
  intro col hcol
  simp [GetColumnType, hcol]

/-! ## Labels -/

/-- The root of the constructed model and of every model populated from it: a container with
the week label, in cell 1. -/
theorem root_label_spec (dt : DateTraverser) (raw : Nat → Int) :
    ∃ m, construct dt raw = some m ∧
      (deref m.heap m.pRoot).map (fun r => r.mProjectName) = some (weekLabel dt) ∧
      ∀ taskItems, ∃ m1, m.InitBatch taskItems = some m1 ∧
        (deref m1.heap m1.pRoot).map (fun r => r.mProjectName) = some (weekLabel dt) := by
  refine ⟨_, construct_eq dt raw, rfl, fun taskItems => ?_⟩
  obtain ⟨m1, hb, hm⟩ := build_spec dt raw taskItems
  rw [build, construct_eq, Option.some_bind] at hb
  refine ⟨m1, hb, ?_⟩
  rw [hm.root_ptr, hm.root_node]
  rfl

/-- C15, as the code has it: for every week anchor the label of the root container, before
and after `InitBatch`, is "Week <start> - <end>", the anchor's ISO date for Monday and its
ISO date for Sunday separated by a hyphen between two spaces. -/
theorem C15_root_label (dt : DateTraverser) (raw : Nat → Int) :
    ∃ m, construct dt raw = some m ∧
      (deref m.heap m.pRoot).map (fun r => r.mProjectName) =
        some ("Week " ++ dt.GetDayISODate Days.Monday ++ " - " ++
          dt.GetDayISODate Days.Sunday) ∧
      ∀ taskItems, ∃ m1, m.InitBatch taskItems = some m1 ∧
        (deref m1.heap m1.pRoot).map (fun r => r.mProjectName) =
          some ("Week " ++ dt.GetDayISODate Days.Monday ++ " - " ++
            dt.GetDayISODate Days.Sunday) :=
  root_label_spec dt raw

/-- C15 as stated fails: for the week of 2024-01-01 the root label is
"Week 2024-01-01 - 2024-01-07", which is not "Week 2024-01-01–2024-01-07". -/
theorem C15_root_label_counterexample :
    ((construct week2024 zeroed).bind fun m =>
        (deref m.heap m.pRoot).map fun r => r.mProjectName) =
      some "Week 2024-01-01 - 2024-01-07" ∧
    ((construct week2024 zeroed).bind fun m =>
        (deref m.heap m.pRoot).map fun r => r.mProjectName) ≠
      some ("Week " ++ week2024.GetDayISODate Days.Monday ++ "–" ++
        week2024.GetDayISODate Days.Sunday) := by
  constructor
  · decide
  · decide

/-- C16: for every week anchor, before and after `InitBatch`, the container at position i
among the root's children is labelled with the English name of weekday i, a space, and the
anchor's ISO date for that weekday. -/
theorem C16_day_labels (dt : DateTraverser) (raw : Nat → Int) :
    ∃ m kids, construct dt raw = some m ∧
      m.GetChildren m.pRoot [] = some (kids, 7) ∧
      kids.map (fun k => (deref m.heap k).map fun n => (n.bContainer, n.mProjectName)) =
        Days.all.map (fun d => some (true, dayName d ++ " " ++ dt.GetDayISODate d)) ∧
      ∀ taskItems, ∃ m1 kids1, m.InitBatch taskItems = some m1 ∧
        m1.GetChildren m1.pRoot [] = some (kids1, 7) ∧
        kids1.map (fun k => (deref m1.heap k).map fun n => (n.bContainer, n.mProjectName)) =
          Days.all.map (fun d => some (true, dayName d ++ " " ++ dt.GetDayISODate d)) := by
  refine ⟨_, [2, 3, 4, 5, 6, 7, 8], construct_eq dt raw, rfl, rfl, fun taskItems => ?_⟩
  obtain ⟨m1, hb, hm⟩ := build_spec dt raw taskItems
  rw [build, construct_eq, Option.some_bind] at hb
  refine ⟨m1, [2, 3, 4, 5, 6, 7, 8], hb, ?_, ?_⟩
  · rw [hm.root_ptr, GetChildren_eq hm.root_node]
    rfl
  · have h1 : deref m1.heap 2 = _ := hm.day_node Days.Monday
    have h2 : deref m1.heap 3 = _ := hm.day_node Days.Tuesday
    have h3 : deref m1.heap 4 = _ := hm.day_node Days.Wednesday
    have h4 : deref m1.heap 5 = _ := hm.day_node Days.Thursday
    have h5 : deref m1.heap 6 = _ := hm.day_node Days.Friday
    have h6 : deref m1.heap 7 = _ := hm.day_node Days.Saturday
    have h7 : deref m1.heap 8 = _ := hm.day_node Days.Sunday
    simp only [List.map_cons, List.map_nil, Days.all]
    rw [h1, h2, h3, h4, h5, h6, h7]
    rfl

/-! ## Depth -/

/-- C20: the tree built by the constructor and one `InitBatch` has exactly three levels: the
root is at depth 0, each of the seven day containers at depth 1, and every other node is a
leaf at depth 2, a child of a day container that is no container and has no children; so no
node lies deeper than depth 2. -/
theorem C20_three_levels (dt : DateTraverser) (raw : Nat → Int)
    (taskItems : List TaskItemModel) :
    ∃ m, build dt raw taskItems = some m ∧
      (∀ fuel, 1 ≤ fuel → m.depth fuel m.pRoot = some 0) ∧
      (∀ d fuel, 2 ≤ fuel → m.depth fuel (m.dayNode d) = some 1) ∧
      ∀ p n, deref m.heap p = some n →
        p = m.pRoot ∨ (∃ d, p = m.dayNode d) ∨
        ((∀ fuel, 3 ≤ fuel → m.depth fuel p = some 2) ∧
          (∃ d, m.GetParent p = some (m.dayNode d)) ∧
          m.IsContainer p = some false ∧ n.mChildren = [] ∧
          m.GetChildren p [] = some ([], 0)) := by
  obtain ⟨m, hb, hm⟩ := build_spec dt raw taskItems
  have hroot : ∀ fuel, 1 ≤ fuel → m.depth fuel m.pRoot = some 0 := by
    intro fuel hf
    obtain ⟨k, rfl⟩ : ∃ k, fuel = k + 1 := ⟨fuel - 1, by omega⟩
    simp [depth, GetParent]
  have hday : ∀ d fuel, 2 ≤ fuel → m.depth fuel (m.dayNode d) = some 1 := by
    intro d fuel hf
    obtain ⟨k, rfl⟩ : ∃ k, fuel = k + 1 := ⟨fuel - 1, by omega⟩
    have hb := dayAddr_bounds d
    have hp : m.GetParent (m.dayNode d) = some m.pRoot := by
      have h0 : dayAddr d ≠ 0 := by omega
      have h1 : dayAddr d ≠ 1 := by omega
      simp [GetParent, hm.day_ptr, hm.root_ptr, hm.day_node, h0, h1,
        WeeklyTreeModelNode.GetParent, WeeklyTreeModelNode.container]
    have hr : m.pRoot ≠ 0 := by rw [hm.root_ptr]; decide
    simp only [depth, hp, hr, if_false, hroot k (by omega)]
    rfl
  refine ⟨m, hb, hroot, hday, ?_⟩
  intro p n hd
  rcases hm.node_cases hd with ⟨h1, -⟩ | ⟨d, h2, -⟩ | ⟨d, i, hi, rfl, rfl⟩
  · exact Or.inl (h1.trans hm.root_ptr.symm)
  · exact Or.inr (Or.inl ⟨d, h2.trans (hm.day_ptr d).symm⟩)
  · refine Or.inr (Or.inr ⟨?_, ⟨d, hm.GetParent_leaf d hi⟩, ?_, rfl, ?_⟩)
    · intro fuel hf
      obtain ⟨k, rfl⟩ : ∃ k, fuel = k + 1 := ⟨fuel - 1, by omega⟩
      have hb := dayAddr_bounds d
      have hne : m.dayNode d ≠ 0 := by rw [hm.day_ptr]; omega
      simp only [depth, hm.GetParent_leaf d hi, hne, if_false, hday d k (by omega)]
      rfl
    · have h0 : 9 + m.leafOffset Days.all d + i ≠ 0 := by omega
      simp only [IsContainer, h0, if_false, hm.leaf_node d i hi]
      rfl
    · rw [GetChildren_eq (hm.leaf_node d i hi)]
      rfl

/-! ## Mutation -/

theorem deref_store_self {h : Heap} {p : Nat} {n : WeeklyTreeModelNode}
    (hd : deref h p = some n) (n1 : WeeklyTreeModelNode) : deref (store h p n1) p = some n1 := by
  have hp := deref_pos_le hd
  rw [deref_eq_getElem? hp.1]
  unfold store
  rw [List.getElem?_set_self (by omega)]

theorem deref_store_ne {h : Heap} {p q : Nat} (hq : 0 < q) (hne : q ≠ p) (hp : 0 < p)
    (n1 : WeeklyTreeModelNode) : deref (store h p n1) q = deref h q := by
  rw [deref_eq_getElem? hq, deref_eq_getElem? hq]
  unfold store
  rw [List.getElem?_set_ne (by omega)]

/-- In a populated model the parent of every day container, as `GetParent` reports it, is
the root. -/
theorem WeeklyTreeModel.Populated.GetParent_day {dt : DateTraverser} {raw : Nat → Int}
    {taskItems : List TaskItemModel} {m : WeeklyTreeModel} (hm : Populated dt raw taskItems m)
    (d : Days) : m.GetParent (dayAddr d) = some 1 := by
  have hb := dayAddr_bounds d
  have h0 : dayAddr d ≠ 0 := by omega
  have h1 : dayAddr d ≠ 1 := by omega
  simp [GetParent, hm.root_ptr, hm.day_node, h0, h1, WeeklyTreeModelNode.GetParent,
    WeeklyTreeModelNode.container]

/-- What `GetChildren` reports for an item is the root for the null item and the children of
the node for an item that addresses one. -/
theorem GetChildren_some {m : WeeklyTreeModel} {p : Nat} {kids : List Nat} {cnt : Nat}
    (h : m.GetChildren p [] = some (kids, cnt)) :
    (p = 0 ∧ kids = [m.pRoot]) ∨ ∃ node, deref m.heap p = some node ∧ kids = node.mChildren := by
  by_cases hp : p = 0
  · subst hp
    left
    simp [GetChildren] at h
    exact ⟨rfl, h.1.symm⟩
  · right
    cases hd : deref m.heap p with
    | none => simp [GetChildren, hp, hd] at h
    | some node =>
      rw [GetChildren_eq hd] at h
      simp at h
      exact ⟨node, rfl, h.1.symm⟩

/-- C21: in every tree built by the constructor followed by `InitBatch`, parent and child
links agree: every child that `GetChildren` reports for an item (the null item included) has
that item as `GetParent`, and every node other than the root occurs exactly once among the
children that `GetChildren` reports for its `GetParent`. -/
theorem C21_parent_child_links_agree (dt : DateTraverser) (raw : Nat → Int)
    (taskItems : List TaskItemModel) :
    ∃ m, build dt raw taskItems = some m ∧
      (∀ p kids cnt, m.GetChildren p [] = some (kids, cnt) →
        ∀ c ∈ kids, m.GetParent c = some p) ∧
      (∀ c n, deref m.heap c = some n → c ≠ m.pRoot →
        ∃ p kids cnt, m.GetParent c = some p ∧ p ≠ 0 ∧
          m.GetChildren p [] = some (kids, cnt) ∧ kids.count c = 1) := by
  obtain ⟨m, hb, hm⟩ := build_spec dt raw taskItems
  refine ⟨m, hb, ?_, ?_⟩
  · intro p kids cnt h c hc
    rcases GetChildren_some h with ⟨rfl, rfl⟩ | ⟨node, hd, rfl⟩
    · have : c = m.pRoot := by simpa using hc
      subst this
      simp [GetParent]
    · rcases hm.node_cases hd with ⟨rfl, rfl⟩ | ⟨d, rfl, rfl⟩ | ⟨d, i, hi, rfl, rfl⟩
      · simp only [List.mem_cons, List.mem_singleton, List.not_mem_nil, or_false] at hc
        obtain ⟨d, rfl⟩ : ∃ d, c = dayAddr d := dayAddr_surj (by omega) (by omega)
        exact hm.GetParent_day d
      · simp only [List.mem_range'_1] at hc
        have := hm.GetParent_leaf d (i := c - (9 + m.leafOffset Days.all d)) (by omega)
        rw [show 9 + m.leafOffset Days.all d + (c - (9 + m.leafOffset Days.all d)) = c by omega,
          hm.day_ptr] at this
        exact this
      · simp [leafFor, WeeklyTreeModelNode.leaf] at hc
  · intro c n hd hroot
    rcases hm.node_cases hd with ⟨h1, -⟩ | ⟨d, rfl, -⟩ | ⟨d, i, hi, rfl, -⟩
    · exact absurd (h1.trans hm.root_ptr.symm) hroot
    · refine ⟨1, [2, 3, 4, 5, 6, 7, 8], 7, hm.GetParent_day d, by decide, ?_, ?_⟩
      · rw [GetChildren_eq hm.root_node]
        rfl
      · cases d <;> decide
    · refine ⟨m.dayNode d, _, _, hm.GetParent_leaf d hi, ?_, hm.GetChildren_day d [], ?_⟩
      · have := dayAddr_bounds d
        rw [hm.day_ptr]
        omega
      · rw [List.nil_append]
        refine List.count_eq_one_of_mem (List.nodup_range' _ _) ?_
        simp only [List.mem_range'_1]
        omega

/-! ## Counting the leaves -/

/-- Splitting a list by the values of an injective key, over distinct key sources, yields
parts that together are a rearrangement of the elements whose key is among the values. -/
theorem flatMap_filter_perm (f : Days → String) (hf : Function.Injective f)
    (ks : List Days) (hnd : ks.Nodup) :
    ∀ l : List TaskItemModel,
      (ks.flatMap fun k => l.filter fun t => decide (t.pTask.mTaskDate = f k)).Perm
        (l.filter fun t => ks.any fun k => decide (t.pTask.mTaskDate = f k)) := by
  induction ks with
  | nil => intro l; simp
  | cons k ks ih =>
    intro l
    obtain ⟨hk, hnd'⟩ := List.nodup_cons.mp hnd
    have hrest : (ks.flatMap fun k' => l.filter fun t => decide (t.pTask.mTaskDate = f k')) =
        ks.flatMap fun k' => (l.filter fun t => !decide (t.pTask.mTaskDate = f k)).filter
          fun t => decide (t.pTask.mTaskDate = f k') := by
      simp only [List.flatMap]
      congr 1
      apply List.map_congr_left
      intro k' hk'
      rw [List.filter_filter]
      apply List.filter_congr
      intro t _
      have hne : f k' ≠ f k := fun h => hk (hf h ▸ hk')
      by_cases ht : t.pTask.mTaskDate = f k'
      · simp [ht, hne]
      · simp [ht]
    have h1 : ((l.filter fun t => (k :: ks).any fun k' => decide (t.pTask.mTaskDate = f k')).filter
        fun t => decide (t.pTask.mTaskDate = f k)) =
        l.filter fun t => decide (t.pTask.mTaskDate = f k) := by
      rw [List.filter_filter]
      apply List.filter_congr
      intro t _
      by_cases ht : t.pTask.mTaskDate = f k <;> simp [ht]
    have h2 : ((l.filter fun t => (k :: ks).any fun k' => decide (t.pTask.mTaskDate = f k')).filter
        fun t => !decide (t.pTask.mTaskDate = f k)) =
        (l.filter fun t => !decide (t.pTask.mTaskDate = f k)).filter
          fun t => ks.any fun k' => decide (t.pTask.mTaskDate = f k') := by
      rw [List.filter_filter, List.filter_filter]
      apply List.filter_congr
      intro t _
      by_cases ht : t.pTask.mTaskDate = f k <;> simp [ht]
    rw [List.flatMap_cons, hrest]
    refine ((List.perm_append_left_iff _).mpr (ih hnd' _)).trans ?_
    rw [← h1, ← h2]
    exact List.filter_append_perm _ _

/-- C25: with seven distinct day dates, after one `InitBatch` the total number of leaves
under the seven day containers equals the number of input records whose task date is one of
the seven day dates, every cell of the heap after the eight containers being one of these
leaves, and every leaf under a day container is built from an input record of that day's
date; so a record of another date produces no leaf. -/
theorem C25_leaves_of_the_week (dt : DateTraverser) (raw : Nat → Int)
    (taskItems : List TaskItemModel) (hdistinct : Function.Injective dt.GetDayISODate) :
    ∃ (m : WeeklyTreeModel) (kids : Days → List Nat), build dt raw taskItems = some m ∧
      (∀ d, m.GetChildren (m.dayNode d) [] = some (kids d, (kids d).length)) ∧
      (Days.all.flatMap kids).length =
        (taskItems.filter fun t =>
          Days.all.any fun d => decide (t.pTask.mTaskDate = dt.GetDayISODate d)).length ∧
      m.heap.length = 8 + (Days.all.flatMap kids).length ∧
      (∀ d, ∀ k ∈ kids d, ∃ t ∈ taskItems, t.pTask.mTaskDate = dt.GetDayISODate d ∧
        deref m.heap k = some (leafFor (m.dayNode d) t)) := by
  obtain ⟨m, hb, hm⟩ := build_spec dt raw taskItems
  have hlen : (Days.all.flatMap fun d =>
      List.range' (9 + m.leafOffset Days.all d) (dayItems dt taskItems d).length).length =
      (Days.all.map fun d => (dayItems dt taskItems d).length).sum := by
    simp [List.length_flatMap, Function.comp_def]
  have hperm := (flatMap_filter_perm dt.GetDayISODate hdistinct Days.all Days.all_nodup
    taskItems).length_eq
  rw [List.length_flatMap] at hperm
  refine ⟨m,
    fun d => List.range' (9 + m.leafOffset Days.all d) (dayItems dt taskItems d).length,
    hb, ?_, ?_, ?_, ?_⟩
  · intro d
    rw [hm.GetChildren_day d []]
    simp
  · rw [hlen, ← hperm]
    rfl
  · rw [hlen, hm.heap_length]
  · intro d k hk
    simp only [List.mem_range'_1] at hk
    have hi : k - (9 + m.leafOffset Days.all d) < (dayItems dt taskItems d).length := by omega
    refine ⟨(dayItems dt taskItems d)[k - (9 + m.leafOffset Days.all d)], ?_, ?_, ?_⟩
    · exact (List.mem_filter.mp (List.getElem_mem hi)).1
    · simpa [dayItems] using (List.mem_filter.mp (List.getElem_mem hi)).2
    · have := hm.leaf_node d _ hi
      rw [show 9 + m.leafOffset Days.all d + (k - (9 + m.leafOffset Days.all d)) = k by omega]
        at this
      rw [this, hm.day_ptr]

theorem week2024_injective : Function.Injective week2024.GetDayISODate := by
  intro d d' h
  cases d <;> cases d' <;> first | rfl | exact absurd h (by decide)

/-- C25 at the three records of `scenario` and a fourth record dated 2024-02-01, outside
the week of 2024-01-01: the tree has three leaves. -/
theorem C25_leaves_of_the_week_witness :
    ∃ (m : WeeklyTreeModel) (kids : Days → List Nat),
      build week2024 zeroed (scenario ++ [entry 4 "2024-02-01" "D"]) = some m ∧
      (∀ d, m.GetChildren (m.dayNode d) [] = some (kids d, (kids d).length)) ∧
      (Days.all.flatMap kids).length = 3 ∧ m.heap.length = 11 := by
  obtain ⟨m, kids, hb, hk, hlen, hheap, -⟩ := C25_leaves_of_the_week week2024 zeroed
    (scenario ++ [entry 4 "2024-02-01" "D"]) week2024_injective
  have h3 : ((scenario ++ [entry 4 "2024-02-01" "D"]).filter fun t =>
      Days.all.any fun d => decide (t.pTask.mTaskDate = week2024.GetDayISODate d)).length = 3 := by
    decide
  refine ⟨m, kids, hb, hk, hlen.trans h3, ?_⟩
  rw [hheap, hlen, h3]

/-! ## A second `InitBatch` -/

/-- C26: `InitBatch` accumulates earlier batches: after construction, `InitBatch(xs)` and
then `InitBatch(ys)` on the same model, the children of each day container address, in
order, the leaves of the day's records of `xs`, then the leaves of the day's records of `xs`
once more, then the leaves of the day's records of `ys`; their number is twice the number of
the day's records of `xs` plus the number of the day's records of `ys`, so that a second call
with the empty collection doubles the leaves of every day. -/
theorem C26_second_batch_accumulates (dt : DateTraverser) (raw : Nat → Int)
    (xs ys : List TaskItemModel) (d : Days) :
    ∃ m1 m2 kids, build dt raw xs = some m1 ∧ m1.InitBatch ys = some m2 ∧
      m2.GetChildren (m2.dayNode d) [] = some (kids, kids.length) ∧
      kids.map (deref m2.heap) =
        ((xs.filter fun t => decide (t.pTask.mTaskDate = dt.GetDayISODate d)) ++
          (xs.filter fun t => decide (t.pTask.mTaskDate = dt.GetDayISODate d)) ++
          (ys.filter fun t => decide (t.pTask.mTaskDate = dt.GetDayISODate d))).map
          (fun t => some (leafFor (m2.dayNode d) t)) ∧
      kids.length =
        2 * (xs.filter fun t => decide (t.pTask.mTaskDate = dt.GetDayISODate d)).length +
          (ys.filter fun t => decide (t.pTask.mTaskDate = dt.GetDayISODate d)).length := by
  obtain ⟨m1, hb, hm⟩ := build_spec dt raw xs
  obtain ⟨ma, hma⟩ : ∃ ma : WeeklyTreeModel,
      ma = { m1 with mWeeklyTasksMap := fillMap m1.mWeeklyTasksMap ys } := ⟨_, rfl⟩
  have hheap : ma.heap = m1.heap := by rw [hma]
  have hptr : ∀ d, ma.dayNode d = dayAddr d := by
    intro d; rw [← hm.day_ptr d, hma]; cases d <;> rfl
  have hbk : ∀ d, ma.dayBucket d = dayItems dt xs d ++ dayItems dt ys d := by
    intro d
    have h1 := hm.bucket d
    have ha := hm.anchor
    simp only [dayBucket] at h1
    rw [hma]
    simp only [dayBucket, mapFind_fillMap]
    rw [h1, ha]
    rfl
  obtain ⟨m2, h2, -, r2, -, -, -, r6, r7, r8⟩ := initDays_spec Days.all ma Days.all_nodup
    (fun d _ => ⟨_, by rw [hptr, hheap]; exact hm.day_node d⟩)
    (fun d _ d' _ h => by rw [hptr, hptr] at h; exact dayAddr_injective h)
  have hinit : m1.InitBatch ys = some m2 := by
    rw [InitBatch_eq_initDays, ← hma]
    exact h2
  have hday := r7 d (Days.mem_all d) _ (by rw [hptr, hheap]; exact hm.day_node d)
  rw [hptr, hbk] at hday
  have hp2 : m2.dayNode d = dayAddr d := (r2 d).trans (hptr d)
  have hb8 := dayAddr_bounds
  have hA : (List.range' (9 + m1.leafOffset Days.all d) (dayItems dt xs d).length).map
      (deref m2.heap) = (dayItems dt xs d).map fun t => some (leafFor (m2.dayNode d) t) := by
    rw [hp2, ← hm.day_ptr d, ← hm.leaves_day d]
    apply List.map_congr_left
    intro k hk
    simp only [List.mem_range'_1] at hk
    have hi : k - (9 + m1.leafOffset Days.all d) < (dayItems dt xs d).length := by omega
    have hk1 := hm.leaf_node d _ hi
    rw [show 9 + m1.leafOffset Days.all d + (k - (9 + m1.leafOffset Days.all d)) = k by omega]
      at hk1
    have hle := (deref_pos_le hk1).2
    rw [r6 k (by rw [hheap]; exact hle) (fun d' _ => by rw [hptr]; have := hb8 d'; omega), hheap]
  have hB : (List.range' (ma.heap.length + 1 + ma.leafOffset Days.all d)
      (dayItems dt xs d ++ dayItems dt ys d).length).map (deref m2.heap) =
      (dayItems dt xs d ++ dayItems dt ys d).map fun t => some (leafFor (m2.dayNode d) t) := by
    apply List.ext_getElem
    · simp
    · intro i h1 h2
      simp only [List.length_map, List.length_range'] at h1
      simp only [List.getElem_map, List.getElem_range', Nat.one_mul]
      have h8 := r8 d (Days.mem_all d) i (by rw [hbk]; exact h1)
      rw [hbk, hptr, List.getElem?_map, List.getElem?_eq_getElem h1] at h8
      rw [h8]
      exact congrArg (fun p => some (leafFor p _)) hp2.symm
  refine ⟨m1, m2, List.range' (9 + m1.leafOffset Days.all d) (dayItems dt xs d).length ++
    List.range' (ma.heap.length + 1 + ma.leafOffset Days.all d)
      (dayItems dt xs d ++ dayItems dt ys d).length, hb, hinit, ?_, ?_, ?_⟩
  · rw [hp2, GetChildren_eq hday]
    rfl
  · rw [List.map_append, hA, hB]
    simp [dayItems]
  · simp [dayItems]
    omega

/-! ## The effect of `SetValue` -/

/-- `SetValue` on an item that addresses a node: either the column is one of the five and
the node is replaced by the result of the column's setter, or nothing is changed and the
wrong column is logged; the returned flag is false. -/
theorem SetValue_cases {m : WeeklyTreeModel} {item : Nat} {node : WeeklyTreeModelNode}
    (hd : deref m.heap item = some node) (cv : wxVariantConversions) (variant : wxVariant)
    (col : Nat) :
    (∃ node1, m.SetValue cv variant item col =
        some ({ m with heap := store m.heap item node1 }, false, []) ∧
      ((col = Col_Project ∧ node1 = node.SetProjectName (variant.GetString cv)) ∨
        (col = Col_Duration ∧ node1 = node.SetDuration (variant.GetString cv)) ∨
        (col = Col_Category ∧ node1 = node.SetCategoryName (variant.GetString cv)) ∨
        (col = Col_Description ∧ node1 = node.SetDescription (variant.GetString cv)) ∨
        (col = Col_Id ∧ node1 = node.SetTaskItemId (longToInt (variant.GetInteger cv))))) ∨
    (col ∉ [Col_Project, Col_Duration, Col_Category, Col_Description, Col_Id] ∧
      m.SetValue cv variant item col =
        some (m, false, [("WeeklyTreeModel::SetValue: wrong column %d", col)])) := by
  have hitem : item ≠ 0 := by have := deref_pos_le hd; omega
  by_cases h0 : col = Col_Project
  · subst h0
    exact Or.inl ⟨_, by simp [SetValue, hitem, hd], Or.inl ⟨rfl, rfl⟩⟩
  by_cases h1 : col = Col_Duration
  · subst h1
    exact Or.inl ⟨_, by simp [SetValue, hitem, hd, Col_Project, Col_Duration],
      Or.inr (Or.inl ⟨rfl, rfl⟩)⟩
  by_cases h2 : col = Col_Category
  · subst h2
    exact Or.inl ⟨_, by simp [SetValue, hitem, hd, Col_Project, Col_Duration, Col_Category],
      Or.inr (Or.inr (Or.inl ⟨rfl, rfl⟩))⟩
  by_cases h3 : col = Col_Description
  · subst h3
    exact Or.inl ⟨_, by
      simp [SetValue, hitem, hd, Col_Project, Col_Duration, Col_Category, Col_Description],
      Or.inr (Or.inr (Or.inr (Or.inl ⟨rfl, rfl⟩)))⟩
  by_cases h4 : col = Col_Id
  · subst h4
    exact Or.inl ⟨_, by
      simp [SetValue, hitem, hd, Col_Project, Col_Duration, Col_Category, Col_Description,
        Col_Id],
      Or.inr (Or.inr (Or.inr (Or.inr ⟨rfl, rfl⟩)))⟩
  · exact Or.inr ⟨by simp [h0, h1, h2, h3, h4], by simp [SetValue, hitem, h0, h1, h2, h3, h4]⟩

/-- Replacing a node by one with the same parent, children and container flag leaves every
other node and the navigation of the whole tree as they were. -/
theorem store_nav_frame {m : WeeklyTreeModel} {item : Nat} {node : WeeklyTreeModelNode}
    (hd : deref m.heap item = some node) (node1 : WeeklyTreeModelNode)
    (hp : node1.pParent = node.pParent) (hc : node1.mChildren = node.mChildren)
    (hb : node1.bContainer = node.bContainer) (m1 : WeeklyTreeModel)
    (hm1 : m1 = { m with heap := store m.heap item node1 }) :
    m1.heap.length = m.heap.length ∧
    (∀ q, q ≠ item → deref m1.heap q = deref m.heap q) ∧
    deref m1.heap item = some node1 ∧
    (∀ q, m1.GetParent q = m.GetParent q) ∧
    (∀ q array, m1.GetChildren q array = m.GetChildren q array) ∧
    (∀ q, m1.IsContainer q = m.IsContainer q) := by
  have hitem := (deref_pos_le hd).1
  have hroot : m1.pRoot = m.pRoot := by rw [hm1]
  have hlen : m1.heap.length = m.heap.length := by rw [hm1]; simp [store]
  have hne : ∀ q, q ≠ item → deref m1.heap q = deref m.heap q := by
    intro q hq
    rw [hm1]
    by_cases h0 : q = 0
    · subst h0; rfl
    · exact deref_store_ne (by omega) hq hitem node1
  have hself : deref m1.heap item = some node1 := by
    rw [hm1]
    exact deref_store_self hd node1
  refine ⟨hlen, hne, hself, ?_, ?_, ?_⟩
  · intro q
    by_cases hq : q = item
    · subst hq
      simp only [GetParent, hroot, hself, hd, Option.map_some', WeeklyTreeModelNode.GetParent, hp]
    · simp only [GetParent, hroot, hne q hq]
  · intro q array
    by_cases hq : q = item
    · subst hq
      rw [GetChildren_eq hself, GetChildren_eq hd, hc]
    · simp only [GetChildren, hroot, hne q hq]
  · intro q
    by_cases hq : q = item
    · subst hq
      simp only [IsContainer, hself, hd, Option.map_some', WeeklyTreeModelNode.IsContainer, hb]
    · simp only [IsContainer, hne q hq]

/-- C27: on an item that addresses a node, `SetValue` changes at most the field of that
node that belongs to the column: the node keeps its parent, its children, its container
flag and every field of another column, every other node is as it was, the members of the
model other than the heap are as they were, and `GetParent`, `GetChildren` and `IsContainer`
answer as before for every item; for a column that is none of the five defined columns the
model is unchanged. -/
theorem C27_set_value_frame (m : WeeklyTreeModel) (cv : wxVariantConversions)
    (variant : wxVariant) (item col : Nat) (node : WeeklyTreeModelNode)
    (hd : deref m.heap item = some node) :
    ∃ m1 node1 log, m.SetValue cv variant item col = some (m1, false, log) ∧
      m1.pRoot = m.pRoot ∧ (∀ d, m1.dayNode d = m.dayNode d) ∧
      m1.mWeeklyTasksMap = m.mWeeklyTasksMap ∧
      m1.heap.length = m.heap.length ∧
      (∀ q, q ≠ item → deref m1.heap q = deref m.heap q) ∧
      deref m1.heap item = some node1 ∧
      node1.pParent = node.pParent ∧ node1.mChildren = node.mChildren ∧
      node1.bContainer = node.bContainer ∧
      (col ≠ Col_Project → node1.mProjectName = node.mProjectName) ∧
      (col ≠ Col_Duration → node1.mDuration = node.mDuration) ∧
      (col ≠ Col_Category → node1.mCategoryName = node.mCategoryName) ∧
      (col ≠ Col_Description → node1.mDescription = node.mDescription) ∧
      (col ≠ Col_Id → node1.mTaskItemId = node.mTaskItemId) ∧
      (∀ q, m1.GetParent q = m.GetParent q) ∧
      (∀ q array, m1.GetChildren q array = m.GetChildren q array) ∧
      (∀ q, m1.IsContainer q = m.IsContainer q) ∧
      (col ∉ [Col_Project, Col_Duration, Col_Category, Col_Description, Col_Id] →
        m1 = m ∧ node1 = node) := by
  rcases SetValue_cases hd cv variant col with ⟨node1, hset, hcase⟩ | ⟨hcol, hset⟩
  · have hnav : node1.pParent = node.pParent ∧ node1.mChildren = node.mChildren ∧
        node1.bContainer = node.bContainer := by
      rcases hcase with ⟨-, rfl⟩ | ⟨-, rfl⟩ | ⟨-, rfl⟩ | ⟨-, rfl⟩ | ⟨-, rfl⟩ <;>
        exact ⟨rfl, rfl, rfl⟩
    obtain ⟨f1, f2, f3, f4, f5, f6⟩ :=
      store_nav_frame hd node1 hnav.1 hnav.2.1 hnav.2.2 _ rfl
    refine ⟨_, node1, [], hset, rfl, fun d => by cases d <;> rfl, rfl, f1, f2, f3, hnav.1,
      hnav.2.1, hnav.2.2, ?_, ?_, ?_, ?_, ?_, f4, f5, f6, ?_⟩
    · rcases hcase with ⟨h, rfl⟩ | ⟨-, rfl⟩ | ⟨-, rfl⟩ | ⟨-, rfl⟩ | ⟨-, rfl⟩
      · exact fun hne => absurd h hne
      all_goals exact fun _ => rfl
    · rcases hcase with ⟨-, rfl⟩ | ⟨h, rfl⟩ | ⟨-, rfl⟩ | ⟨-, rfl⟩ | ⟨-, rfl⟩
      · exact fun _ => rfl
      · exact fun hne => absurd h hne
      all_goals exact fun _ => rfl
    · rcases hcase with ⟨-, rfl⟩ | ⟨-, rfl⟩ | ⟨h, rfl⟩ | ⟨-, rfl⟩ | ⟨-, rfl⟩
      · exact fun _ => rfl
      · exact fun _ => rfl
      · exact fun hne => absurd h hne
      all_goals exact fun _ => rfl
    · rcases hcase with ⟨-, rfl⟩ | ⟨-, rfl⟩ | ⟨-, rfl⟩ | ⟨h, rfl⟩ | ⟨-, rfl⟩
      · exact fun _ => rfl
      · exact fun _ => rfl
      · exact fun _ => rfl
      · exact fun hne => absurd h hne
      · exact fun _ => rfl
    · rcases hcase with ⟨-, rfl⟩ | ⟨-, rfl⟩ | ⟨-, rfl⟩ | ⟨-, rfl⟩ | ⟨h, rfl⟩
      · exact fun _ => rfl
      · exact fun _ => rfl
      · exact fun _ => rfl
      · exact fun _ => rfl
      · exact fun hne => absurd h hne
    · intro hcol
      exfalso
      apply hcol
      rcases hcase with ⟨h, -⟩ | ⟨h, -⟩ | ⟨h, -⟩ | ⟨h, -⟩ | ⟨h, -⟩ <;> simp [h]
  · exact ⟨m, node, _, hset, rfl, fun _ => rfl, rfl, rfl, fun _ _ => rfl, hd, rfl, rfl, rfl,
      fun _ => rfl, fun _ => rfl, fun _ => rfl, fun _ => rfl, fun _ => rfl, fun _ => rfl,
      fun _ _ => rfl, fun _ => rfl, fun _ => ⟨rfl, rfl⟩⟩

/-- C27 on the leaf A of `scenarioModel`, with the string "edited" for the description
column: the project name and the parent of the leaf and the leaf B are as they were. -/
theorem C27_set_value_frame_witness :
    ∃ m1 node1 log,
      scenarioModel.SetValue ⟨fun _ => "", fun _ => 0⟩ (wxVariant.string "edited") 9
        Col_Description = some (m1, false, log) ∧
      deref m1.heap 9 = some node1 ∧ node1.mProjectName = "Timesheets" ∧ node1.pParent = 2 ∧
      deref m1.heap 10 = some (leafFor 2 (entry 2 "2024-01-01" "B")) := by
  obtain ⟨m1, node1, log, h, -, -, -, -, hq, hself, hp, -, -, hname, -⟩ :=
    C27_set_value_frame scenarioModel ⟨fun _ => "", fun _ => 0⟩ (wxVariant.string "edited") 9
      Col_Description (leafFor 2 (entry 1 "2024-01-01" "A")) (by decide)
  exact ⟨m1, node1, log, h, hself, hname (by decide), hp, (hq 10 (by decide)).trans (by decide)⟩

/-- C28: `SetValue` returns false: on an item that addresses a node it returns, with the
flag false, for every variant and every column, the five columns whose branch writes the
node included; and whenever it returns, for any item, the flag is false. -/
theorem C28_set_value_returns_false (m : WeeklyTreeModel) (cv : wxVariantConversions)
    (variant : wxVariant) (item col : Nat) (node : WeeklyTreeModelNode)
    (hd : deref m.heap item = some node) :
    (∃ m1 log, m.SetValue cv variant item col = some (m1, false, log)) ∧
    (∀ item1 r, m.SetValue cv variant item1 col = some r → r.2.1 = false) := by
  constructor
  · rcases SetValue_cases hd cv variant col with ⟨node1, hset, -⟩ | ⟨-, hset⟩
    · exact ⟨_, _, hset⟩
    · exact ⟨_, _, hset⟩
  · intro item1 r hr
    unfold SetValue at hr
    split_ifs at hr <;> cases hd1 : deref m.heap item1 <;> simp [hd1] at hr <;>
      (subst hr; rfl)

/-- C28 on the leaf A of `scenarioModel`: the call that sets the description to "edited"
writes the node and returns false. -/
theorem C28_set_value_returns_false_witness :
    (∃ m1 log, scenarioModel.SetValue ⟨fun _ => "", fun _ => 0⟩ (wxVariant.string "edited") 9
      Col_Description = some (m1, false, log)) ∧
    (scenarioModel.SetValue ⟨fun _ => "", fun _ => 0⟩ (wxVariant.string "edited") 9
        Col_Description).map (fun r => (deref r.1.heap 9, r.2.1)) =
      some (some ((leafFor 2 (entry 1 "2024-01-01" "A")).SetDescription "edited"), false) :=
  ⟨(C28_set_value_returns_false scenarioModel ⟨fun _ => "", fun _ => 0⟩
      (wxVariant.string "edited") 9 Col_Description (leafFor 2 (entry 1 "2024-01-01" "A"))
      (by decide)).1, by decide⟩

end dv

namespace data

/-! ## The claims about the task item store -/

/-- In a list with unique keys, the elements with a given key are none or exactly one. -/
theorem filter_key_unique {α : Type} (key : α → Int) (k : Int) (l : List α)
    (hnd : (l.map key).Nodup) :
    (l.filter fun x => decide (k = key x)) = [] ∨
      ∃ x, x ∈ l ∧ key x = k ∧ (l.filter fun x => decide (k = key x)) = [x] := by
  induction l with
  | nil => exact Or.inl rfl
  | cons a l ih =>
    rw [List.map_cons, List.nodup_cons] at hnd
    obtain ⟨ha, hl⟩ := hnd
    by_cases hk : k = key a
    · right
      subst hk
      refine ⟨a, List.mem_cons_self _ _, rfl, ?_⟩
      have hnone : (l.filter fun x => decide (key a = key x)) = [] := by
        rw [List.filter_eq_nil_iff]
        intro x hx hkx
        exact ha (List.mem_map.mpr ⟨x, hx, (of_decide_eq_true hkx).symm⟩)
      rw [List.filter_cons, hnone]
      simp
    · rcases ih hl with h | ⟨x, hx, hkx, h⟩
      · left
        simp [List.filter_cons, hk, h]
      · right
        exact ⟨x, List.mem_cons_of_mem _ hx, hkx, by simp [List.filter_cons, hk, h]⟩

theorem flatMap_ite_singleton {α β : Type} (l : List α) (p : α → Bool) (g : α → β) :
    (l.flatMap fun a => if p a = true then [g a] else []) = (l.filter p).map g := by
  induction l with
  | nil => rfl
  | cons a l ih =>
    rw [List.flatMap_cons, ih]
    by_cases h : p a = true <;> simp [List.filter_cons, h]

/-- The engine yields the rows of the scan, each once, in some order. -/
theorem yielded_perm {α : Type} (db : Database) (s : Statement) (rows : List α) :
    (db.yielded s rows).Perm rows := by
  unfold Database.yielded
  have h := (List.perm_insertionSort
    (fun a b : Nat × α => db.rank db.toTables s a.1 ≤ db.rank db.toTables s b.1)
    rows.enum).map Prod.snd
  rwa [List.enum_map_snd] at h

theorem mem_yielded {α : Type} (db : Database) (s : Statement) (rows : List α) (a : α) :
    a ∈ db.yielded s rows ↔ a ∈ rows :=
  (yielded_perm db s rows).mem_iff

theorem yielded_nil {α : Type} (db : Database) (s : Statement) :
    db.yielded s ([] : List α) = [] :=
  List.perm_nil.mp (yielded_perm db s [])

theorem yielded_singleton {α : Type} (db : Database) (s : Statement) (a : α) :
    db.yielded s [a] = [a] :=
  List.perm_singleton.mp (yielded_perm db s [a])

/-- A stored value in the range of `int` is read as it is. -/
theorem columnInt_of_int {v : Int} (h1 : -2147483648 ≤ v) (h2 : v < 2147483648) :
    columnInt v = v := by
  unfold columnInt
  omega

/-- What the type lookup returns when no row has the id, and when exactly one row has it. -/
theorem GetTaskItemTypeIdByTaskItemId_spec (db : Database) (taskItemId : Int) :
    ((∀ r ∈ db.task_items, r.task_item_id ≠ taskItemId) →
      GetTaskItemTypeIdByTaskItemId (Except.ok db) taskItemId = Except.ok 0) ∧
    (∀ r ∈ db.task_items, r.task_item_id = taskItemId →
      (db.task_items.map fun x => x.task_item_id).Nodup →
      GetTaskItemTypeIdByTaskItemId (Except.ok db) taskItemId =
        Except.ok (columnInt r.task_item_type_id)) := by
  constructor
  · intro hno
    have : (db.task_items.filter fun ti => decide (ti.task_item_id = taskItemId)) = [] := by
      rw [List.filter_eq_nil_iff]
      intro a ha h
      exact hno a ha (of_decide_eq_true h)
    simp [GetTaskItemTypeIdByTaskItemId, getTaskItemTypeIdByTaskItemId, this, yielded_nil]
  · intro r hr hid hnd
    have hflt : (db.task_items.filter fun ti => decide (ti.task_item_id = taskItemId)) =
        db.task_items.filter fun ti => decide (taskItemId = ti.task_item_id) :=
      List.filter_congr fun x _ => by simp [eq_comm]
    rcases filter_key_unique (fun x : TaskItemRow => x.task_item_id) taskItemId db.task_items hnd
      with h | ⟨x, hx, hkx, h⟩
    · rw [List.filter_eq_nil_iff] at h
      exact absurd (by simpa using hid.symm) (h r hr)
    · have hrx : r ∈ [x] := by
        rw [← h]
        exact List.mem_filter.mpr ⟨hr, by simpa using hid.symm⟩
      have : r = x := by simpa using hrx
      subst this
      simp [GetTaskItemTypeIdByTaskItemId, getTaskItemTypeIdByTaskItemId, hflt, h,
        yielded_singleton]

/-- C17, as the code has it: for a task item id that no stored row has,
`GetTaskItemTypeIdByTaskItemId` returns the sentinel 0 with which its local is initialised;
for the id of a stored row (ids being unique) it returns that row's `task_item_type_id` as
the `int` callback reads it: the stored value when it is in the range of `int`, its low 32
bits otherwise. -/
theorem C17_type_of_task_item (db : Database) (taskItemId : Int) :
    ((∀ r ∈ db.task_items, r.task_item_id ≠ taskItemId) →
      GetTaskItemTypeIdByTaskItemId (Except.ok db) taskItemId = Except.ok 0) ∧
    (∀ r ∈ db.task_items, r.task_item_id = taskItemId →
      (db.task_items.map fun x => x.task_item_id).Nodup →
      GetTaskItemTypeIdByTaskItemId (Except.ok db) taskItemId =
          Except.ok (columnInt r.task_item_type_id) ∧
        (-2147483648 ≤ r.task_item_type_id → r.task_item_type_id < 2147483648 →
          GetTaskItemTypeIdByTaskItemId (Except.ok db) taskItemId =
            Except.ok r.task_item_type_id)) := by
  refine ⟨(GetTaskItemTypeIdByTaskItemId_spec db taskItemId).1, ?_⟩
  intro r hr hid hnd
  have h := (GetTaskItemTypeIdByTaskItemId_spec db taskItemId).2 r hr hid hnd
  refine ⟨h, ?_⟩
  intro h1 h2
  rw [h, columnInt_of_int h1 h2]

/-- C17 as stated fails: in `wideDb` the only row with the task item id 3 has the
`task_item_type_id` 4294967297, and the lookup for 3 returns 1. -/
theorem C17_type_of_task_item_counterexample :
    (wideDb.task_items.filter fun r => decide (r.task_item_id = 3)).map
        (fun r => r.task_item_type_id) = [4294967297] ∧
      (GetTaskItemTypeIdByTaskItemId (Except.ok wideDb) 3).toOption = some 1 := by
  constructor
  · decide
  · decide

theorem any_and_of_filter_nil {α : Type} {l : List α} {p : α → Bool} (q : α → Bool)
    (h : l.filter p = []) : (l.any fun a => p a && q a) = false := by
  rw [← List.any_filter, h]
  rfl

theorem any_and_of_filter_singleton {α : Type} {l : List α} {p : α → Bool} (q : α → Bool)
    {x : α} (h : l.filter p = [x]) : (l.any fun a => p a && q a) = q x := by
  rw [← List.any_filter, h]
  simp

theorem any_of_filter_nil {α : Type} {l : List α} {p : α → Bool} (h : l.filter p = []) :
    l.any p = false := by
  have := any_and_of_filter_nil (fun _ => true) h
  simpa using this

theorem any_of_filter_singleton {α : Type} {l : List α} {p : α → Bool} {x : α}
    (h : l.filter p = [x]) : l.any p = true := by
  have := any_and_of_filter_singleton (fun _ => true) h
  simpa using this

theorem flatMap_const_unique {α β : Type} (key : α → Int) (k : Int) (l : List α)
    (hnd : (l.map key).Nodup) (rest : List β) :
    ((l.filter fun x => decide (k = key x)).flatMap fun _ => rest) =
      if (l.any fun x => decide (k = key x)) = true then rest else [] := by
  rcases filter_key_unique key k l hnd with h | ⟨x, -, -, h⟩
  · rw [h, any_of_filter_nil h]
    rfl
  · rw [h, any_of_filter_singleton h, List.flatMap_singleton]
    rfl

/-- With unique keys, the join of `getTaskItemsByDate` has for a `task_items` row one row
when it is active, its task has the date and its category, project and type rows exist, and
none otherwise. -/
theorem join_row (db : Database) (date : String) (hk : KeysUnique db) (ti : TaskItemRow) :
    ((db.tasks.filter fun t => decide (ti.task_id = t.task_id)).flatMap fun t =>
      (db.categories.filter fun c => decide (ti.category_id = c.category_id)).flatMap fun _ =>
        (db.projects.filter fun p => decide (ti.project_id = p.project_id)).flatMap fun _ =>
          (db.task_item_types.filter fun y =>
            decide (ti.task_item_type_id = y.task_item_type_id)).flatMap fun _ =>
              if t.task_date = date ∧ ti.is_active = 1 then [(ti, t.task_date)] else []) =
      if (decide (ti.is_active = 1) &&
          db.tasks.any (fun t => decide (ti.task_id = t.task_id) && decide (t.task_date = date)) &&
          db.categories.any (fun c => decide (ti.category_id = c.category_id)) &&
          db.projects.any (fun p => decide (ti.project_id = p.project_id)) &&
          db.task_item_types.any
            (fun y => decide (ti.task_item_type_id = y.task_item_type_id))) = true
      then [(ti, date)] else [] := by
  obtain ⟨k1, k2, k3, k4⟩ := hk
  have e2 := flatMap_const_unique (β := TaskItemRow × String)
    (fun c : CategoryRow => c.category_id) ti.category_id db.categories k2
  have e3 := flatMap_const_unique (β := TaskItemRow × String)
    (fun p : ProjectRow => p.project_id) ti.project_id db.projects k3
  have e4 := flatMap_const_unique (β := TaskItemRow × String)
    (fun y : TaskItemTypeRow => y.task_item_type_id) ti.task_item_type_id db.task_item_types k4
  simp only [e2, e3, e4]
  rcases filter_key_unique (fun t : TaskRow => t.task_id) ti.task_id db.tasks k1
    with h1 | ⟨t, -, -, h1⟩
  · rw [h1, any_and_of_filter_nil _ h1]
    simp
  · rw [h1, any_and_of_filter_singleton _ h1, List.flatMap_singleton]
    by_cases hd : t.task_date = date <;> by_cases ha : ti.is_active = 1 <;>
      cases h2 : (db.categories.any fun c => decide (ti.category_id = c.category_id)) <;>
      cases h3 : (db.projects.any fun p => decide (ti.project_id = p.project_id)) <;>
      cases h4 : (db.task_item_types.any fun y =>
        decide (ti.task_item_type_id = y.task_item_type_id)) <;>
      simp [hd, ha]

/-- With unique keys, the scan of `getTaskItemsByDate` has one row for each qualifying
`task_items` row. -/
theorem scanTaskItemsByDate_eq (db : Database) (date : String) (hk : KeysUnique db) :
    scanTaskItemsByDate db date = (joinedActiveRows db date).map fun ti => (ti, date) := by
  simp only [scanTaskItemsByDate, join_row db date hk]
  exact flatMap_ite_singleton _ _ _

/-- With unique keys, the statement `getTaskItemsByDate` yields one row for each qualifying
`task_items` row, in the order of the engine. -/
theorem getTaskItemsByDate_perm (db : Database) (date : String) (hk : KeysUnique db) :
    ((getTaskItemsByDate db date).map Prod.fst).Perm (joinedActiveRows db date) := by
  have h := (yielded_perm db (Statement.getTaskItemsByDate date)
    (scanTaskItemsByDate db date)).map Prod.fst
  have hfst : ((joinedActiveRows db date).map fun ti => (ti, date)).map Prod.fst =
      joinedActiveRows db date := by
    simp [List.map_map, Function.comp_def]
  rw [scanTaskItemsByDate_eq db date hk, hfst] at h
  rw [getTaskItemsByDate, scanTaskItemsByDate_eq db date hk]
  exact h

/-- Every row that `getTaskItemsByDate` yields comes from a stored `task_items` row that is
active, whose task has the given date, and whose category, project and type rows exist. -/
theorem getTaskItemsByDate_mem (db : Database) (date : String) (row : TaskItemRow × String)
    (h : row ∈ getTaskItemsByDate db date) :
    row.1 ∈ db.task_items ∧ row.1.is_active = 1 ∧ row.2 = date ∧
      (∃ t ∈ db.tasks, t.task_id = row.1.task_id ∧ t.task_date = date) ∧
      (∃ c ∈ db.categories, c.category_id = row.1.category_id) ∧
      (∃ p ∈ db.projects, p.project_id = row.1.project_id) ∧
      (∃ y ∈ db.task_item_types, y.task_item_type_id = row.1.task_item_type_id) := by
  rw [getTaskItemsByDate, mem_yielded] at h
  simp only [scanTaskItemsByDate, List.mem_flatMap, List.mem_filter, decide_eq_true_eq] at h
  obtain ⟨ti, hti, t, ⟨ht, htid⟩, c, ⟨hc, hcid⟩, p, ⟨hp, hpid⟩, y, ⟨hy, hyid⟩, hrow⟩ := h
  split at hrow
  · next hcond =>
    have : row = (ti, t.task_date) := by simpa using hrow
    subst this
    exact ⟨hti, hcond.2, hcond.1, ⟨t, ht, htid.symm, hcond.1⟩, ⟨c, hc, hcid.symm⟩,
      ⟨p, hp, hpid.symm⟩, ⟨y, hy, hyid.symm⟩⟩
  · simp at hrow

/-- The order of the records is the engine's: with the default rank `GetByDate` on `wideDb`
returns the records of the rows 1 and 4294967297 in this order, with a rank that falls along
the scan it returns them in the opposite order. -/
theorem GetByDate_order_of_rank :
    (GetByDate sampleLookups (Except.ok wideDb) "2024-01-01").toOption.map
        (List.map fun t => t.mDateCreated) = some [1704067200, 1704067201] ∧
      (GetByDate sampleLookups (Except.ok { wideDb with rank := fun _ _ i => 9 - i })
        "2024-01-01").toOption.map
        (List.map fun t => t.mDateCreated) = some [1704067201, 1704067200] := by
  constructor
  · decide
  · decide

/-- C18, as the code has it: `GetByDate(date)` returns one record per row that the statement
yields, in the order in which the storage yields the rows; every such row is a stored task
item row that is active, whose owning task has the given date and whose category, project
and task item type rows exist, and its record is active and carries the row's identifier
as an `int`; when the task, category, project and type ids are unique, the rows are exactly
the stored rows of that kind, each once. -/
theorem C18_records_of_date (lk : Lookups) (db : Database) (date : String) :
    ∃ rows, rows = (getTaskItemsByDate db date).map Prod.fst ∧
      GetByDate lk (Except.ok db) date = Except.ok (rows.map (shapeRow lk)) ∧
      (∀ r ∈ rows, r ∈ db.task_items ∧ r.is_active = 1 ∧
        (∃ t ∈ db.tasks, t.task_id = r.task_id ∧ t.task_date = date) ∧
        (∃ c ∈ db.categories, c.category_id = r.category_id) ∧
        (∃ p ∈ db.projects, p.project_id = r.project_id) ∧
        (∃ y ∈ db.task_item_types, y.task_item_type_id = r.task_item_type_id) ∧
        (shapeRow lk r).bIsActive = true ∧
        (shapeRow lk r).mTaskItemId = columnInt r.task_item_id) ∧
      (KeysUnique db → rows.Perm (joinedActiveRows db date)) := by
  refine ⟨(getTaskItemsByDate db date).map Prod.fst, rfl, ?_, ?_, ?_⟩
  · simp [GetByDate, List.map_map, Function.comp_def]
  · intro r hr
    obtain ⟨row, hrow, rfl⟩ := List.mem_map.mp hr
    obtain ⟨h1, h2, -, h4, h5, h6, h7⟩ := getTaskItemsByDate_mem db date row hrow
    refine ⟨h1, h2, h4, h5, h6, h7, ?_, rfl⟩
    simp [shapeRow, shapeTaskItem, h2]
  · intro hk
    exact getTaskItemsByDate_perm db date hk

/-- C18 as stated fails: in `sampleDb` the task items 1 and 2 are both active and belong to
the task of 2024-01-01, but item 2 has no category row, and `GetByDate` returns a record for
item 1 only. -/
theorem C18_records_of_date_counterexample :
    (activeRowsOfDate sampleDb "2024-01-01").map (fun r => r.task_item_id) = [1, 2] ∧
    (GetByDate sampleLookups (Except.ok sampleDb) "2024-01-01").toOption.map
      (List.map fun t => t.mTaskItemId) = some [1] := by
  constructor
  · decide
  · decide

/-! ## Record shape, soft delete and hours -/

theorem foldl_last_some {α β : Type} (f : α → β) (l : List α) :
    ∀ (init : Option β) (b : β),
      l.foldl (fun _ a => some (f a)) init = some b → init = some b ∨ ∃ a ∈ l, b = f a := by
  induction l with
  | nil => intro init b h; exact Or.inl h
  | cons x l ih =>
    intro init b h
    rcases ih (some (f x)) b h with h1 | ⟨a, ha, hb⟩
    · exact Or.inr ⟨x, List.mem_cons_self _ _, (Option.some.inj h1).symm⟩
    · exact Or.inr ⟨a, List.mem_cons_of_mem _ ha, hb⟩

/-- The rows that `GetByDate` turns into records. -/
theorem GetByDate_ok (lk : Lookups) (db : Database) (date : String) :
    GetByDate lk (Except.ok db) date =
      Except.ok (((getTaskItemsByDate db date).map Prod.fst).map (shapeRow lk)) := by
  simp [GetByDate, List.map_map, Function.comp_def]

/-- C22: the record that the row callback of `GetByDate` and `GetById` shapes from a stored
row has either both its start and end time, namely when the row has both, or neither of
them, also when the row has only one of the two; never anything else; and its duration is
the stored duration value.  Every record that `GetByDate` or `GetById` returns is shaped in
this way from a stored row. -/
theorem C22_times_both_or_neither (lk : Lookups) :
    (∀ r : TaskItemRow,
      (((shapeRow lk r).mStartTime.isSome = true ∧ (shapeRow lk r).mEndTime.isSome = true) ∨
        ((shapeRow lk r).mStartTime = none ∧ (shapeRow lk r).mEndTime = none)) ∧
      ¬(((shapeRow lk r).mStartTime.isSome = true ∧ (shapeRow lk r).mEndTime.isSome = true) ∧
        ((shapeRow lk r).mStartTime = none ∧ (shapeRow lk r).mEndTime = none)) ∧
      (r.start_time.isSome = true ∧ r.end_time.isSome = true →
        (shapeRow lk r).mStartTime = r.start_time ∧ (shapeRow lk r).mEndTime = r.end_time) ∧
      (r.start_time = none ∨ r.end_time = none →
        (shapeRow lk r).mStartTime = none ∧ (shapeRow lk r).mEndTime = none) ∧
      (shapeRow lk r).mDuration = r.duration) ∧
    (∀ (db : Database) (date : String), ∃ rows : List TaskItemRow,
      GetByDate lk (Except.ok db) date = Except.ok (rows.map (shapeRow lk)) ∧
      ∀ r ∈ rows, r ∈ db.task_items) ∧
    (∀ (db : Database) (taskItemId : Int), ∃ o,
      GetById lk (Except.ok db) taskItemId = Except.ok o ∧
      ∀ t, o = some t → ∃ r ∈ db.task_items, r.task_item_id = taskItemId ∧ t = shapeRow lk r) := by
  refine ⟨?_, ?_, ?_⟩
  · intro r
    cases hs : r.start_time <;> cases he : r.end_time <;>
      simp [shapeRow, shapeTaskItem, hs, he]
  · intro db date
    refine ⟨_, GetByDate_ok lk db date, ?_⟩
    intro r hr
    obtain ⟨row, hrow, rfl⟩ := List.mem_map.mp hr
    exact (getTaskItemsByDate_mem db date row hrow).1
  · intro db taskItemId
    refine ⟨_, rfl, ?_⟩
    intro t ht
    rcases foldl_last_some (shapeRow lk) _ none t ht with h | ⟨r, hr, rfl⟩
    · exact absurd h (by simp)
    · rw [getTaskItemById, mem_yielded] at hr
      obtain ⟨hmem, hid⟩ := List.mem_filter.mp hr
      exact ⟨r, hmem, of_decide_eq_true hid, rfl⟩

theorem deleteRow_id (dateModified taskItemId : Int) (ti : TaskItemRow) :
    (deleteRow dateModified taskItemId ti).task_item_id = ti.task_item_id := by
  unfold deleteRow
  split <;> rfl

/-- The effect of `Delete` on the tables and on what `GetByDate` returns afterwards. -/
theorem Delete_spec (lk : Lookups) (db : Database) (timestamp taskItemId : Int) :
    ∃ db1, Delete (Except.ok db) timestamp taskItemId = Except.ok db1 ∧
      db1.tasks = db.tasks ∧ db1.categories = db.categories ∧ db1.projects = db.projects ∧
      db1.task_item_types = db.task_item_types ∧
      db1.task_items.length = db.task_items.length ∧
      (∀ (i : Nat) (r : TaskItemRow), db.task_items[i]? = some r →
        db1.task_items[i]? = some
          (if r.task_item_id = taskItemId then
            { r with is_active := 0, date_modified := timestamp }
          else r)) ∧
      (∀ date, ∃ rows : List TaskItemRow,
        GetByDate lk (Except.ok db1) date = Except.ok (rows.map (shapeRow lk)) ∧
        (∀ r ∈ rows, r ∈ db1.task_items ∧ r.task_item_id ≠ taskItemId) ∧
        ((∀ r ∈ db.task_items, -2147483648 ≤ r.task_item_id ∧ r.task_item_id < 2147483648) →
          ∀ t ∈ rows.map (shapeRow lk), t.mTaskItemId ≠ taskItemId)) := by
  refine ⟨deleteTaskItem db timestamp taskItemId, rfl, rfl, rfl, rfl, rfl, ?_, ?_, ?_⟩
  · simp [deleteTaskItem]
  · intro i r hr
    simp only [deleteTaskItem, List.getElem?_map, hr, Option.map_some', deleteRow]
  · intro date
    have hrows : ∀ r ∈ (getTaskItemsByDate (deleteTaskItem db timestamp taskItemId) date).map
        Prod.fst, r ∈ (deleteTaskItem db timestamp taskItemId).task_items ∧
          r.task_item_id ≠ taskItemId ∧ ∃ r0 ∈ db.task_items, r0.task_item_id = r.task_item_id := by
      intro r hr
      obtain ⟨row, hrow, rfl⟩ := List.mem_map.mp hr
      obtain ⟨hmem, hact, -⟩ := getTaskItemsByDate_mem _ date row hrow
      have hmem1 := hmem
      simp only [deleteTaskItem, List.mem_map] at hmem1
      obtain ⟨r0, hr0mem, hr0⟩ := hmem1
      refine ⟨hmem, ?_, r0, hr0mem, ?_⟩
      · intro hid
        have hid0 : r0.task_item_id = taskItemId := by
          rw [← deleteRow_id timestamp taskItemId r0, hr0]
          exact hid
        rw [← hr0] at hact
        simp [deleteRow, hid0] at hact
      · rw [← hr0, deleteRow_id]
    refine ⟨(getTaskItemsByDate (deleteTaskItem db timestamp taskItemId) date).map Prod.fst,
      GetByDate_ok lk _ date, fun r hr => ⟨(hrows r hr).1, (hrows r hr).2.1⟩, ?_⟩
    intro hrange t ht
    obtain ⟨r, hr, rfl⟩ := List.mem_map.mp ht
    obtain ⟨-, hne, r0, hr0mem, hr0⟩ := hrows r hr
    have hb := hrange r0 hr0mem
    rw [hr0] at hb
    show columnInt r.task_item_id ≠ taskItemId
    rw [columnInt_of_int hb.1 hb.2]
    exact hne

/-- C24, as the code has it: `Delete(id)` sets the active flag of the rows with that id to 0
and their modified timestamp to the current time, leaves every other field of these rows,
every other row and the other tables as they are, and afterwards `GetByDate` returns for no
date a record of a row with that id; when the stored ids are in the range of `int`, it
returns no record with that id. -/
theorem C24_soft_delete (lk : Lookups) (db : Database) (timestamp taskItemId : Int) :
    ∃ db1, Delete (Except.ok db) timestamp taskItemId = Except.ok db1 ∧
      db1.tasks = db.tasks ∧ db1.categories = db.categories ∧ db1.projects = db.projects ∧
      db1.task_item_types = db.task_item_types ∧
      db1.task_items.length = db.task_items.length ∧
      (∀ (i : Nat) (r : TaskItemRow), db.task_items[i]? = some r →
        db1.task_items[i]? = some
          (if r.task_item_id = taskItemId then
            { r with is_active := 0, date_modified := timestamp }
          else r)) ∧
      (∀ date, ∃ rows : List TaskItemRow,
        GetByDate lk (Except.ok db1) date = Except.ok (rows.map (shapeRow lk)) ∧
        (∀ r ∈ rows, r ∈ db1.task_items ∧ r.task_item_id ≠ taskItemId) ∧
        ((∀ r ∈ db.task_items, -2147483648 ≤ r.task_item_id ∧ r.task_item_id < 2147483648) →
          ∀ t ∈ rows.map (shapeRow lk), t.mTaskItemId ≠ taskItemId)) :=
  Delete_spec lk db timestamp taskItemId

/-- C24 as stated fails: `wideDb` has active task items with the stored ids 1 and 4294967297
on 2024-01-01; after `Delete(1)` the row 1 is inactive, and `GetByDate` returns the record
of the row 4294967297, whose id is read as 1. -/
theorem C24_soft_delete_counterexample :
    ((Delete (Except.ok wideDb) 1704153600 1).toOption.map fun db1 =>
        db1.task_items.map fun r => (r.task_item_id, r.is_active)) =
      some [(1, 0), (4294967297, 1), (3, 1)] ∧
    ((Delete (Except.ok wideDb) 1704153600 1).toOption.bind fun db1 =>
        (GetByDate sampleLookups (Except.ok db1) "2024-01-01").toOption.map
          (List.map fun t => t.mTaskItemId)) = some [1] := by
  constructor
  · decide
  · decide

/-- The durations that `GetHours` returns are those of the task items whose task has the
date, whatever their active flag. -/
theorem mem_getTaskHoursByTaskId (db : Database) (date : String) (duration : String) :
    duration ∈ getTaskHoursByTaskId db date ↔
      ∃ ti ∈ db.task_items, ∃ t ∈ db.tasks, ti.task_id = t.task_id ∧ t.task_date = date ∧
        ti.duration = duration := by
  simp only [getTaskHoursByTaskId, List.mem_map, mem_yielded, scanTaskHoursByTaskId,
    List.mem_flatMap, List.mem_filter, decide_eq_true_eq]
  constructor
  · rintro ⟨r, ⟨ti, hti, t, ⟨ht, hid⟩, h⟩, hdur⟩
    split at h
    · next hdate =>
      have hr : r = ti := List.mem_singleton.mp h
      subst hr
      exact ⟨r, hti, t, ht, hid, hdate, hdur⟩
    · simp at h
  · rintro ⟨ti, hti, t, ht, hid, hdate, hdur⟩
    exact ⟨ti, ⟨ti, hti, t, ⟨ht, hid⟩, by simp [hdate]⟩, hdur⟩

/-- C29: `GetHours(date)` returns the durations of the task items whose task has the given
date and does not look at the active flag: every record that `GetByDate(date)` returns has
its duration among them, and so has a task item of that date after its soft delete, when
no row that `GetByDate` turns into a record is that task item any more. -/
theorem C29_hours_ignore_active_flag (lk : Lookups) (db : Database) (date : String) :
    ∃ hours recs, GetHours (Except.ok db) date = Except.ok hours ∧
      GetByDate lk (Except.ok db) date = Except.ok recs ∧
      (∀ duration, duration ∈ hours ↔
        ∃ ti ∈ db.task_items, ∃ t ∈ db.tasks, ti.task_id = t.task_id ∧ t.task_date = date ∧
          ti.duration = duration) ∧
      (∀ t ∈ recs, t.mDuration ∈ hours) ∧
      (∀ (timestamp : Int), ∀ ti ∈ db.task_items, ∀ t ∈ db.tasks, ti.task_id = t.task_id →
        t.task_date = date →
        ∃ (db1 : Database) (hours1 : List String) (rows1 : List TaskItemRow),
          Delete (Except.ok db) timestamp ti.task_item_id = Except.ok db1 ∧
          GetHours (Except.ok db1) date = Except.ok hours1 ∧
          GetByDate lk (Except.ok db1) date = Except.ok (rows1.map (shapeRow lk)) ∧
          ti.duration ∈ hours1 ∧
          ∀ r ∈ rows1, r ∈ db1.task_items ∧ r.task_item_id ≠ ti.task_item_id) := by
  refine ⟨_, _, rfl, GetByDate_ok lk db date, mem_getTaskHoursByTaskId db date, ?_, ?_⟩
  · intro t ht
    obtain ⟨r, hr, rfl⟩ := List.mem_map.mp ht
    obtain ⟨row, hrow, rfl⟩ := List.mem_map.mp hr
    obtain ⟨hmem, -, -, ⟨t, ht, hid, hdate⟩, -⟩ := getTaskItemsByDate_mem db date row hrow
    exact (mem_getTaskHoursByTaskId db date _).mpr ⟨row.1, hmem, t, ht, hid.symm, hdate, rfl⟩
  · intro timestamp ti hti t ht hid hdate
    obtain ⟨db1, hdel, htasks, -, -, -, -, -, hgone⟩ :=
      Delete_spec lk db timestamp ti.task_item_id
    obtain ⟨rows1, hrecs1, hno, -⟩ := hgone date
    refine ⟨db1, _, rows1, hdel, rfl, hrecs1, ?_, hno⟩
    have hdb1 : db1 = deleteTaskItem db timestamp ti.task_item_id := by
      simpa [Delete] using hdel.symm
    rw [mem_getTaskHoursByTaskId]
    refine ⟨deleteRow timestamp ti.task_item_id ti, ?_, t, ?_, ?_, hdate, ?_⟩
    · rw [hdb1]
      exact List.mem_map.mpr ⟨ti, hti, rfl⟩
    · rw [htasks]; exact ht
    · rw [← hid]; unfold deleteRow; split <;> rfl
    · unfold deleteRow; split <;> rfl

end data

namespace frm

open data

/-! ## The claims about the main frame -/

/-- C19: when the storage query throws, `RefreshItems` logs the error and ends with the list
rows as they were, as it leaves them for an empty result; `CalculateTotalTime` logs the
error, goes on with no durations and shows the total of the empty duration list, zero; both
methods return (neither has an exceptional result). -/
theorem C19_storage_error_is_empty (frame : MainFrame) (lk : Lookups)
    (split : String → Char → List String) (format : Int → String) (e : sqlite_exception)
    (dateString : String) :
    RefreshItems frame lk (Except.error e) dateString =
      { frame with pLogger := frame.pLogger ++
          [("Error occured on TaskItemData::GetByDate() - \x7b0:d\x7d : \x7b1\x7d", e.code,
            e.what)] } ∧
    (RefreshItems frame lk (Except.error e) dateString).pListCtrl = frame.pListCtrl ∧
    (∀ db, GetByDate lk (Except.ok db) dateString = Except.ok [] →
      (RefreshItems frame lk (Except.ok db) dateString).pListCtrl = frame.pListCtrl) ∧
    CalculateTotalTime frame split format (Except.error e) dateString =
      some { frame with
        pLogger := (frame.pLogger ++
          [("Error occured on TaskItemData::GetHours() - \x7b0:d\x7d : \x7b1\x7d", e.code,
            e.what)]),
        pTotalHoursText := format 0 } ∧
    (∀ db, GetHours (Except.ok db) dateString = Except.ok [] →
      CalculateTotalTime frame split format (Except.ok db) dateString =
        some { frame with pTotalHoursText := format 0 }) := by
  refine ⟨rfl, rfl, ?_, rfl, ?_⟩
  · intro db h
    simp only [RefreshItems, h]
    rfl
  · intro db h
    simp only [CalculateTotalTime, h]
    rfl

/-- C23, as the code has it: the edit handlers do not check for the sentinel.  Whenever the
type lookup returns a value, 0 included, `OnItemDoubleClick` and `OnPopupMenuEdit` cast it to
the entry type and show the edit form with it in edit mode, leaving the frame as it is; only
when the lookup throws do they log the exception and return without showing the form. -/
theorem C23_handlers_open_form_for_any_type (frame : MainFrame) (env : DialogEnv)
    (storage : Storage) (taskItemId : Int) (dateContext : String) :
    OnPopupMenuEdit frame env storage taskItemId dateContext =
        OnItemDoubleClick frame env storage taskItemId dateContext ∧
      (∀ taskItemTypeId,
        GetTaskItemTypeIdByTaskItemId storage taskItemId = Except.ok taskItemTypeId →
        (OnItemDoubleClick frame env storage taskItemId dateContext).dialog =
            some ⟨taskItemTypeId, true, taskItemId, dateContext⟩ ∧
          (OnItemDoubleClick frame env storage taskItemId dateContext).frame = frame) ∧
      (∀ db, storage = Except.ok db → taskItemId ∉ db.task_items.map (fun ti => ti.task_item_id) →
        GetTaskItemTypeIdByTaskItemId storage taskItemId = Except.ok 0 ∧
          (OnItemDoubleClick frame env storage taskItemId dateContext).dialog =
            some ⟨0, true, taskItemId, dateContext⟩) ∧
      (∀ e, storage = Except.error e →
        (OnItemDoubleClick frame env storage taskItemId dateContext).dialog = none ∧
          (OnItemDoubleClick frame env storage taskItemId dateContext).infoBar = none ∧
          (OnItemDoubleClick frame env storage taskItemId dateContext).frame.pLogger =
            frame.pLogger ++
              [("Error occured on TaskItemData::GetTaskItemTypeIdByTaskItemId() - \x7b0:d\x7d : \x7b1\x7d",
                e.code, e.what)]) := by
  refine ⟨rfl, ?_, ?_, ?_⟩
  · intro taskItemTypeId h
    simp [OnItemDoubleClick, editTaskItem, h]
  · intro db hdb hnot
    subst hdb
    have hnone : getTaskItemTypeIdByTaskItemId db taskItemId = [] := by
      have hflt : (db.task_items.filter fun ti => decide (ti.task_item_id = taskItemId)) =
          [] := by
        simp only [List.filter_eq_nil_iff, decide_eq_true_eq]
        intro ti hti heq
        exact hnot (List.mem_map.mpr ⟨ti, hti, heq⟩)
      simp [getTaskItemTypeIdByTaskItemId, hflt, yielded_nil]
    have h0 : GetTaskItemTypeIdByTaskItemId (Except.ok db) taskItemId = Except.ok 0 := by
      simp [GetTaskItemTypeIdByTaskItemId, hnone]
    exact ⟨h0, by simp [OnItemDoubleClick, editTaskItem, h0]⟩
  · intro e he
    subst he
    simp [OnItemDoubleClick, editTaskItem, GetTaskItemTypeIdByTaskItemId]

/-- C23 fails as stated: no row of `sampleDb` has the task item id 7, the type lookup returns
the sentinel 0 for it, and both handlers show the edit form with the entry type 0. -/
theorem C23_sentinel_not_checked_counterexample :
    GetTaskItemTypeIdByTaskItemId (Except.ok sampleDb) 7 = Except.ok 0 ∧
      (OnItemDoubleClick sampleFrame sampleEnv (Except.ok sampleDb) 7 "2024-01-01").dialog =
        some ⟨0, true, 7, "2024-01-01"⟩ ∧
      (OnPopupMenuEdit sampleFrame sampleEnv (Except.ok sampleDb) 7 "2024-01-01").dialog =
        some ⟨0, true, 7, "2024-01-01"⟩ ∧
      (OnItemDoubleClick sampleFrame sampleEnv (Except.ok sampleDb) 7 "2024-01-01").infoBar =
        some (InfoBarMessage.OnSuccessfulEdit "task") := by
  refine ⟨rfl, ?_, ?_, ?_⟩ <;> decide

/-- A digit character is no white space and no sign, it is a digit, and its code is 48 more
than the digit. -/
theorem digitChar_spec (d : Fin 10) :
    isspace (digitChar d) = false ∧ digitChar d ≠ '-' ∧ digitChar d ≠ '+' ∧
      (digitChar d).isDigit = true ∧ ((digitChar d).toNat : Int) - 48 = (d.val : Int) := by
  revert d
  decide

/-- Reading the digits of a numeral on top of `acc` shifts `acc` by their number and adds
their value. -/
theorem digitsValue_numeral (ds : List (Fin 10)) (acc : Int) :
    digitsValue (ds.map digitChar) acc = acc * 10 ^ ds.length + (numeralValue ds : Int) := by
  induction ds generalizing acc with
  | nil => simp [digitsValue, numeralValue]
  | cons d ds ih =>
    obtain ⟨-, -, -, hdig, hval⟩ := digitChar_spec d
    simp only [List.map_cons, digitsValue, hdig, if_true, hval, ih]
    simp only [numeralValue, List.reverse_cons, List.map_append, List.map_cons, List.map_nil,
      Nat.ofDigits_append, Nat.ofDigits_singleton, List.length_map, List.length_reverse,
      List.length_cons]
    push_cast
    ring

/-- The number read from a numeral is the value of its digits. -/
theorem decimalValue_numeral (ds : List (Fin 10)) :
    decimalValue (numeral ds) = (numeralValue ds : Int) := by
  cases ds with
  | nil => simp [decimalValue, numeral, digitsValue, numeralValue]
  | cons d ds =>
    obtain ⟨hsp, hminus, hplus, -, -⟩ := digitChar_spec d
    have h := digitsValue_numeral (d :: ds) 0
    simp only [List.map_cons, zero_mul, zero_add] at h
    have hdrop : (numeral (d :: ds)).toList.dropWhile isspace =
        digitChar d :: ds.map digitChar := by
      simp [numeral, List.dropWhile_cons, hsp]
    unfold decimalValue
    rw [hdrop]
    split
    · next cs heq => exact absurd (List.cons.inj heq).1 hminus
    · next cs heq => exact absurd (List.cons.inj heq).1 hplus
    · exact h

/-- `atol` of a numeral whose value is in the range of `long` is that value. -/
theorem atol_numeral (ds : List (Fin 10)) (h : (numeralValue ds : Int) ≤ 2147483647) :
    atol (numeral ds) = (numeralValue ds : Int) := by
  have h0 : (0 : Int) ≤ (numeralValue ds : Int) := Int.natCast_nonneg _
  unfold atol saturate LONG_MAX
  rw [decimalValue_numeral]
  split_ifs <;> omega

/-- `atoll` of a numeral whose value is in the range of `long long` is that value. -/
theorem atoll_numeral (ds : List (Fin 10))
    (h : (numeralValue ds : Int) ≤ 9223372036854775807) :
    atoll (numeral ds) = (numeralValue ds : Int) := by
  have h0 : (0 : Int) ≤ (numeralValue ds : Int) := Int.natCast_nonneg _
  unfold atoll saturate LLONG_MAX
  rw [decimalValue_numeral]
  split_ifs <;> omega

/-- A result in the range of `wxLongLong` does not wrap. -/
theorem wxLongLong_of_range {v : Int} (h1 : 0 ≤ v) (h2 : v < 9223372036854775808) :
    wxLongLong v = v := by
  unfold wxLongLong
  omega

theorem DurationFields.span_nonneg (e : DurationFields) : 0 ≤ e.span := by
  have h1 : (0 : Int) ≤ (numeralValue e.hours : Int) := Int.natCast_nonneg _
  have h2 : (0 : Int) ≤ (numeralValue e.minutes : Int) := Int.natCast_nonneg _
  have h3 : (0 : Int) ≤ (numeralValue e.seconds : Int) := Int.natCast_nonneg _
  unfold DurationFields.span
  omega

/-- The span of a duration whose first three fields are numerals, with hours and minutes in
the range of `long` and a span in the range of `wxLongLong`, is the span of their values. -/
theorem durationSpan_fields (split : String → Char → List String) (e : DurationFields)
    (rest : List String)
    (h : split e.duration ':' =
      numeral e.hours :: numeral e.minutes :: numeral e.seconds :: rest)
    (hh : (numeralValue e.hours : Int) ≤ 2147483647)
    (hm : (numeralValue e.minutes : Int) ≤ 2147483647)
    (hspan : e.span < 9223372036854775808) :
    durationSpan split e.duration = some e.span := by
  have h1 : (0 : Int) ≤ (numeralValue e.hours : Int) := Int.natCast_nonneg _
  have h2 : (0 : Int) ≤ (numeralValue e.minutes : Int) := Int.natCast_nonneg _
  have h3 : (0 : Int) ≤ (numeralValue e.seconds : Int) := Int.natCast_nonneg _
  have hs : (numeralValue e.seconds : Int) ≤ 9223372036854775807 := by
    unfold DurationFields.span at hspan
    omega
  have heq : (((numeralValue e.hours : Int) * 60 + (numeralValue e.minutes : Int)) * 60 +
      (numeralValue e.seconds : Int)) * 1000 = e.span := by
    unfold DurationFields.span
    ring
  unfold durationSpan
  rw [h]
  simp only [List.getElem?_cons_zero, List.getElem?_cons_succ]
  rw [atol_numeral _ hh, atol_numeral _ hm, atoll_numeral _ hs]
  unfold wxTimeSpan
  rw [heq, wxLongLong_of_range e.span_nonneg hspan]

/-- When every duration has a span that is not negative and the total stays in the range of
`wxLongLong`, the loop of `CalculateTotalTime` adds the sum of the spans to the total. -/
theorem totalDurationLoop_sum (split : String → Char → List String) (span : String → Int)
    (durations : List String) (totalDuration : Int)
    (h : ∀ d ∈ durations, durationSpan split d = some (span d) ∧ 0 ≤ span d)
    (h0 : 0 ≤ totalDuration)
    (hsum : totalDuration + (durations.map span).sum < 9223372036854775808) :
    totalDurationLoop split durations totalDuration =
      some (totalDuration + (durations.map span).sum) := by
  induction durations generalizing totalDuration with
  | nil => simp [totalDurationLoop]
  | cons d ds ih =>
    have hd := h d (List.mem_cons_self d ds)
    have hrest : ∀ x ∈ ds, durationSpan split x = some (span x) ∧ 0 ≤ span x :=
      fun x hx => h x (List.mem_cons_of_mem d hx)
    have hnn : 0 ≤ (ds.map span).sum :=
      List.sum_nonneg fun x hx => by
        obtain ⟨y, hy, rfl⟩ := List.mem_map.mp hx
        exact (hrest y hy).2
    rw [List.map_cons, List.sum_cons] at hsum
    simp only [totalDurationLoop, hd.1, List.map_cons, List.sum_cons]
    rw [wxLongLong_of_range (by omega) (by omega), ih _ hrest (by omega) (by omega)]
    refine congrArg some ?_
    ring

/-- C30, as the code has it: when `GetHours` returns durations whose first three
':'-separated fields are the numerals of H, M and S, with H and M in the range of `long` and
the sum of the spans in the range of `wxLongLong`, `CalculateTotalTime` returns and sets the
label to the format of the sum over the list of H hours + M minutes + S seconds (in
milliseconds); for the empty list the total is zero; and a storage that returns the same
durations in another order gives the same label. -/
theorem C30_total_is_sum_of_durations (frame : MainFrame) (split : String → Char → List String)
    (format : Int → String) (storage : Storage) (dateString : String)
    (fields : List DurationFields)
    (hform : ∀ e ∈ fields, ∃ rest, split e.duration ':' =
      numeral e.hours :: numeral e.minutes :: numeral e.seconds :: rest)
    (hlong : ∀ e ∈ fields, (numeralValue e.hours : Int) ≤ 2147483647 ∧
      (numeralValue e.minutes : Int) ≤ 2147483647)
    (htotal : (fields.map DurationFields.span).sum < 9223372036854775808)
    (hhours : GetHours storage dateString = Except.ok (fields.map DurationFields.duration)) :
    CalculateTotalTime frame split format storage dateString =
        some { frame with pTotalHoursText := format (fields.map DurationFields.span).sum } ∧
      (fields = [] → CalculateTotalTime frame split format storage dateString =
        some { frame with pTotalHoursText := format 0 }) ∧
      (∀ (storage1 : Storage) (durations1 : List String),
        durations1.Perm (fields.map DurationFields.duration) →
        GetHours storage1 dateString = Except.ok durations1 →
        CalculateTotalTime frame split format storage1 dateString =
          CalculateTotalTime frame split format storage dateString) := by
  have hnn : ∀ x ∈ fields.map DurationFields.span, (0 : Int) ≤ x := by
    intro x hx
    obtain ⟨e, -, rfl⟩ := List.mem_map.mp hx
    exact e.span_nonneg
  have hle : ∀ e ∈ fields, e.span < 9223372036854775808 := fun e he =>
    lt_of_le_of_lt (List.single_le_sum hnn _ (List.mem_map.mpr ⟨e, he, rfl⟩)) htotal
  have hfield : ∀ e ∈ fields, durationSpan split e.duration = some e.span := by
    intro e he
    obtain ⟨rest, hrest⟩ := hform e he
    exact durationSpan_fields split e rest hrest (hlong e he).1 (hlong e he).2 (hle e he)
  have hspan : ∀ d ∈ fields.map DurationFields.duration,
      durationSpan split d = some ((durationSpan split d).getD 0) ∧
        0 ≤ (durationSpan split d).getD 0 := by
    intro d hd
    obtain ⟨e, he, rfl⟩ := List.mem_map.mp hd
    rw [hfield e he]
    exact ⟨rfl, e.span_nonneg⟩
  have hsum : ((fields.map DurationFields.duration).map
      fun d => (durationSpan split d).getD 0).sum = (fields.map DurationFields.span).sum := by
    congr 1
    rw [List.map_map]
    apply List.map_congr_left
    intro e he
    simp [hfield e he]
  have hmain : CalculateTotalTime frame split format storage dateString =
      some { frame with pTotalHoursText := format (fields.map DurationFields.span).sum } := by
    simp only [CalculateTotalTime, hhours]
    rw [totalDurationLoop_sum split _ _ 0 hspan le_rfl (by rw [hsum]; omega), hsum]
    simp
  refine ⟨hmain, ?_, ?_⟩
  · intro hnil
    rw [hmain, hnil]
    rfl
  · intro storage1 durations1 hperm hhours1
    rw [hmain]
    simp only [CalculateTotalTime, hhours1]
    have hsum1 : (durations1.map fun d => (durationSpan split d).getD 0).sum =
        (fields.map DurationFields.span).sum := by
      rw [(hperm.map _).sum_eq, hsum]
    rw [totalDurationLoop_sum split _ _ 0 (fun d hd => hspan d (hperm.mem_iff.mp hd)) le_rfl
      (by rw [hsum1]; omega), hsum1]
    simp

/-- C30 on `hoursDb`, whose durations on 2024-01-01 are "01:30:00" and "00:45:15": the total
is 2 hours, 15 minutes and 15 seconds, that is 8115000 milliseconds. -/
theorem C30_total_is_sum_of_durations_witness :
    (∀ e ∈ [(⟨"01:30:00", [0, 1], [3, 0], [0, 0]⟩ : DurationFields),
        ⟨"00:45:15", [0, 0], [4, 5], [1, 5]⟩],
      ∃ rest, sampleSplit e.duration ':' =
        numeral e.hours :: numeral e.minutes :: numeral e.seconds :: rest) ∧
    (∀ e ∈ [(⟨"01:30:00", [0, 1], [3, 0], [0, 0]⟩ : DurationFields),
        ⟨"00:45:15", [0, 0], [4, 5], [1, 5]⟩],
      (numeralValue e.hours : Int) ≤ 2147483647 ∧ (numeralValue e.minutes : Int) ≤ 2147483647) ∧
    ([(⟨"01:30:00", [0, 1], [3, 0], [0, 0]⟩ : DurationFields),
        ⟨"00:45:15", [0, 0], [4, 5], [1, 5]⟩].map DurationFields.span).sum <
      9223372036854775808 ∧
    GetHours (Except.ok hoursDb) "2024-01-01" = Except.ok ["01:30:00", "00:45:15"] ∧
    CalculateTotalTime sampleFrame sampleSplit (fun ms => toString ms) (Except.ok hoursDb)
        "2024-01-01" =
      some { sampleFrame with pTotalHoursText := toString (8115000 : Int) } :=
  have hform : ∀ e ∈ [(⟨"01:30:00", [0, 1], [3, 0], [0, 0]⟩ : DurationFields),
        ⟨"00:45:15", [0, 0], [4, 5], [1, 5]⟩],
      ∃ rest, sampleSplit e.duration ':' =
        numeral e.hours :: numeral e.minutes :: numeral e.seconds :: rest := by
    intro e he
    simp only [List.mem_cons, List.mem_singleton, List.not_mem_nil, or_false] at he
    rcases he with rfl | rfl <;> exact ⟨[], by decide⟩
  have hlong : ∀ e ∈ [(⟨"01:30:00", [0, 1], [3, 0], [0, 0]⟩ : DurationFields),
        ⟨"00:45:15", [0, 0], [4, 5], [1, 5]⟩],
      (numeralValue e.hours : Int) ≤ 2147483647 ∧
        (numeralValue e.minutes : Int) ≤ 2147483647 := by
    intro e he
    simp only [List.mem_cons, List.mem_singleton, List.not_mem_nil, or_false] at he
    rcases he with rfl | rfl <;> decide
  ⟨hform, hlong, by decide, rfl,
    (C30_total_is_sum_of_durations sampleFrame sampleSplit (fun ms => toString ms)
      (Except.ok hoursDb) "2024-01-01" _ hform hlong (by decide) rfl).1.trans (by decide)⟩

/-- C30 as stated fails: the duration "99999999999999999999:00:00" of `longHoursDb` has the
three numeric fields 99999999999999999999, 00 and 00, so that H hours are
359999999999999999996400000 milliseconds; `atol` returns `LONG_MAX` for the hours field and
`CalculateTotalTime` shows the total of 2147483647 hours, 7730941129200000 milliseconds. -/
theorem C30_total_is_sum_of_durations_counterexample :
    sampleSplit "99999999999999999999:00:00" ':' =
      [numeral [9, 9, 9, 9, 9, 9, 9, 9, 9, 9, 9, 9, 9, 9, 9, 9, 9, 9, 9, 9], numeral [0, 0],
        numeral [0, 0]] ∧
    (⟨"99999999999999999999:00:00", [9, 9, 9, 9, 9, 9, 9, 9, 9, 9, 9, 9, 9, 9, 9, 9, 9, 9, 9, 9],
      [0, 0], [0, 0]⟩ : DurationFields).span = 359999999999999999996400000 ∧
    (GetHours (Except.ok longHoursDb) "2024-01-01").toOption =
      some ["99999999999999999999:00:00"] ∧
    totalDurationLoop sampleSplit ["99999999999999999999:00:00"] 0 = some 7730941129200000 ∧
    CalculateTotalTime sampleFrame sampleSplit (fun ms => toString ms) (Except.ok longHoursDb)
        "2024-01-01" =
      some { sampleFrame with pTotalHoursText := toString (7730941129200000 : Int) } := by
  refine ⟨by decide, by decide, by decide, by decide, by decide⟩

end frm

end app
